import Mathlib

/-!
# Glulxe execution core

A shallow embedding of the interpreter loop of `exec.c` (`execute_loop`) and a
verification of the properties stated for it.

Conventions of the embedding:

* a `glui32` word is a natural number below `2^32`; every arithmetic result the
  C code keeps in a `glui32` is reduced modulo `2^32` explicitly;
* a `glsi32` value is an integer obtained from a word by the two's-complement
  reading (`glsi32`), and a signed result is brought back to a word by `glui32`;
* `fatal_error` does not return: an opcode is an `Except String VM` computation
  whose `error` outcome is the fatal error with its message;
* helpers of the interpreter that live outside `exec.c` (`store_operand`,
  `leave_function`, `pop_callstub`, `push_callstub`, `perform_restore`, ...) are
  fields of the record `Collab`; a helper that returns a value and changes the
  machine state yields the pair of both.
-/

namespace Glulxe

/-! ## Machine integers -/

/-- Conversion of an integer to `glui32`: reduction modulo `2^32`. -/
def glui32 (x : Int) : Nat := (x % 4294967296).toNat

/-- Conversion of a word to `glsi32`: the two's-complement reading of its low
32 bits. -/
def glsi32 (x : Nat) : Int :=
  if x % 4294967296 < 2147483648 then ((x % 4294967296 : Nat) : Int)
  else ((x % 4294967296 : Nat) : Int) - 4294967296

/-! ## Machine state -/

/-- An `oparg_t`: a decoded operand, `value` for a load operand, the pair
`(desttype, value)` for a store operand. -/
structure oparg_t where
  desttype : Nat
  value : Nat

/-- The global state of the virtual machine, together with the loop flag
`done_executing` of `execute_loop`. `memmap` and `stack` are byte arrays,
indexed by byte offset. -/
structure VM where
  memmap : Nat → Nat
  stack : Nat → Nat
  ramstart : Nat
  endmem : Nat
  stacksize : Nat
  pc : Nat
  stackptr : Nat
  frameptr : Nat
  valstackbase : Nat
  protectstart : Nat
  protectend : Nat
  done_executing : Bool

/-- The helpers `execute_loop` calls that are defined outside `exec.c`. -/
structure Collab where
  store_operand : Nat → Nat → Nat → VM → Except String VM
  leave_function : VM → Except String VM
  pop_callstub : Nat → VM → Except String VM
  push_callstub : Nat → Nat → VM → Except String VM
  find_stream_by_id : Nat → VM → Nat
  perform_restore : Nat → VM → Except String (Nat × VM)
  perform_restoreundo : VM → Except String (Nat × VM)
  glulx_random : VM → Nat × VM

/-- The call `fatal_error(msg)`: execution stops with the message. -/
def fatal_error {α : Type} (msg : String) : Except String α := Except.error msg

/-- Modelled from the spec: the accessor macro `Mem1` of `glulxe.h`. It reads
the byte at `adr` of the memory image; an access with `adr + 1 > endmem` is a
fatal error. -/
def Mem1 (st : VM) (adr : Nat) : Except String Nat :=
  if adr + 1 ≤ st.endmem then Except.ok (st.memmap adr % 256)
  else fatal_error "Memory access out of range"

/-- Modelled from the spec: the accessor macro `MemW1` of `glulxe.h`. It writes
the low 8 bits of `v` to the byte at `adr` of the memory image; a write below
`ramstart` (ROM) and an access with `adr + 1 > endmem` are fatal errors. -/
def MemW1 (st : VM) (adr : Nat) (v : Nat) : Except String VM :=
  if adr < st.ramstart then fatal_error "Memory write to read-only address"
  else if adr + 1 ≤ st.endmem then
    Except.ok { st with memmap := fun a => if a = adr then v % 256 else st.memmap a }
  else fatal_error "Memory access out of range"

/-- Modelled from the spec: the accessor macro `Stk4` of `glulxe.h`. It reads
the 32-bit value held in the four stack bytes at offset `ptr`. -/
def Stk4 (st : VM) (ptr : Nat) : Nat :=
  (st.stack ptr % 256) * 16777216 + (st.stack (ptr + 1) % 256) * 65536
    + (st.stack (ptr + 2) % 256) * 256 + st.stack (ptr + 3) % 256

/-- Modelled from the spec: the accessor macro `StkW4` of `glulxe.h`. It writes
the 32-bit value `v` into the four stack bytes at offset `ptr`. -/
def StkW4 (st : VM) (ptr : Nat) (v : Nat) : VM :=
  { st with stack := fun a =>
      if a = ptr then v / 16777216 % 256
      else if a = ptr + 1 then v / 65536 % 256
      else if a = ptr + 2 then v / 256 % 256
      else if a = ptr + 3 then v % 256
      else st.stack a }

/-! ## Arithmetic opcodes -/

/-- The case `op_div` of `execute_loop`. -/
def op_div (c : Collab) (inst : Nat → oparg_t) (st : VM) : Except String VM :=
  let vals0 := glsi32 (inst 0).value
  let vals1 := glsi32 (inst 1).value
  if vals1 = 0 then fatal_error "Division by zero."
  else
    let value : Nat :=
      if vals0 < 0 then
        let val0 := glui32 (-vals0)
        if vals1 < 0 then
          let val1 := glui32 (-vals1)
          val0 / val1
        else
          let val1 := glui32 vals1
          glui32 (-((val0 / val1 : Nat) : Int))
      else
        let val0 := glui32 vals0
        if vals1 < 0 then
          let val1 := glui32 (-vals1)
          glui32 (-((val0 / val1 : Nat) : Int))
        else
          let val1 := glui32 vals1
          val0 / val1
    c.store_operand (inst 2).desttype (inst 2).value value st

/-- The case `op_mod` of `execute_loop`. -/
def op_mod (c : Collab) (inst : Nat → oparg_t) (st : VM) : Except String VM :=
  let vals0 := glsi32 (inst 0).value
  let vals1 := glsi32 (inst 1).value
  if vals1 = 0 then fatal_error "Division by zero doing remainder."
  else
    let val1 : Nat := if vals1 < 0 then glui32 (-vals1) else glui32 vals1
    let value : Nat :=
      if vals0 < 0 then
        let val0 := glui32 (-vals0)
        glui32 (-((val0 % val1 : Nat) : Int))
      else
        let val0 := glui32 vals0
        val0 % val1
    c.store_operand (inst 2).desttype (inst 2).value value st

/-- The case `op_shiftl` of `execute_loop`. -/
def op_shiftl (c : Collab) (inst : Nat → oparg_t) (st : VM) : Except String VM :=
  let vals0 := glsi32 (inst 1).value
  let value : Nat :=
    if vals0 < 0 ∨ vals0 ≥ 32 then 0
    else ((inst 0).value <<< glui32 vals0) % 4294967296
  c.store_operand (inst 2).desttype (inst 2).value value st

/-- The case `op_ushiftr` of `execute_loop`. -/
def op_ushiftr (c : Collab) (inst : Nat → oparg_t) (st : VM) : Except String VM :=
  let vals0 := glsi32 (inst 1).value
  let value : Nat :=
    if vals0 < 0 ∨ vals0 ≥ 32 then 0
    else (inst 0).value >>> glui32 vals0
  c.store_operand (inst 2).desttype (inst 2).value value st

/-- The case `op_sshiftr` of `execute_loop`. In range, the right shift of the
signed value replicates the sign bit, as the source assumes of its compiler. -/
def op_sshiftr (c : Collab) (inst : Nat → oparg_t) (st : VM) : Except String VM :=
  let vals0 := glsi32 (inst 1).value
  let value : Nat :=
    if vals0 < 0 ∨ vals0 ≥ 32 then
      if (inst 0).value &&& 2147483648 ≠ 0 then 4294967295 else 0
    else glui32 (glsi32 (inst 0).value >>> vals0.toNat)
  c.store_operand (inst 2).desttype (inst 2).value value st

/-! ## Opcode fetch -/

/-- The opcode fetch at the top of the loop body of `execute_loop`: the opcode
number read at `pc`, and the state with `pc` moved past it. -/
def fetch_opcode (st : VM) : Except String (Nat × VM) := do
  let opcode ← Mem1 st st.pc
  let st := { st with pc := (st.pc + 1) % 4294967296 }
  if opcode &&& 0x80 ≠ 0 then
    if opcode &&& 0x40 ≠ 0 then
      let opcode := opcode &&& 0x3F
      let b1 ← Mem1 st st.pc
      let opcode := ((opcode <<< 8) % 4294967296) ||| b1
      let st := { st with pc := (st.pc + 1) % 4294967296 }
      let b2 ← Mem1 st st.pc
      let opcode := ((opcode <<< 8) % 4294967296) ||| b2
      let st := { st with pc := (st.pc + 1) % 4294967296 }
      let b3 ← Mem1 st st.pc
      let opcode := ((opcode <<< 8) % 4294967296) ||| b3
      let st := { st with pc := (st.pc + 1) % 4294967296 }
      pure (opcode, st)
    else
      let opcode := opcode &&& 0x7F
      let b1 ← Mem1 st st.pc
      let opcode := ((opcode <<< 8) % 4294967296) ||| b1
      let st := { st with pc := (st.pc + 1) % 4294967296 }
      pure (opcode, st)
  else
    pure (opcode, st)

/-! ## Branches and returns -/

/-- The case `op_nop` of `execute_loop`. -/
def op_nop (_c : Collab) (_inst : Nat → oparg_t) (st : VM) : Except String VM :=
  Except.ok st

/-- The code at the label `PerformJump` of `execute_loop`, entered with the
branch operand in `value`. -/
def PerformJump (c : Collab) (value : Nat) (st : VM) : Except String VM :=
  if value = 0 ∨ value = 1 then do
    let st ← c.leave_function st
    if st.stackptr = 0 then
      pure { st with done_executing := true }
    else
      c.pop_callstub value st
  else
    pure { st with pc := glui32 ((st.pc : Int) + (value : Int) - 2) }

/-- The case `op_jump` of `execute_loop`. -/
def op_jump (c : Collab) (inst : Nat → oparg_t) (st : VM) : Except String VM :=
  let value := (inst 0).value
  PerformJump c value st

/-- The case `op_jz` of `execute_loop`. -/
def op_jz (c : Collab) (inst : Nat → oparg_t) (st : VM) : Except String VM :=
  if (inst 0).value = 0 then PerformJump c (inst 1).value st else Except.ok st

/-- The case `op_jnz` of `execute_loop`. -/
def op_jnz (c : Collab) (inst : Nat → oparg_t) (st : VM) : Except String VM :=
  if (inst 0).value ≠ 0 then PerformJump c (inst 1).value st else Except.ok st

/-- The case `op_jeq` of `execute_loop`. -/
def op_jeq (c : Collab) (inst : Nat → oparg_t) (st : VM) : Except String VM :=
  if (inst 0).value = (inst 1).value then PerformJump c (inst 2).value st else Except.ok st

/-- The case `op_jne` of `execute_loop`. -/
def op_jne (c : Collab) (inst : Nat → oparg_t) (st : VM) : Except String VM :=
  if (inst 0).value ≠ (inst 1).value then PerformJump c (inst 2).value st else Except.ok st

/-- The case `op_jlt` of `execute_loop`. -/
def op_jlt (c : Collab) (inst : Nat → oparg_t) (st : VM) : Except String VM :=
  let vals0 := glsi32 (inst 0).value
  let vals1 := glsi32 (inst 1).value
  if vals0 < vals1 then PerformJump c (inst 2).value st else Except.ok st

/-- The case `op_jgt` of `execute_loop`. -/
def op_jgt (c : Collab) (inst : Nat → oparg_t) (st : VM) : Except String VM :=
  let vals0 := glsi32 (inst 0).value
  let vals1 := glsi32 (inst 1).value
  if vals0 > vals1 then PerformJump c (inst 2).value st else Except.ok st

/-- The case `op_jle` of `execute_loop`. -/
def op_jle (c : Collab) (inst : Nat → oparg_t) (st : VM) : Except String VM :=
  let vals0 := glsi32 (inst 0).value
  let vals1 := glsi32 (inst 1).value
  if vals0 ≤ vals1 then PerformJump c (inst 2).value st else Except.ok st

/-- The case `op_jge` of `execute_loop`. -/
def op_jge (c : Collab) (inst : Nat → oparg_t) (st : VM) : Except String VM :=
  let vals0 := glsi32 (inst 0).value
  let vals1 := glsi32 (inst 1).value
  if vals0 ≥ vals1 then PerformJump c (inst 2).value st else Except.ok st

/-- The case `op_jltu` of `execute_loop`. -/
def op_jltu (c : Collab) (inst : Nat → oparg_t) (st : VM) : Except String VM :=
  let val0 := (inst 0).value
  let val1 := (inst 1).value
  if val0 < val1 then PerformJump c (inst 2).value st else Except.ok st

/-- The case `op_jgtu` of `execute_loop`. -/
def op_jgtu (c : Collab) (inst : Nat → oparg_t) (st : VM) : Except String VM :=
  let val0 := (inst 0).value
  let val1 := (inst 1).value
  if val0 > val1 then PerformJump c (inst 2).value st else Except.ok st

/-- The case `op_jleu` of `execute_loop`. -/
def op_jleu (c : Collab) (inst : Nat → oparg_t) (st : VM) : Except String VM :=
  let val0 := (inst 0).value
  let val1 := (inst 1).value
  if val0 ≤ val1 then PerformJump c (inst 2).value st else Except.ok st

/-- The case `op_jgeu` of `execute_loop`. -/
def op_jgeu (c : Collab) (inst : Nat → oparg_t) (st : VM) : Except String VM :=
  let val0 := (inst 0).value
  let val1 := (inst 1).value
  if val0 ≥ val1 then PerformJump c (inst 2).value st else Except.ok st

/-- The case `op_return` of `execute_loop`. -/
def op_return (c : Collab) (inst : Nat → oparg_t) (st : VM) : Except String VM := do
  let st ← c.leave_function st
  if st.stackptr = 0 then
    pure { st with done_executing := true }
  else
    c.pop_callstub (inst 0).value st

/-- The return of a value from the current function as the specification words
it: leave the current function, then either terminate (if the stack is empty)
or pop a call stub and store the value through it. -/
def spec_return (c : Collab) (v : Nat) (st : VM) : Except String VM :=
  match c.leave_function st with
  | Except.error e => Except.error e
  | Except.ok st1 =>
    if st1.stackptr = 0 then Except.ok { st1 with done_executing := true }
    else c.pop_callstub v st1

/-! ## Stack manipulation -/

/-- The case `op_stkcount` of `execute_loop`. -/
def op_stkcount (c : Collab) (inst : Nat → oparg_t) (st : VM) : Except String VM :=
  let value := glui32 ((st.stackptr : Int) - (st.valstackbase : Int)) / 4
  c.store_operand (inst 0).desttype (inst 0).value value st

/-- The case `op_stkpeek` of `execute_loop`. The product `inst[0].value * 4` is
a `glui32` product; the comparison of `vals0` with the unsigned difference
`stackptr - valstackbase` is an unsigned comparison. -/
def op_stkpeek (c : Collab) (inst : Nat → oparg_t) (st : VM) : Except String VM :=
  let vals0 := glsi32 (((inst 0).value * 4) % 4294967296)
  if vals0 < 0 ∨ glui32 vals0 ≥ glui32 ((st.stackptr : Int) - (st.valstackbase : Int)) then
    fatal_error "Stkpeek outside current stack range."
  else
    let value := Stk4 st (glui32 ((st.stackptr : Int) - (vals0 + 4)))
    c.store_operand (inst 1).desttype (inst 1).value value st

/-- The first loop of the case `op_stkroll`: the lowest `vals1` entries of the
group starting at `addr` are copied to the cells starting at `stackptr`. -/
def stkroll_save (stackptr addr : Nat) (vals1 : Int) (st : VM) : VM :=
  (List.range vals1.toNat).foldl
    (fun (s : VM) (ix : Nat) =>
      let value := Stk4 s (glui32 ((addr : Int) + (ix : Int) * 4))
      StkW4 s (glui32 ((stackptr : Int) + (ix : Int) * 4)) value)
    st

/-- The second loop of the case `op_stkroll`: entry `ix` of the group receives
the entry found `vals1` positions further up. -/
def stkroll_shift (addr : Nat) (vals0 vals1 : Int) (st : VM) : VM :=
  (List.range vals0.toNat).foldl
    (fun (s : VM) (ix : Nat) =>
      let value := Stk4 s (glui32 ((addr : Int) + (vals1 + (ix : Int)) * 4))
      StkW4 s (glui32 ((addr : Int) + (ix : Int) * 4)) value)
    st

/-- The case `op_stkroll` of `execute_loop`. The remainder `%` of two `int`s
truncates toward zero, and the negation `-vals1` wraps at `INT_MIN`. -/
def op_stkroll (_c : Collab) (inst : Nat → oparg_t) (st : VM) : Except String VM :=
  let vals0 := glsi32 (inst 0).value
  let vals1 := glsi32 (inst 1).value
  if vals0 < 0 then fatal_error "Negative operand in stkroll."
  else if st.stackptr < glui32 ((st.valstackbase : Int) + vals0 * 4) then
    fatal_error "Stack underflow in stkroll."
  else if vals0 = 0 then Except.ok st
  else
    let vals1 : Int :=
      if vals1 > 0 then vals0 - Int.tmod vals1 vals0
      else Int.tmod (glsi32 (glui32 (-vals1))) vals0
    if vals1 = 0 then Except.ok st
    else
      let addr := glui32 ((st.stackptr : Int) - vals0 * 4)
      let st := stkroll_save st.stackptr addr vals1 st
      let st := stkroll_shift addr vals0 vals1 st
      Except.ok st

/-- The case `op_stkswap` of `execute_loop`. -/
def op_stkswap (_c : Collab) (_inst : Nat → oparg_t) (st : VM) : Except String VM :=
  if st.stackptr < (st.valstackbase + 8) % 4294967296 then
    fatal_error "Stack underflow in stkswap."
  else
    let val0 := Stk4 st (glui32 ((st.stackptr : Int) - 4))
    let val1 := Stk4 st (glui32 ((st.stackptr : Int) - 8))
    let st := StkW4 st (glui32 ((st.stackptr : Int) - 4)) val1
    let st := StkW4 st (glui32 ((st.stackptr : Int) - 8)) val0
    Except.ok st

/-- The loop of the case `op_stkcopy`: entry `ix` of the group starting at
`addr` is copied to the cell `ix` places above `stackptr`. -/
def stkcopy_loop (stackptr addr : Nat) (vals0 : Int) (st : VM) : VM :=
  (List.range vals0.toNat).foldl
    (fun (s : VM) (ix : Nat) =>
      let value := Stk4 s (glui32 ((addr : Int) + (ix : Int) * 4))
      StkW4 s (glui32 ((stackptr : Int) + (ix : Int) * 4)) value)
    st

/-- The case `op_stkcopy` of `execute_loop`. The product `vals0*4` enters
`glui32` sums and comparisons, which are taken modulo `2^32`. -/
def op_stkcopy (_c : Collab) (inst : Nat → oparg_t) (st : VM) : Except String VM :=
  let vals0 := glsi32 (inst 0).value
  if vals0 < 0 then fatal_error "Negative operand in stkcopy."
  else if vals0 = 0 then Except.ok st
  else if st.stackptr < glui32 ((st.valstackbase : Int) + vals0 * 4) then
    fatal_error "Stack underflow in stkcopy."
  else if glui32 ((st.stackptr : Int) + vals0 * 4) > st.stacksize then
    fatal_error "Stack overflow in stkcopy."
  else
    let addr := glui32 ((st.stackptr : Int) - vals0 * 4)
    let st1 := stkcopy_loop st.stackptr addr vals0 st
    Except.ok { st1 with stackptr := glui32 ((st1.stackptr : Int) + vals0 * 4) }

/-! ## Sign extension -/

/-- The case `op_sexs` of `execute_loop`. -/
def op_sexs (c : Collab) (inst : Nat → oparg_t) (st : VM) : Except String VM :=
  let val0 := (inst 0).value
  let val0 := if val0 &&& 0x8000 ≠ 0 then val0 ||| 0xFFFF0000 else val0 &&& 0x0000FFFF
  c.store_operand (inst 1).desttype (inst 1).value val0 st

/-- The case `op_sexb` of `execute_loop`. -/
def op_sexb (c : Collab) (inst : Nat → oparg_t) (st : VM) : Except String VM :=
  let val0 := (inst 0).value
  let val0 := if val0 &&& 0x80 ≠ 0 then val0 ||| 0xFFFFFF00 else val0 &&& 0x000000FF
  c.store_operand (inst 1).desttype (inst 1).value val0 st

/-! ## Bit access and block copy in memory -/

/-- The case `op_aloadbit` of `execute_loop`. The `&` of the signed index with
7 acts on its two's-complement bits. -/
def op_aloadbit (c : Collab) (inst : Nat → oparg_t) (st : VM) : Except String VM := do
  let value := (inst 0).value
  let vals0 := glsi32 (inst 1).value
  let val1 := glui32 vals0 &&& 7
  let value :=
    if vals0 ≥ 0 then glui32 ((value : Int) + (vals0 >>> (3 : Nat)))
    else glui32 ((value : Int) - (1 + ((-1 - vals0) >>> (3 : Nat))))
  let b ← Mem1 st value
  let val0 : Nat := if b &&& (1 <<< val1) ≠ 0 then 1 else 0
  c.store_operand (inst 2).desttype (inst 2).value val0 st

/-- The case `op_astorebit` of `execute_loop`. The complement `~` is that of a
`glui32`. -/
def op_astorebit (_c : Collab) (inst : Nat → oparg_t) (st : VM) : Except String VM := do
  let value := (inst 0).value
  let vals0 := glsi32 (inst 1).value
  let val1 := glui32 vals0 &&& 7
  let value :=
    if vals0 ≥ 0 then glui32 ((value : Int) + (vals0 >>> (3 : Nat)))
    else glui32 ((value : Int) - (1 + ((-1 - vals0) >>> (3 : Nat))))
  let val0 ← Mem1 st value
  let val0 :=
    if (inst 2).value ≠ 0 then val0 ||| (1 <<< val1)
    else val0 &&& (4294967295 ^^^ (1 <<< val1))
  MemW1 st value val0

/-- The first loop of the case `op_mcopy` (taken when `addrdest < addrsrc`),
with `n` iterations left: bytes are copied at increasing addresses. -/
def mcopy_up : Nat → Nat → Nat → VM → Except String VM
  | 0, _, _, st => Except.ok st
  | n + 1, addrsrc, addrdest, st => do
    let value ← Mem1 st addrsrc
    let st ← MemW1 st addrdest value
    mcopy_up n ((addrsrc + 1) % 4294967296) ((addrdest + 1) % 4294967296) st

/-- The second loop of the case `op_mcopy`, with `n` iterations left: bytes are
copied at decreasing addresses. -/
def mcopy_down : Nat → Nat → Nat → VM → Except String VM
  | 0, _, _, st => Except.ok st
  | n + 1, addrsrc, addrdest, st => do
    let value ← Mem1 st addrsrc
    let st ← MemW1 st addrdest value
    mcopy_down n ((addrsrc + 4294967295) % 4294967296) ((addrdest + 4294967295) % 4294967296) st

/-- The case `op_mcopy` of `execute_loop`. -/
def op_mcopy (_c : Collab) (inst : Nat → oparg_t) (st : VM) : Except String VM :=
  let count := (inst 0).value
  let addrsrc := (inst 1).value
  let addrdest := (inst 2).value
  if addrdest < addrsrc then
    mcopy_up count addrsrc addrdest st
  else
    let addrsrc := glui32 ((addrsrc : Int) + ((count : Int) - 1))
    let addrdest := glui32 ((addrdest : Int) + ((count : Int) - 1))
    mcopy_down count addrsrc addrdest st

/-! ## Absolute jump, catch and throw, restore -/

/-- The case `op_jumpabs` of `execute_loop`. -/
def op_jumpabs (_c : Collab) (inst : Nat → oparg_t) (st : VM) : Except String VM :=
  Except.ok { st with pc := (inst 0).value }

/-- The case `op_catch` of `execute_loop`. -/
def op_catch (c : Collab) (inst : Nat → oparg_t) (st : VM) : Except String VM := do
  let st ← c.push_callstub (inst 0).desttype (inst 0).value st
  let value := (inst 1).value
  let val0 := st.stackptr
  let st ← c.store_operand (inst 0).desttype (inst 0).value val0 st
  PerformJump c value st

/-- The case `op_throw` of `execute_loop`. -/
def op_throw (c : Collab) (inst : Nat → oparg_t) (st : VM) : Except String VM :=
  let value := (inst 0).value
  let st := { st with stackptr := (inst 1).value }
  c.pop_callstub value st

/-- The case `op_restore` of `execute_loop`. -/
def op_restore (c : Collab) (inst : Nat → oparg_t) (st : VM) : Except String VM := do
  let (value, st) ← c.perform_restore (c.find_stream_by_id (inst 0).value st) st
  if value = 0 then
    let value := 4294967295
    c.pop_callstub value st
  else
    c.store_operand (inst 1).desttype (inst 1).value value st

/-- The case `op_restoreundo` of `execute_loop`. -/
def op_restoreundo (c : Collab) (inst : Nat → oparg_t) (st : VM) : Except String VM := do
  let (value, st) ← c.perform_restoreundo st
  if value = 0 then
    let value := 4294967295
    c.pop_callstub value st
  else
    c.store_operand (inst 0).desttype (inst 0).value value st

/-! ## Call stubs -/

/-- Modelled from the spec: `push_callstub` of `funcs.c`. It pushes the 16-byte
record `desttype`, `destaddr`, `pc`, `frameptr`, in this order, on top of the
stack; a stack without room for it is a fatal error (stack overflow). -/
def push_callstub (desttype destaddr : Nat) (st : VM) : Except String VM :=
  if st.stackptr + 16 > st.stacksize then fatal_error "Stack overflow in callstub."
  else
    let st1 := StkW4 st (st.stackptr + 0) desttype
    let st1 := StkW4 st1 (st.stackptr + 4) destaddr
    let st1 := StkW4 st1 (st.stackptr + 8) st.pc
    let st1 := StkW4 st1 (st.stackptr + 12) st.frameptr
    Except.ok { st1 with stackptr := st.stackptr + 16 }

/-- Modelled from the spec: `pop_callstub` of `funcs.c`. It pops the 16-byte
record on top of the stack (fewer than 16 bytes there is a fatal error, stack
underflow), restores `pc` and `frameptr` from it and with them the parent
frame, whose value stack starts one frame length above `frameptr`, and writes
the returned value through the destination the record names. -/
def pop_callstub (store_operand : Nat → Nat → Nat → VM → Except String VM)
    (returnvalue : Nat) (st : VM) : Except String VM :=
  if st.stackptr < 16 then fatal_error "Stack underflow in callstub."
  else
    let sp := st.stackptr - 16
    let newfp := Stk4 st (sp + 12)
    let newpc := Stk4 st (sp + 8)
    let destaddr := Stk4 st (sp + 4)
    let desttype := Stk4 st (sp + 0)
    let st := { st with stackptr := sp, pc := newpc, frameptr := newfp,
                        valstackbase := (newfp + Stk4 st newfp) % 4294967296 }
    store_operand desttype destaddr returnvalue st

/-- The offsets of the stack cells the case `op_stkroll` hands to `Stk4` and to
`StkW4`, in program order: in the first loop the cell read, then the cell
written above `stackptr`; in the second loop the cell read, then the cell
written. A run that ends in a fatal error or at a `break` touches none. -/
def stkroll_cells (inst : Nat → oparg_t) (st : VM) : List Nat :=
  let vals0 := glsi32 (inst 0).value
  let vals1 := glsi32 (inst 1).value
  if vals0 < 0 then []
  else if st.stackptr < glui32 ((st.valstackbase : Int) + vals0 * 4) then []
  else if vals0 = 0 then []
  else
    let vals1 : Int :=
      if vals1 > 0 then vals0 - Int.tmod vals1 vals0
      else Int.tmod (glsi32 (glui32 (-vals1))) vals0
    if vals1 = 0 then []
    else
      let addr := glui32 ((st.stackptr : Int) - vals0 * 4)
      (List.range vals1.toNat).foldl
          (fun (acc : List Nat) (ix : Nat) =>
            acc ++ [glui32 ((addr : Int) + (ix : Int) * 4),
                    glui32 ((st.stackptr : Int) + (ix : Int) * 4)])
          []
        ++ (List.range vals0.toNat).foldl
          (fun (acc : List Nat) (ix : Nat) =>
            acc ++ [glui32 ((addr : Int) + (vals1 + (ix : Int)) * 4),
                    glui32 ((addr : Int) + (ix : Int) * 4)])
          []

/-! ## Random numbers -/

/-- The case `op_random` of `execute_loop`. -/
def op_random (c : Collab) (inst : Nat → oparg_t) (st : VM) : Except String VM :=
  let vals0 := glsi32 (inst 0).value
  if vals0 = 0 then
    let (g, st) := c.glulx_random st
    c.store_operand (inst 1).desttype (inst 1).value g st
  else if vals0 ≥ 1 then
    let (g, st) := c.glulx_random st
    c.store_operand (inst 1).desttype (inst 1).value (g % glui32 vals0) st
  else
    let (g, st) := c.glulx_random st
    c.store_operand (inst 1).desttype (inst 1).value
      (glui32 (-((g % glui32 (-vals0) : Nat) : Int))) st

/-- The state of the generator of `osdepend.c`: the array `rand_table[55]`
(indexed by slot) and the two `int` indices. -/
structure RandState where
  rand_table : Nat → Nat
  rand_index1 : Int
  rand_index2 : Int

/-- The function `lo_random` of `osdepend.c`: the number returned and the new
generator state. -/
def lo_random (s : RandState) : Nat × RandState :=
  let rand_index1 := Int.tmod (s.rand_index1 + 1) 55
  let rand_index2 := Int.tmod (s.rand_index2 + 1) 55
  let v := glui32 ((s.rand_table rand_index1.toNat : Int)
              - (s.rand_table rand_index2.toNat : Int))
  let s1 : RandState :=
    { rand_table := fun j => if j = rand_index1.toNat then v else s.rand_table j,
      rand_index1 := rand_index1, rand_index2 := rand_index2 }
  (s1.rand_table rand_index1.toNat, s1)

/-- The variables of the first loop of `lo_seed_random`: the generator state
and the locals `k` and `seed`. -/
structure SeedLoop where
  state : RandState
  k : Nat
  seed : Nat

/-- One iteration, for the loop variable `i`, of the first loop of
`lo_seed_random`. -/
def seed_step (l : SeedLoop) (i : Nat) : SeedLoop :=
  let ii := (Int.tmod (21 * (i : Int)) 55).toNat
  let state : RandState :=
    { l.state with rand_table := fun j => if j = ii then l.k else l.state.rand_table j }
  let k := glui32 ((l.seed : Int) - (l.k : Int))
  let seed := state.rand_table ii
  { state := state, k := k, seed := seed }

/-- One iteration, for the loop variable `i`, of the inner loop of the second
part of `lo_seed_random`. -/
def mix_step (s : RandState) (i : Nat) : RandState :=
  let v := glui32 ((s.rand_table i : Int)
              - (s.rand_table (Int.tmod (1 + (i : Int) + 30) 55).toNat : Int))
  { s with rand_table := fun j => if j = i then v else s.rand_table j }

/-- The function `lo_seed_random` of `osdepend.c`, from the generator state it
finds. -/
def lo_seed_random (seed : Nat) (s : RandState) : RandState :=
  let k := 1
  let s : RandState := { s with rand_table := fun j => if j = 54 then seed else s.rand_table j }
  let s : RandState := { s with rand_index1 := 0 }
  let s : RandState := { s with rand_index2 := 31 }
  let l := (List.range 55).foldl seed_step { state := s, k := k, seed := seed }
  (List.range 4).foldl
    (fun (s : RandState) (_loop : Nat) => (List.range 55).foldl mix_step s) l.state

/-- The numbers returned by `n` successive calls of `lo_random`. -/
def lo_random_outputs : Nat → RandState → List Nat
  | 0, _ => []
  | n + 1, s => (lo_random s).1 :: lo_random_outputs n (lo_random s).2

/-! ## Concrete operands, helpers and states -/

/-- The operand array `inst` holding the given operands in order. -/
def operands (l : List oparg_t) : Nat → oparg_t :=
  fun i => l.getD i { desttype := 0, value := 0 }

/-- A load operand with the given value. -/
def load (v : Nat) : oparg_t := { desttype := 0, value := v }

/-- A set of helpers for concrete runs: the store gateway pushes the value on
the stack whatever the destination, `leave_function` drops the frame, and
`pop_callstub` removes a 16-byte stub, restores `pc` and `frameptr` from it and
pushes the value; `push_callstub` is the modelled one, the restore helpers
fail with status 1, and `glulx_random` returns `0xAAAAAAAA`. -/
def sample_collab : Collab where
  store_operand := fun _ _ v st =>
    Except.ok (StkW4 { st with stackptr := st.stackptr + 4 } st.stackptr v)
  leave_function := fun st => Except.ok { st with stackptr := st.frameptr }
  pop_callstub := fun v st =>
    if st.stackptr < 16 then fatal_error "Stack underflow in callstub."
    else
      let sp := st.stackptr - 16
      Except.ok (StkW4 { st with stackptr := sp + 4, pc := Stk4 st (sp + 8),
                                 frameptr := Stk4 st (sp + 12) } sp v)
  push_callstub := push_callstub
  find_stream_by_id := fun id _ => id
  perform_restore := fun _ st => Except.ok (1, st)
  perform_restoreundo := fun st => Except.ok (1, st)
  glulx_random := fun st => (2863311530, st)

/-- A store gateway for concrete runs: destination type 0 discards the value,
any other destination type pushes it on the stack. -/
def sample_store (desttype _addr v : Nat) (st : VM) : Except String VM :=
  if desttype = 0 then Except.ok st
  else Except.ok (StkW4 { st with stackptr := st.stackptr + 4 } st.stackptr v)

/-- A set of helpers for concrete runs with call stubs: the modelled
`push_callstub` and `pop_callstub` over the store gateway `sample_store`;
`leave_function` drops the frame, the restore helpers succeed without
changing the state, and `glulx_random` returns `0xAAAAAAAA`. -/
def stub_collab : Collab where
  store_operand := sample_store
  leave_function := fun st => Except.ok { st with stackptr := st.frameptr }
  pop_callstub := pop_callstub sample_store
  push_callstub := push_callstub
  find_stream_by_id := fun id _ => id
  perform_restore := fun _ st => Except.ok (0, st)
  perform_restoreundo := fun st => Except.ok (0, st)
  glulx_random := fun st => (2863311530, st)

/-- A machine state for concrete runs: the byte at offset `a` of memory and of
the stack is `a % 256`; the current frame starts at 0, its value stack at 4,
and five values are on it (at offsets 4, 8, 12, 16, 20). -/
def sample_vm : VM where
  memmap := fun a => a
  stack := fun a => a
  ramstart := 256
  endmem := 1024
  stacksize := 1024
  pc := 300
  stackptr := 24
  frameptr := 0
  valstackbase := 4
  protectstart := 0
  protectend := 0
  done_executing := false

/-- The state `sample_vm` with a stack of 24 bytes, which its five values fill:
`stackptr = stacksize = 24`. -/
def full_stack_vm : VM := { sample_vm with stacksize := 24 }

/-- The stack-pointer invariant of the data model: `stackptr` is a multiple of
4 and lies in `[valstackbase, stacksize]`. -/
@[reducible] def stack_invariant (st : VM) : Prop :=
  st.stackptr % 4 = 0 ∧ st.valstackbase ≤ st.stackptr ∧ st.stackptr ≤ st.stacksize

/-- The value of the stack entry at offset `ptr` after a run, if the run
completed. -/
def stack_entry (r : Except String VM) (ptr : Nat) : Option Nat :=
  match r with
  | Except.ok st => some (Stk4 st ptr)
  | Except.error _ => none

/-- The fatal-error message of a run, if it ended in one. -/
def fatal_message (r : Except String VM) : Option String :=
  match r with
  | Except.ok _ => none
  | Except.error e => some e


/-! ## Machine integers: conversions -/

theorem glsi32_of_lt {x : Nat} (h : x < 2147483648) : glsi32 x = (x : Int) := by
  unfold glsi32
  have : x % 4294967296 = x := Nat.mod_eq_of_lt (by omega)
  rw [this, if_pos h]

theorem glsi32_of_ge {x : Nat} (h : 2147483648 ≤ x) (h2 : x < 4294967296) :
    glsi32 x = -((4294967296 - x : Nat) : Int) := by
  unfold glsi32
  have : x % 4294967296 = x := Nat.mod_eq_of_lt h2
  rw [this, if_neg (by omega)]
  omega

theorem glui32_natCast (n : Nat) : glui32 (n : Int) = n % 4294967296 := by
  unfold glui32; omega

theorem glui32_of_lt {n : Nat} (h : n < 4294967296) : glui32 (n : Int) = n := by
  unfold glui32; omega

theorem glui32_lt (x : Int) : glui32 x < 4294967296 := by
  unfold glui32; omega

theorem glui32_glsi32 {x : Nat} (h : x < 4294967296) : glui32 (glsi32 x) = x := by
  unfold glui32 glsi32; split <;> omega


theorem tdiv_nat_lt {x y : Nat} (hx : x ≤ 2147483648) :
    glui32 ((x / y : Nat) : Int) = x / y := by
  apply glui32_of_lt
  have := Nat.div_le_self x y
  omega

/-- The quotient computed by `op_div` is the truncated signed quotient. -/
theorem div_value_eq (a b : Nat) (ha : a < 4294967296) (hb : b < 4294967296) :
    (if glsi32 a < 0 then
        if glsi32 b < 0 then glui32 (-glsi32 a) / glui32 (-glsi32 b)
        else glui32 (-((glui32 (-glsi32 a) / glui32 (glsi32 b) : Nat) : Int))
      else
        if glsi32 b < 0 then glui32 (-((glui32 (glsi32 a) / glui32 (-glsi32 b) : Nat) : Int))
        else glui32 (glsi32 a) / glui32 (glsi32 b))
      = glui32 (Int.tdiv (glsi32 a) (glsi32 b)) := by
  rcases Nat.lt_or_ge a 2147483648 with h1 | h1 <;>
  rcases Nat.lt_or_ge b 2147483648 with h2 | h2
  · rw [glsi32_of_lt h1, glsi32_of_lt h2]
    rw [if_neg (by omega), if_neg (by omega), glui32_of_lt ha, glui32_of_lt hb,
      ← Int.ofNat_tdiv, tdiv_nat_lt (by omega)]
  · rw [glsi32_of_lt h1, glsi32_of_ge h2 hb]
    rw [if_neg (by omega), if_pos (by omega), neg_neg, glui32_of_lt ha,
      glui32_of_lt (by omega), Int.tdiv_neg, ← Int.ofNat_tdiv]
  · rw [glsi32_of_ge h1 ha, glsi32_of_lt h2]
    rw [if_pos (by omega), if_neg (by omega), neg_neg, glui32_of_lt hb,
      glui32_of_lt (by omega), Int.neg_tdiv, ← Int.ofNat_tdiv]
  · rw [glsi32_of_ge h1 ha, glsi32_of_ge h2 hb]
    rw [if_pos (by omega), if_pos (by omega), neg_neg, neg_neg,
      glui32_of_lt (by omega), glui32_of_lt (by omega), Int.tdiv_neg, Int.neg_tdiv, neg_neg,
      ← Int.ofNat_tdiv, tdiv_nat_lt (by omega)]

theorem glsi32_eq_zero {b : Nat} (hb : b < 4294967296) : glsi32 b = 0 ↔ b = 0 := by
  unfold glsi32; split <;> omega

/-- With a non-zero divisor `op_div` is the store of the truncated quotient. -/
theorem op_div_eq_store (c : Collab) (inst : Nat → oparg_t) (st : VM)
    (ha : (inst 0).value < 4294967296) (hb : (inst 1).value < 4294967296)
    (hb0 : (inst 1).value ≠ 0) :
    op_div c inst st
      = c.store_operand (inst 2).desttype (inst 2).value
          (glui32 (Int.tdiv (glsi32 (inst 0).value) (glsi32 (inst 1).value))) st := by
  have hne : glsi32 (inst 1).value ≠ 0 := fun h => hb0 ((glsi32_eq_zero hb).1 h)
  unfold op_div
  simp only [if_neg hne]
  rw [div_value_eq _ _ ha hb]

/-- C1: for 32-bit words `a`, `b` with `b ≠ 0`, `op_div` hands to the store
gateway the signed quotient of `a` by `b` truncated toward zero, reduced modulo
`2^32`; for `a = 0x80000000`, `b = 0xFFFFFFFF` that value is `0x80000000`, and
the opcode raises no fatal error of its own. -/
theorem op_div_truncated_quotient (c : Collab) (inst : Nat → oparg_t) (st : VM)
    (ha : (inst 0).value < 4294967296) (hb : (inst 1).value < 4294967296)
    (hb0 : (inst 1).value ≠ 0) :
    op_div c inst st
        = c.store_operand (inst 2).desttype (inst 2).value
            (glui32 (Int.tdiv (glsi32 (inst 0).value) (glsi32 (inst 1).value))) st
      ∧ ((inst 0).value = 2147483648 → (inst 1).value = 4294967295 →
          op_div c inst st
            = c.store_operand (inst 2).desttype (inst 2).value 2147483648 st) := by
  have key := op_div_eq_store c inst st ha hb hb0
  refine ⟨key, fun h0 h1 => ?_⟩
  rw [key, h0, h1]
  rfl


/-- Instance of `op_div_truncated_quotient`: `INT_MIN / -1`. -/
theorem op_div_truncated_quotient_witness :
    (2147483648 < 4294967296 ∧ 4294967295 < 4294967296 ∧ 4294967295 ≠ 0) ∧
    op_div sample_collab (operands [load 2147483648, load 4294967295]) sample_vm
      = sample_collab.store_operand 0 0 2147483648 sample_vm :=
  ⟨by decide,
   (op_div_truncated_quotient sample_collab
      (operands [load 2147483648, load 4294967295]) sample_vm
      (by decide) (by decide) (by decide)).2 rfl rfl⟩

theorem neg_tmod_eq (a b : Int) : Int.tmod (-a) b = -Int.tmod a b := by
  rw [Int.tmod_def, Int.tmod_def, Int.neg_tdiv]
  ring

/-- The signed operands of a division, as magnitudes: the dividend is `x` or
`-x`, and the truncated remainder is `x % y` with the sign of the dividend. -/
theorem tmod_glsi32_cases (a b : Nat) (ha : a < 4294967296) (hb : b < 4294967296)
    (hb0 : b ≠ 0) :
    ∃ x y : Nat, 0 < y ∧ y ≤ 2147483648 ∧
      (if glsi32 b < 0 then glui32 (-glsi32 b) else glui32 (glsi32 b)) = y ∧
      ((glsi32 a = (x : Int) ∧ x < 2147483648 ∧ glui32 (glsi32 a) = x ∧
          Int.tmod (glsi32 a) (glsi32 b) = ((x % y : Nat) : Int)) ∨
       (glsi32 a = -(x : Int) ∧ 0 < x ∧ x ≤ 2147483648 ∧ glui32 (-glsi32 a) = x ∧
          Int.tmod (glsi32 a) (glsi32 b) = -((x % y : Nat) : Int))) := by
  rcases Nat.lt_or_ge a 2147483648 with h1 | h1 <;>
  rcases Nat.lt_or_ge b 2147483648 with h2 | h2
  · refine ⟨a, b, by omega, by omega, ?_, Or.inl ⟨glsi32_of_lt h1, h1, ?_, ?_⟩⟩
    · rw [glsi32_of_lt h2, if_neg (by omega), glui32_of_lt hb]
    · rw [glsi32_of_lt h1, glui32_of_lt ha]
    · rw [glsi32_of_lt h1, glsi32_of_lt h2, Int.ofNat_tmod]
  · refine ⟨a, 4294967296 - b, by omega, by omega, ?_, Or.inl ⟨glsi32_of_lt h1, h1, ?_, ?_⟩⟩
    · rw [glsi32_of_ge h2 hb, if_pos (by omega), neg_neg, glui32_of_lt (by omega)]
    · rw [glsi32_of_lt h1, glui32_of_lt ha]
    · rw [glsi32_of_lt h1, glsi32_of_ge h2 hb, Int.tmod_neg, Int.ofNat_tmod]
  · refine ⟨4294967296 - a, b, by omega, by omega, ?_,
      Or.inr ⟨glsi32_of_ge h1 ha, by omega, by omega, ?_, ?_⟩⟩
    · rw [glsi32_of_lt h2, if_neg (by omega), glui32_of_lt hb]
    · rw [glsi32_of_ge h1 ha, neg_neg, glui32_of_lt (by omega)]
    · rw [glsi32_of_ge h1 ha, glsi32_of_lt h2, neg_tmod_eq, Int.ofNat_tmod]
  · refine ⟨4294967296 - a, 4294967296 - b, by omega, by omega, ?_,
      Or.inr ⟨glsi32_of_ge h1 ha, by omega, by omega, ?_, ?_⟩⟩
    · rw [glsi32_of_ge h2 hb, if_pos (by omega), neg_neg, glui32_of_lt (by omega)]
    · rw [glsi32_of_ge h1 ha, neg_neg, glui32_of_lt (by omega)]
    · rw [glsi32_of_ge h1 ha, glsi32_of_ge h2 hb, Int.tmod_neg, neg_tmod_eq, Int.ofNat_tmod]

/-- The remainder computed by `op_mod` is the truncated signed remainder. -/
theorem mod_value_eq (a b : Nat) (ha : a < 4294967296) (hb : b < 4294967296) (hb0 : b ≠ 0) :
    (if glsi32 a < 0 then
        glui32 (-((glui32 (-glsi32 a)
          % (if glsi32 b < 0 then glui32 (-glsi32 b) else glui32 (glsi32 b)) : Nat) : Int))
      else glui32 (glsi32 a)
          % (if glsi32 b < 0 then glui32 (-glsi32 b) else glui32 (glsi32 b)))
      = glui32 (Int.tmod (glsi32 a) (glsi32 b)) := by
  obtain ⟨x, y, hy0, hy, hval1, h⟩ := tmod_glsi32_cases a b ha hb hb0
  rw [hval1]
  rcases h with ⟨hsa, hx, hu, hm⟩ | ⟨hsa, hx0, hx, hu, hm⟩
  · have hlt : x % y ≤ x := Nat.mod_le x y
    rw [if_neg (by omega), hu, hm, glui32_of_lt (by omega)]
  · rw [if_pos (by omega), hu, hm]

/-- The remainder stored by `op_mod`, read as signed, is the truncated
remainder itself and is zero or of the sign of the dividend. -/
theorem mod_value_sign (a b : Nat) (ha : a < 4294967296) (hb : b < 4294967296) (hb0 : b ≠ 0) :
    glsi32 (glui32 (Int.tmod (glsi32 a) (glsi32 b))) = 0
      ∨ (0 < glsi32 (glui32 (Int.tmod (glsi32 a) (glsi32 b))) ∧ 0 < glsi32 a)
      ∨ (glsi32 (glui32 (Int.tmod (glsi32 a) (glsi32 b))) < 0 ∧ glsi32 a < 0) := by
  obtain ⟨x, y, hy0, hy, -, h⟩ := tmod_glsi32_cases a b ha hb hb0
  have hlt : x % y < y := Nat.mod_lt x hy0
  have hle : x % y ≤ x := Nat.mod_le x y
  rcases h with ⟨hsa, hx, -, hm⟩ | ⟨hsa, hx0, hx, -, hm⟩
  · rw [hm, hsa, glui32_of_lt (by omega), glsi32_of_lt (by omega)]
    omega
  · rw [hm, hsa]
    generalize x % y = m at *
    unfold glui32 glsi32
    split <;> omega

theorem glui32_modEq (x : Int) : ((glui32 x : Nat) : Int) ≡ x [ZMOD 4294967296] := by
  unfold glui32 Int.ModEq
  omega

theorem glsi32_modEq (x : Nat) : glsi32 x ≡ (x : Int) [ZMOD 4294967296] := by
  unfold glsi32 Int.ModEq
  split <;> omega

/-- Quotient and remainder recombine to the dividend, modulo `2^32`. -/
theorem div_mod_recombine (a b : Nat) (ha : a < 4294967296) :
    (glui32 (Int.tdiv (glsi32 a) (glsi32 b)) * b
        + glui32 (Int.tmod (glsi32 a) (glsi32 b))) % 4294967296 = a := by
  have h1 := glui32_modEq (Int.tdiv (glsi32 a) (glsi32 b))
  have h2 := glui32_modEq (Int.tmod (glsi32 a) (glsi32 b))
  have h3 := (glsi32_modEq b).symm
  have h4 := glsi32_modEq a
  have h5 : ((glui32 (Int.tdiv (glsi32 a) (glsi32 b)) : Nat) : Int) * (b : Int)
      + ((glui32 (Int.tmod (glsi32 a) (glsi32 b)) : Nat) : Int) ≡ (a : Int) [ZMOD 4294967296] := by
    have h6 := ((h1.mul h3).add h2)
    have h7 : (glsi32 a).tdiv (glsi32 b) * glsi32 b + (glsi32 a).tmod (glsi32 b) = glsi32 a :=
      Int.tdiv_add_tmod' _ _
    rw [h7] at h6
    exact h6.trans h4
  unfold Int.ModEq at h5
  have h8 : (((glui32 (Int.tdiv (glsi32 a) (glsi32 b)) * b
        + glui32 (Int.tmod (glsi32 a) (glsi32 b)) : Nat) : Int)) % 4294967296
        = (a : Int) % 4294967296 := by
    push_cast
    exact h5
  omega

/-- With a non-zero divisor `op_mod` is the store of the truncated remainder. -/
theorem op_mod_eq_store (c : Collab) (inst : Nat → oparg_t) (st : VM)
    (ha : (inst 0).value < 4294967296) (hb : (inst 1).value < 4294967296)
    (hb0 : (inst 1).value ≠ 0) :
    op_mod c inst st
      = c.store_operand (inst 2).desttype (inst 2).value
          (glui32 (Int.tmod (glsi32 (inst 0).value) (glsi32 (inst 1).value))) st := by
  have hne : glsi32 (inst 1).value ≠ 0 := fun h => hb0 ((glsi32_eq_zero hb).1 h)
  unfold op_mod
  simp only [if_neg hne]
  rw [mod_value_eq _ _ ha hb hb0]

/-- C2: for 32-bit `a`, `b` with `b ≠ 0`, the value `q` stored by `op_div` and
the value `r` stored by `op_mod` satisfy `a = q*b + r` modulo `2^32`, and `r`
read as a signed integer is zero or has the sign of `a` read as a signed
integer. -/
theorem op_div_mod_identity (c : Collab) (inst : Nat → oparg_t) (st : VM)
    (ha : (inst 0).value < 4294967296) (hb : (inst 1).value < 4294967296)
    (hb0 : (inst 1).value ≠ 0) :
    ∃ q r : Nat,
      q = glui32 (Int.tdiv (glsi32 (inst 0).value) (glsi32 (inst 1).value)) ∧
      r = glui32 (Int.tmod (glsi32 (inst 0).value) (glsi32 (inst 1).value)) ∧
      op_div c inst st = c.store_operand (inst 2).desttype (inst 2).value q st ∧
      op_mod c inst st = c.store_operand (inst 2).desttype (inst 2).value r st ∧
      (q * (inst 1).value + r) % 4294967296 = (inst 0).value ∧
      (glsi32 r = 0 ∨ (0 < glsi32 r ∧ 0 < glsi32 (inst 0).value)
        ∨ (glsi32 r < 0 ∧ glsi32 (inst 0).value < 0)) := by
  exact ⟨_, _, rfl, rfl, op_div_eq_store c inst st ha hb hb0, op_mod_eq_store c inst st ha hb hb0,
    div_mod_recombine _ _ ha, mod_value_sign _ _ ha hb hb0⟩

/-- Instance of `op_div_mod_identity`: `a = 0x80000000`, `b = 0x80000000`. -/
theorem op_div_mod_identity_witness :
    ∃ q r : Nat,
      q = glui32 (Int.tdiv (glsi32 2147483648) (glsi32 2147483648)) ∧
      r = glui32 (Int.tmod (glsi32 2147483648) (glsi32 2147483648)) ∧
      op_div sample_collab (operands [load 2147483648, load 2147483648]) sample_vm
        = sample_collab.store_operand 0 0 q sample_vm ∧
      op_mod sample_collab (operands [load 2147483648, load 2147483648]) sample_vm
        = sample_collab.store_operand 0 0 r sample_vm ∧
      (q * 2147483648 + r) % 4294967296 = 2147483648 ∧
      (glsi32 r = 0 ∨ (0 < glsi32 r ∧ 0 < glsi32 2147483648)
        ∨ (glsi32 r < 0 ∧ glsi32 2147483648 < 0)) :=
  op_div_mod_identity sample_collab (operands [load 2147483648, load 2147483648]) sample_vm
    (by decide) (by decide) (by decide)

/-! ## Division by zero -/

/-- C3: `op_div` and `op_mod` end in a fatal error exactly when the divisor is
zero. With a zero divisor the outcome is the fatal error whatever the helpers
are, so nothing is stored and no quotient is formed; with a non-zero divisor
the outcome is that of the store gateway applied to the quotient (remainder),
so that, the gateway completing, the opcode completes. -/
theorem div_mod_fatal_iff_zero_divisor (c : Collab) (inst : Nat → oparg_t) (st : VM)
    (ha : (inst 0).value < 4294967296) (hb : (inst 1).value < 4294967296)
    (hstore : ∀ v, fatal_message (c.store_operand (inst 2).desttype (inst 2).value v st) = none) :
    ((fatal_message (op_div c inst st) ≠ none ↔ (inst 1).value = 0) ∧
     (fatal_message (op_mod c inst st) ≠ none ↔ (inst 1).value = 0)) ∧
    ((inst 1).value = 0 → ∀ c2 : Collab,
        op_div c2 inst st = Except.error "Division by zero." ∧
        op_mod c2 inst st = Except.error "Division by zero doing remainder.") ∧
    ((inst 1).value ≠ 0 →
        op_div c inst st = c.store_operand (inst 2).desttype (inst 2).value
          (glui32 (Int.tdiv (glsi32 (inst 0).value) (glsi32 (inst 1).value))) st ∧
        op_mod c inst st = c.store_operand (inst 2).desttype (inst 2).value
          (glui32 (Int.tmod (glsi32 (inst 0).value) (glsi32 (inst 1).value))) st) := by
  have hz : (inst 1).value = 0 → ∀ c2 : Collab,
      op_div c2 inst st = Except.error "Division by zero." ∧
      op_mod c2 inst st = Except.error "Division by zero doing remainder." := by
    intro h0 c2
    have h1 : glsi32 (inst 1).value = 0 := (glsi32_eq_zero hb).2 h0
    constructor
    · unfold op_div
      simp only [if_pos h1]
      rfl
    · unfold op_mod
      simp only [if_pos h1]
      rfl
  have hnz := fun h0 : (inst 1).value ≠ 0 =>
    And.intro (op_div_eq_store c inst st ha hb h0) (op_mod_eq_store c inst st ha hb h0)
  refine ⟨⟨⟨?_, ?_⟩, ⟨?_, ?_⟩⟩, hz, hnz⟩
  · intro hf
    by_contra h0
    rw [(hnz h0).1] at hf
    exact hf (hstore _)
  · intro h0
    rw [(hz h0 c).1]
    simp [fatal_message]
  · intro hf
    by_contra h0
    rw [(hnz h0).2] at hf
    exact hf (hstore _)
  · intro h0
    rw [(hz h0 c).2]
    simp [fatal_message]

/-- Instance of `div_mod_fatal_iff_zero_divisor`: `div 0, 0` and `mod 0, 0`. -/
theorem div_mod_fatal_iff_zero_divisor_witness :
    fatal_message (op_div sample_collab (operands [load 0, load 0]) sample_vm)
        = some "Division by zero." ∧
    fatal_message (op_mod sample_collab (operands [load 0, load 0]) sample_vm)
        = some "Division by zero doing remainder." := by
  have h := (div_mod_fatal_iff_zero_divisor sample_collab (operands [load 0, load 0])
    sample_vm (by decide) (by decide) (fun _ => rfl)).2.1 rfl sample_collab
  rw [h.1, h.2]
  exact ⟨rfl, rfl⟩

/-! ## Shifts -/

theorem and_sign_bit (a : Nat) : a &&& 2147483648 ≠ 0 ↔ a.testBit 31 = true := by
  have h := Nat.and_two_pow a 31
  have h2 : (2 : Nat) ^ 31 = 2147483648 := by norm_num
  rw [h2] at h
  rw [h]
  cases a.testBit 31 <;> simp

/-- C4: for a 32-bit `a` and a shift count that, read as a signed integer, is
negative or at least 32, `shiftl` and `ushiftr` store 0, and `sshiftr` stores 0
when bit 31 of `a` is clear and `0xFFFFFFFF` when it is set. -/
theorem shift_out_of_range (c : Collab) (inst : Nat → oparg_t) (st : VM)
    (hc : glsi32 (inst 1).value < 0 ∨ glsi32 (inst 1).value ≥ 32) :
    op_shiftl c inst st = c.store_operand (inst 2).desttype (inst 2).value 0 st ∧
    op_ushiftr c inst st = c.store_operand (inst 2).desttype (inst 2).value 0 st ∧
    op_sshiftr c inst st = c.store_operand (inst 2).desttype (inst 2).value
      (if (inst 0).value.testBit 31 then 4294967295 else 0) st := by
  refine ⟨?_, ?_, ?_⟩
  · unfold op_shiftl
    simp only [if_pos hc]
  · unfold op_ushiftr
    simp only [if_pos hc]
  · unfold op_sshiftr
    simp only [if_pos hc]
    by_cases hbit : (inst 0).value.testBit 31 = true
    · rw [if_pos ((and_sign_bit _).2 hbit), if_pos hbit]
    · rw [if_neg (fun h => hbit ((and_sign_bit _).1 h)), if_neg hbit]

/-- Instance of `shift_out_of_range`: `0x80000000` shifted by 40. -/
theorem shift_out_of_range_witness :
    (glsi32 40 < 0 ∨ glsi32 40 ≥ 32) ∧
    op_shiftl sample_collab (operands [load 2147483648, load 40]) sample_vm
      = sample_collab.store_operand 0 0 0 sample_vm ∧
    op_ushiftr sample_collab (operands [load 2147483648, load 40]) sample_vm
      = sample_collab.store_operand 0 0 0 sample_vm ∧
    op_sshiftr sample_collab (operands [load 2147483648, load 40]) sample_vm
      = sample_collab.store_operand 0 0 4294967295 sample_vm :=
  ⟨by decide,
   shift_out_of_range sample_collab (operands [load 2147483648, load 40]) sample_vm
     (by decide)⟩

/-! ## Opcode fetch -/

theorem shiftLeft_or_distrib (a b k : Nat) : (a ||| b) <<< k = (a <<< k) ||| (b <<< k) := by
  apply Nat.eq_of_testBit_eq
  intro i
  simp only [Nat.testBit_shiftLeft, Nat.testBit_or]
  cases decide (i ≥ k) <;> simp

set_option maxRecDepth 100000 in
theorem first_byte_bits :
    ∀ v < 256,
      (v < 128 → v &&& 128 = 0) ∧
      (v / 64 = 2 → v &&& 128 ≠ 0 ∧ v &&& 64 = 0) ∧
      (v / 64 = 3 → v &&& 128 ≠ 0 ∧ v &&& 64 ≠ 0) := by
  decide

theorem shl8_no_wrap {x : Nat} (h : x < 16777216) : (x <<< 8) % 4294967296 = x <<< 8 := by
  apply Nat.mod_eq_of_lt
  rw [Nat.shiftLeft_eq]
  omega

theorem shl8_or_lt {x y k : Nat} (hx : x < k) (hy : y < 256) : (x <<< 8) ||| y < k * 256 := by
  have h : x <<< 8 = 2 ^ 8 * x := by rw [Nat.shiftLeft_eq]; ring
  rw [h, ← Nat.mul_add_lt_is_or (by norm_num; exact hy)]
  omega

/-- C5: the opcode fetch decodes the one-, two- and four-byte forms: a first
byte `v < 0x80` is the opcode and `pc` advances by 1; with top bits `10` the
opcode is `((v & 0x7F) << 8) | y1` and `pc` advances by 2; with top bits `11`
it is `((v & 0x3F) << 24) | (y1 << 16) | (y2 << 8) | y3` and `pc` advances
by 4. -/
theorem fetch_opcode_decodes (st : VM) (hend : st.endmem < 4294967296) :
    (st.memmap st.pc % 256 < 128 → st.pc + 1 ≤ st.endmem →
      fetch_opcode st = Except.ok (st.memmap st.pc % 256, { st with pc := st.pc + 1 })) ∧
    (st.memmap st.pc % 256 / 64 = 2 → st.pc + 2 ≤ st.endmem →
      fetch_opcode st = Except.ok
        (((st.memmap st.pc % 256 &&& 0x7F) <<< 8) ||| (st.memmap (st.pc + 1) % 256),
         { st with pc := st.pc + 2 })) ∧
    (st.memmap st.pc % 256 / 64 = 3 → st.pc + 4 ≤ st.endmem →
      fetch_opcode st = Except.ok
        (((st.memmap st.pc % 256 &&& 0x3F) <<< 24) ||| ((st.memmap (st.pc + 1) % 256) <<< 16)
            ||| ((st.memmap (st.pc + 2) % 256) <<< 8) ||| (st.memmap (st.pc + 3) % 256),
         { st with pc := st.pc + 4 })) := by
  have hv : st.memmap st.pc % 256 < 256 := Nat.mod_lt _ (by norm_num)
  obtain ⟨hb1, hb2, hb3⟩ := first_byte_bits _ hv
  refine ⟨fun h1 hp => ?_, fun h2 hp => ?_, fun h3 hp => ?_⟩
  · have hpc : (st.pc + 1) % 4294967296 = st.pc + 1 := Nat.mod_eq_of_lt (by omega)
    simp [fetch_opcode, Mem1, hp, hb1 h1, hpc, bind, Except.bind, pure, Except.pure]
  · have hpc1 : (st.pc + 1) % 4294967296 = st.pc + 1 := Nat.mod_eq_of_lt (by omega)
    have hpc2 : (st.pc + 1 + 1) % 4294967296 = st.pc + 2 := Nat.mod_eq_of_lt (by omega)
    have hp1 : st.pc + 1 ≤ st.endmem := by omega
    have hp2 : st.pc + 1 + 1 ≤ st.endmem := by omega
    have hw : st.memmap st.pc % 256 &&& 127 < 16777216 :=
      lt_of_le_of_lt Nat.and_le_right (by norm_num)
    simp [fetch_opcode, Mem1, hp1, hp2, (hb2 h2).1, (hb2 h2).2, hpc1, hpc2, shl8_no_wrap hw,
      bind, Except.bind, pure, Except.pure]
  · have hpc1 : (st.pc + 1) % 4294967296 = st.pc + 1 := Nat.mod_eq_of_lt (by omega)
    have hpc2 : (st.pc + 1 + 1) % 4294967296 = st.pc + 2 := Nat.mod_eq_of_lt (by omega)
    have hpc3 : (st.pc + 2 + 1) % 4294967296 = st.pc + 3 := Nat.mod_eq_of_lt (by omega)
    have hpc4 : (st.pc + 3 + 1) % 4294967296 = st.pc + 4 := Nat.mod_eq_of_lt (by omega)
    have hp1 : st.pc + 1 ≤ st.endmem := by omega
    have hp2 : st.pc + 1 + 1 ≤ st.endmem := by omega
    have hp3 : st.pc + 2 + 1 ≤ st.endmem := by omega
    have hp4 : st.pc + 3 + 1 ≤ st.endmem := by omega
    have hy1 : st.memmap (st.pc + 1) % 256 < 256 := Nat.mod_lt _ (by norm_num)
    have hy2 : st.memmap (st.pc + 2) % 256 < 256 := Nat.mod_lt _ (by norm_num)
    have hw : st.memmap st.pc % 256 &&& 63 < 64 :=
      lt_of_le_of_lt Nat.and_le_right (by norm_num)
    have hw1 := shl8_or_lt hw hy1
    have hw2 := shl8_or_lt hw1 hy2
    have e1 := shl8_no_wrap (x := st.memmap st.pc % 256 &&& 63) (by omega)
    have e2 := shl8_no_wrap (x := (st.memmap st.pc % 256 &&& 63) <<< 8
      ||| st.memmap (st.pc + 1) % 256) (by omega)
    have e3 := shl8_no_wrap (x := ((st.memmap st.pc % 256 &&& 63) <<< 8
      ||| st.memmap (st.pc + 1) % 256) <<< 8 ||| st.memmap (st.pc + 2) % 256) (by omega)
    simp only [fetch_opcode, Mem1, hp1, hp2, hp3, hp4, (hb3 h3).1, (hb3 h3).2, hpc1, hpc2, hpc3,
      hpc4, e1, e2, e3, bind, Except.bind, pure, Except.pure, if_true, ne_eq, not_false_eq_true,
      if_pos]
    simp only [shiftLeft_or_distrib, ← Nat.shiftLeft_add]

/-- Instance of `fetch_opcode_decodes`: memory size 1024. -/
theorem fetch_opcode_decodes_witness :
    fetch_opcode { sample_vm with pc := 70 }
      = Except.ok (70, { sample_vm with pc := 71 }) ∧
    fetch_opcode { sample_vm with pc := 130 }
      = Except.ok (((130 &&& 0x7F) <<< 8) ||| 131, { sample_vm with pc := 132 }) ∧
    fetch_opcode { sample_vm with pc := 200 }
      = Except.ok (((200 &&& 0x3F) <<< 24) ||| (201 <<< 16) ||| (202 <<< 8) ||| 203,
          { sample_vm with pc := 204 }) :=
  ⟨(fetch_opcode_decodes { sample_vm with pc := 70 } (by decide)).1 (by decide) (by decide),
   (fetch_opcode_decodes { sample_vm with pc := 130 } (by decide)).2.1 (by decide) (by decide),
   (fetch_opcode_decodes { sample_vm with pc := 200 } (by decide)).2.2 (by decide) (by decide)⟩

/-! ## Jumps and returns -/

/-- C6: for an operand `v` other than 0 and 1, `op_jump v` sets `pc` to
`p + v - 2` modulo `2^32`, `p` being the `pc` after operand decoding, and changes
nothing else of the machine state; hence `jump 2` leaves the state `op_nop`
leaves. -/
theorem op_jump_relative (c : Collab) (inst : Nat → oparg_t) (st : VM)
    (h0 : (inst 0).value ≠ 0) (h1 : (inst 0).value ≠ 1) :
    (∃ newpc : Nat,
        op_jump c inst st = Except.ok { st with pc := newpc } ∧
        (newpc : Int) = ((st.pc : Int) + ((inst 0).value : Int) - 2) % 4294967296) ∧
    ((inst 0).value = 2 → st.pc < 4294967296 → op_jump c inst st = op_nop c inst st) := by
  have hv : ¬ ((inst 0).value = 0 ∨ (inst 0).value = 1) := fun h => h.elim h0 h1
  have hj : op_jump c inst st
      = Except.ok { st with pc := glui32 ((st.pc : Int) + ((inst 0).value : Int) - 2) } := by
    unfold op_jump PerformJump
    simp only [if_neg hv]
    rfl
  refine ⟨⟨_, hj, ?_⟩, fun h2 hpc => ?_⟩
  · unfold glui32
    omega
  · rw [hj, h2]
    have e : glui32 ((st.pc : Int) + ((2 : Nat) : Int) - 2) = st.pc := by
      unfold glui32
      omega
    rw [e]
    rfl

/-- Instance of `op_jump_relative`: `jump 2` at `pc = 300`. -/
theorem op_jump_relative_witness :
    (∃ newpc : Nat,
        op_jump sample_collab (operands [load 2]) sample_vm
          = Except.ok { sample_vm with pc := newpc } ∧
        (newpc : Int) = ((300 : Int) + ((2 : Nat) : Int) - 2) % 4294967296) ∧
    op_jump sample_collab (operands [load 2]) sample_vm
      = op_nop sample_collab (operands [load 2]) sample_vm :=
  have h := op_jump_relative sample_collab (operands [load 2]) sample_vm
    (by decide) (by decide)
  ⟨h.1, h.2 rfl (by decide)⟩

theorem PerformJump_eq_spec_return (c : Collab) (v : Nat) (st : VM) (hv : v = 0 ∨ v = 1) :
    PerformJump c v st = spec_return c v st := by
  unfold PerformJump spec_return
  simp only [if_pos hv, bind, Except.bind, pure, Except.pure]
  cases c.leave_function st <;> rfl

theorem op_return_eq_spec_return (c : Collab) (inst : Nat → oparg_t) (st : VM) :
    op_return c inst st = spec_return c (inst 0).value st := by
  unfold op_return spec_return
  simp only [bind, Except.bind, pure, Except.pure]
  cases c.leave_function st <;> rfl

/-- C7: for `v = 0` and `v = 1`, `op_jump v` yields the machine state and the
termination flag `op_return v` yields from the same state: `leave_function`,
then termination if `stackptr` is 0, and `pop_callstub(v)` otherwise. The same
holds of each conditional branch whose predicate holds and whose final operand
is 0 or 1. -/
theorem jump_zero_one_returns (c : Collab) (inst : Nat → oparg_t) (st : VM) :
    op_return c inst st = spec_return c (inst 0).value st ∧
    ((inst 0).value = 0 ∨ (inst 0).value = 1 →
      op_jump c inst st = op_return c inst st ∧
      op_jump c inst st = spec_return c (inst 0).value st) ∧
    ((inst 1).value = 0 ∨ (inst 1).value = 1 →
      ((inst 0).value = 0 →
        op_jz c inst st = op_return c (operands [load (inst 1).value]) st) ∧
      ((inst 0).value ≠ 0 →
        op_jnz c inst st = op_return c (operands [load (inst 1).value]) st)) ∧
    ((inst 2).value = 0 ∨ (inst 2).value = 1 →
      ((inst 0).value = (inst 1).value →
        op_jeq c inst st = op_return c (operands [load (inst 2).value]) st) ∧
      ((inst 0).value ≠ (inst 1).value →
        op_jne c inst st = op_return c (operands [load (inst 2).value]) st) ∧
      (glsi32 (inst 0).value < glsi32 (inst 1).value →
        op_jlt c inst st = op_return c (operands [load (inst 2).value]) st) ∧
      (glsi32 (inst 0).value > glsi32 (inst 1).value →
        op_jgt c inst st = op_return c (operands [load (inst 2).value]) st) ∧
      (glsi32 (inst 0).value ≤ glsi32 (inst 1).value →
        op_jle c inst st = op_return c (operands [load (inst 2).value]) st) ∧
      (glsi32 (inst 0).value ≥ glsi32 (inst 1).value →
        op_jge c inst st = op_return c (operands [load (inst 2).value]) st) ∧
      ((inst 0).value < (inst 1).value →
        op_jltu c inst st = op_return c (operands [load (inst 2).value]) st) ∧
      ((inst 0).value > (inst 1).value →
        op_jgtu c inst st = op_return c (operands [load (inst 2).value]) st) ∧
      ((inst 0).value ≤ (inst 1).value →
        op_jleu c inst st = op_return c (operands [load (inst 2).value]) st) ∧
      ((inst 0).value ≥ (inst 1).value →
        op_jgeu c inst st = op_return c (operands [load (inst 2).value]) st)) := by
  have hr : ∀ v, op_return c (operands [load v]) st = spec_return c v st :=
    fun v => op_return_eq_spec_return c (operands [load v]) st
  refine ⟨op_return_eq_spec_return c inst st, fun hv => ?_, fun hv => ⟨fun hp => ?_, fun hp => ?_⟩,
    fun hv => ⟨fun hp => ?_, fun hp => ?_, fun hp => ?_, fun hp => ?_, fun hp => ?_,
      fun hp => ?_, fun hp => ?_, fun hp => ?_, fun hp => ?_, fun hp => ?_⟩⟩
  · have e : op_jump c inst st = spec_return c (inst 0).value st :=
      PerformJump_eq_spec_return c _ st hv
    exact ⟨e.trans (op_return_eq_spec_return c inst st).symm, e⟩
  · rw [hr, ← PerformJump_eq_spec_return c _ st hv]
    unfold op_jz
    rw [if_pos hp]
  · rw [hr, ← PerformJump_eq_spec_return c _ st hv]
    unfold op_jnz
    rw [if_pos hp]
  · rw [hr, ← PerformJump_eq_spec_return c _ st hv]
    unfold op_jeq
    rw [if_pos hp]
  · rw [hr, ← PerformJump_eq_spec_return c _ st hv]
    unfold op_jne
    rw [if_pos hp]
  · rw [hr, ← PerformJump_eq_spec_return c _ st hv]
    unfold op_jlt
    simp only [if_pos hp]
  · rw [hr, ← PerformJump_eq_spec_return c _ st hv]
    unfold op_jgt
    simp only [if_pos hp]
  · rw [hr, ← PerformJump_eq_spec_return c _ st hv]
    unfold op_jle
    simp only [if_pos hp]
  · rw [hr, ← PerformJump_eq_spec_return c _ st hv]
    unfold op_jge
    simp only [if_pos hp]
  · rw [hr, ← PerformJump_eq_spec_return c _ st hv]
    unfold op_jltu
    simp only [if_pos hp]
  · rw [hr, ← PerformJump_eq_spec_return c _ st hv]
    unfold op_jgtu
    simp only [if_pos hp]
  · rw [hr, ← PerformJump_eq_spec_return c _ st hv]
    unfold op_jleu
    simp only [if_pos hp]
  · rw [hr, ← PerformJump_eq_spec_return c _ st hv]
    unfold op_jgeu
    simp only [if_pos hp]

/-- Instance of `jump_zero_one_returns`: `jump 1`, and `jlt -1, 0, 1`. -/
theorem jump_zero_one_returns_witness :
    op_jump sample_collab (operands [load 1]) sample_vm
      = op_return sample_collab (operands [load 1]) sample_vm ∧
    op_jlt sample_collab (operands [load 4294967295, load 0, load 1]) sample_vm
      = op_return sample_collab (operands [load 1]) sample_vm :=
  ⟨((jump_zero_one_returns sample_collab (operands [load 1]) sample_vm).2.1
      (Or.inr rfl)).1,
   ((jump_zero_one_returns sample_collab (operands [load 4294967295, load 0, load 1])
      sample_vm).2.2.2 (Or.inr rfl)).2.2.1 (by decide)⟩

/-! ## Stack words -/

theorem Stk4_lt (st : VM) (p : Nat) : Stk4 st p < 4294967296 := by
  unfold Stk4
  have h0 := Nat.mod_lt (st.stack p) (show 256 > 0 by norm_num)
  have h1 := Nat.mod_lt (st.stack (p + 1)) (show 256 > 0 by norm_num)
  have h2 := Nat.mod_lt (st.stack (p + 2)) (show 256 > 0 by norm_num)
  have h3 := Nat.mod_lt (st.stack (p + 3)) (show 256 > 0 by norm_num)
  omega

theorem Stk4_congr (s t : VM) (p : Nat)
    (h : ∀ a, p ≤ a → a < p + 4 → s.stack a = t.stack a) : Stk4 s p = Stk4 t p := by
  unfold Stk4
  rw [h p (by omega) (by omega), h (p + 1) (by omega) (by omega),
    h (p + 2) (by omega) (by omega), h (p + 3) (by omega) (by omega)]

theorem StkW4_stack_of_lt (st : VM) (p v a : Nat) (h : a < p) :
    (StkW4 st p v).stack a = st.stack a := by
  unfold StkW4
  simp only
  rw [if_neg (by omega), if_neg (by omega), if_neg (by omega), if_neg (by omega)]

theorem StkW4_stack_of_ge (st : VM) (p v a : Nat) (h : p + 4 ≤ a) :
    (StkW4 st p v).stack a = st.stack a := by
  unfold StkW4
  simp only
  rw [if_neg (by omega), if_neg (by omega), if_neg (by omega), if_neg (by omega)]

theorem Stk4_StkW4_same (st : VM) (p v : Nat) (hv : v < 4294967296) :
    Stk4 (StkW4 st p v) p = v := by
  unfold Stk4 StkW4
  simp
  omega

theorem Stk4_StkW4_of_disjoint (st : VM) (p v q : Nat) (h : q + 4 ≤ p ∨ p + 4 ≤ q) :
    Stk4 (StkW4 st p v) q = Stk4 st q := by
  apply Stk4_congr
  intro a h1 h2
  rcases h with h | h
  · exact StkW4_stack_of_lt st p v a (by omega)
  · exact StkW4_stack_of_ge st p v a (by omega)

theorem StkW4_frame (st : VM) (p v : Nat) :
    StkW4 st p v = { st with stack := (StkW4 st p v).stack } := rfl

theorem foldl_range_invariant {α : Type} (f : α → Nat → α) (P : Nat → α → Prop) (a : α) :
    ∀ n : Nat, P 0 a → (∀ i s, i < n → P i s → P (i + 1) (f s i)) →
      P n ((List.range n).foldl f a) := by
  intro n
  induction n with
  | zero => intro h0 _; simpa using h0
  | succ m ih =>
    intro h0 hstep
    rw [List.range_succ, List.foldl_append]
    simp only [List.foldl_cons, List.foldl_nil]
    exact hstep m _ (Nat.lt_succ_self m)
      (ih h0 (fun i s hi hp => hstep i s (Nat.lt_succ_of_lt hi) hp))

theorem glui32_add_mul4 (b i : Nat) (h : b + 4 * i < 4294967296) :
    glui32 ((b : Int) + (i : Int) * 4) = b + 4 * i := by
  unfold glui32
  omega

/-- The first loop of `op_stkroll`: with `d` cells of room above `sp`, it
copies the `d` lowest entries of the group at `addr` to the cells at `sp` and
leaves every byte below `sp` as it was. -/
theorem stkroll_save_spec (st : VM) (sp addr d : Nat) (hd : addr + 4 * d ≤ sp)
    (hroom : sp + 4 * d ≤ 4294967296) :
    stkroll_save sp addr (d : Int) st
        = { st with stack := (stkroll_save sp addr (d : Int) st).stack } ∧
    (∀ a, a < sp → (stkroll_save sp addr (d : Int) st).stack a = st.stack a) ∧
    (∀ j, j < d → Stk4 (stkroll_save sp addr (d : Int) st) (sp + 4 * j) = Stk4 st (addr + 4 * j)) := by
  unfold stkroll_save
  rw [Int.toNat_ofNat]
  refine foldl_range_invariant _
    (fun m s => s = { st with stack := s.stack } ∧ (∀ a, a < sp → s.stack a = st.stack a) ∧
      (∀ j, j < m → Stk4 s (sp + 4 * j) = Stk4 st (addr + 4 * j))) st d ?_ ?_
  · exact ⟨rfl, fun _ _ => rfl, fun j hj => absurd hj (Nat.not_lt_zero j)⟩
  · rintro i s hi ⟨hfr, hlow, hcp⟩
    simp only
    rw [glui32_add_mul4 addr i (by omega), glui32_add_mul4 sp i (by omega)]
    refine ⟨?_, ?_, ?_⟩
    · rw [StkW4_frame]
      rw [hfr]
    · intro a ha
      rw [StkW4_stack_of_lt _ _ _ _ (by omega)]
      exact hlow a ha
    · intro j hj
      have hsrc : Stk4 s (addr + 4 * i) = Stk4 st (addr + 4 * i) :=
        Stk4_congr _ _ _ (fun a _ h2 => hlow a (by omega))
      rcases Nat.lt_or_ge j i with hji | hji
      · rw [Stk4_StkW4_of_disjoint _ _ _ _ (by omega)]
        exact hcp j hji
      · have e : j = i := by omega
        subst e
        rw [Stk4_StkW4_same _ _ _ (Stk4_lt _ _)]
        exact hsrc


theorem glui32_add_add_mul4 (b d i : Nat) (h : b + 4 * (d + i) < 4294967296) :
    glui32 ((b : Int) + ((d : Int) + (i : Int)) * 4) = b + 4 * (d + i) := by
  unfold glui32
  omega

/-- The second loop of `op_stkroll`: entry `j` of the group at `addr` receives
the entry that was `d` positions further up, and every byte below `addr` is
left as it was. -/
theorem stkroll_shift_spec (st : VM) (addr n d : Nat)
    (hroom : addr + 4 * (d + n) ≤ 4294967296) :
    stkroll_shift addr (n : Int) (d : Int) st
        = { st with stack := (stkroll_shift addr (n : Int) (d : Int) st).stack } ∧
    (∀ a, a < addr → (stkroll_shift addr (n : Int) (d : Int) st).stack a = st.stack a) ∧
    (∀ j, j < n → Stk4 (stkroll_shift addr (n : Int) (d : Int) st) (addr + 4 * j)
        = Stk4 st (addr + 4 * (d + j))) := by
  unfold stkroll_shift
  rw [Int.toNat_ofNat]
  have key := foldl_range_invariant
    (fun (s : VM) (ix : Nat) =>
      let value := Stk4 s (glui32 ((addr : Int) + ((d : Int) + (ix : Int)) * 4))
      StkW4 s (glui32 ((addr : Int) + (ix : Int) * 4)) value)
    (fun m s => s = { st with stack := s.stack } ∧ (∀ a, a < addr → s.stack a = st.stack a) ∧
      (∀ j, j < m → Stk4 s (addr + 4 * j) = Stk4 st (addr + 4 * (d + j))) ∧
      (∀ a, addr + 4 * m ≤ a → s.stack a = st.stack a)) st n
    ⟨rfl, fun _ _ => rfl, fun j hj => absurd hj (Nat.not_lt_zero j), fun _ _ => rfl⟩
    (by
      rintro i s hi ⟨hfr, hlow, hcp, hup⟩
      simp only
      rw [glui32_add_add_mul4 addr d i (by omega), glui32_add_mul4 addr i (by omega)]
      refine ⟨?_, ?_, ?_, ?_⟩
      · rw [StkW4_frame]
        rw [hfr]
      · intro a ha
        rw [StkW4_stack_of_lt _ _ _ _ (by omega)]
        exact hlow a ha
      · intro j hj
        have hsrc : Stk4 s (addr + 4 * (d + i)) = Stk4 st (addr + 4 * (d + i)) :=
          Stk4_congr _ _ _ (fun a h1 _ => hup a (by omega))
        rcases Nat.lt_or_ge j i with hji | hji
        · rw [Stk4_StkW4_of_disjoint _ _ _ _ (by omega)]
          exact hcp j hji
        · have e : j = i := by omega
          subst e
          rw [Stk4_StkW4_same _ _ _ (Stk4_lt _ _)]
          exact hsrc
      · intro a ha
        rw [StkW4_stack_of_ge _ _ _ _ (by omega)]
        exact hup a (by omega))
  exact ⟨key.1, key.2.1, key.2.2.1⟩

/-- The two loops of `op_stkroll` together: with `d ≤ n` and room for `d` cells
above the group, entry `j` of the group ends up holding what entry
`(d + j) % n` held. -/
theorem stkroll_loops_spec (st : VM) (addr n d : Nat) (hd : d ≤ n)
    (hroom : addr + 4 * n + 4 * d ≤ 4294967296) :
    stkroll_shift addr (n : Int) (d : Int) (stkroll_save (addr + 4 * n) addr (d : Int) st)
        = { st with stack :=
            (stkroll_shift addr (n : Int) (d : Int)
              (stkroll_save (addr + 4 * n) addr (d : Int) st)).stack } ∧
    (∀ a, a < addr →
      (stkroll_shift addr (n : Int) (d : Int)
        (stkroll_save (addr + 4 * n) addr (d : Int) st)).stack a = st.stack a) ∧
    (∀ j, j < n →
      Stk4 (stkroll_shift addr (n : Int) (d : Int)
        (stkroll_save (addr + 4 * n) addr (d : Int) st)) (addr + 4 * j)
        = Stk4 st (addr + 4 * ((d + j) % n))) := by
  obtain ⟨hf1, hl1, hc1⟩ := stkroll_save_spec st (addr + 4 * n) addr d (by omega) (by omega)
  obtain ⟨hf2, hl2, hc2⟩ := stkroll_shift_spec (stkroll_save (addr + 4 * n) addr (d : Int) st)
    addr n d (by omega)
  refine ⟨?_, ?_, ?_⟩
  · rw [hf2]
    rw [hf1]
  · intro a ha
    rw [hl2 a ha]
    exact hl1 a (by omega)
  · intro j hj
    rw [hc2 j hj]
    rcases Nat.lt_or_ge (d + j) n with h | h
    · rw [Nat.mod_eq_of_lt h]
      exact Stk4_congr _ _ _ (fun a _ h2 => hl1 a (by omega))
    · have hm : (d + j) % n = d + j - n := by
        rw [Nat.mod_eq_sub_mod h, Nat.mod_eq_of_lt (by omega)]
      rw [hm]
      have e : addr + 4 * (d + j) = addr + 4 * n + 4 * (d + j - n) := by omega
      rw [e]
      exact hc1 (d + j - n) (by omega)


/-- The roll distance as `op_stkroll` normalises it, for a count `n ≥ 1` and a
signed distance `s` other than `INT_MIN`: a number `d` with `0 ≤ d ≤ n` and
`d + s` divisible by `n`. -/
theorem stkroll_distance (n : Nat) (s : Int) (hn : 0 < n) (hlo : -2147483648 < s)
    (hhi : s < 2147483648) :
    ∃ d : Nat, d ≤ n ∧ ((n : Int) ∣ (d : Int) + s) ∧
      (if s > 0 then (n : Int) - Int.tmod s (n : Int)
        else Int.tmod (glsi32 (glui32 (-s))) (n : Int)) = (d : Int) := by
  have hnpos : (0 : Int) < n := by exact_mod_cast hn
  by_cases hs : s > 0
  · rw [if_pos hs, Int.tmod_eq_emod (by omega) (by omega)]
    have h1 := Int.emod_nonneg s (show (n : Int) ≠ 0 by omega)
    have h2 := Int.emod_lt_of_pos s hnpos
    have h3 := Int.emod_add_ediv s n
    refine ⟨((n : Int) - s % n).toNat, by omega, ⟨1 + s / n, ?_⟩, by omega⟩
    rw [Int.toNat_of_nonneg (by omega)]
    linarith
  · rw [if_neg hs]
    have e : glsi32 (glui32 (-s)) = -s := by
      unfold glui32 glsi32
      split <;> omega
    rw [e, Int.tmod_eq_emod (by omega) (by omega)]
    have h1 := Int.emod_nonneg (-s) (show (n : Int) ≠ 0 by omega)
    have h2 := Int.emod_lt_of_pos (-s) hnpos
    have h3 := Int.emod_add_ediv (-s) n
    refine ⟨((-s) % n).toNat, by omega, ⟨-((-s) / n), ?_⟩, by omega⟩
    rw [Int.toNat_of_nonneg h1]
    linarith

/-- Where a roll by `s` sends position `k`, against the normalised distance. -/
theorem stkroll_position (n d k : Nat) (s : Int) (hk : k < n)
    (hdvd : (n : Int) ∣ (d : Int) + s) :
    ((k : Int) + s) % (n : Int) < n ∧ 0 ≤ ((k : Int) + s) % (n : Int) ∧
    (d + (((k : Int) + s) % (n : Int)).toNat) % n = k := by
  have hnpos : (0 : Int) < n := by omega
  have h1 := Int.emod_nonneg ((k : Int) + s) (show (n : Int) ≠ 0 by omega)
  have h2 := Int.emod_lt_of_pos ((k : Int) + s) hnpos
  refine ⟨h2, h1, ?_⟩
  have key : ((d : Int) + ((k : Int) + s) % n) % n = k := by
    rw [Int.add_emod, Int.emod_emod, ← Int.add_emod]
    obtain ⟨q, hq⟩ := hdvd
    have e : (d : Int) + ((k : Int) + s) = k + n * q := by linarith
    rw [e, Int.add_mul_emod_self_left, Int.emod_eq_of_lt (by omega) (by omega)]
  have hc : (((d + (((k : Int) + s) % (n : Int)).toNat) % n : Nat) : Int) = (k : Int) := by
    push_cast
    rw [Int.toNat_of_nonneg h1]
    exact key
  exact_mod_cast hc

/-- The rotation performed by `op_stkroll`, for a count `n` with
`1 ≤ n ≤ stkcount`, a signed distance `r` other than `INT_MIN`, and a stack
pointer with `stackptr + 4n` within 32 bits: the run completes, changes nothing
but stack bytes at or above the group, and moves the entry at position `k` of
the group to position `(k + r) mod n`. -/
theorem op_stkroll_rotates (c : Collab) (inst : Nat → oparg_t) (st : VM)
    (hn : 1 ≤ (inst 0).value)
    (hcount : (inst 0).value ≤ (st.stackptr - st.valstackbase) / 4)
    (hr : (inst 1).value < 4294967296) (hmin : (inst 1).value ≠ 2147483648)
    (hroom : st.stackptr + 4 * (inst 0).value ≤ 4294967296) :
    ∃ st2 : VM, op_stkroll c inst st = Except.ok st2 ∧
      st2 = { st with stack := st2.stack } ∧
      (∀ a, a < st.stackptr - 4 * (inst 0).value → st2.stack a = st.stack a) ∧
      (∀ k, k < (inst 0).value →
        Stk4 st2 (st.stackptr - 4 * (inst 0).value
            + 4 * (((k : Int) + glsi32 (inst 1).value) % ((inst 0).value : Int)).toNat)
          = Stk4 st (st.stackptr - 4 * (inst 0).value + 4 * k)) := by
  generalize hnv : (inst 0).value = n at *
  generalize hrv : (inst 1).value = r at *
  have hsp : st.stackptr < 4294967296 := by omega
  have hn31 : n < 2147483648 := by omega
  have hs0 : glsi32 n = (n : Int) := glsi32_of_lt hn31
  have hslo : -2147483648 < glsi32 r := by
    unfold glsi32; split <;> omega
  have hshi : glsi32 r < 2147483648 := by
    unfold glsi32; split <;> omega
  obtain ⟨d, hdn, hdvd, hdist⟩ := stkroll_distance n (glsi32 r) (by omega) hslo hshi
  have haddr : glui32 ((st.stackptr : Int) - (n : Int) * 4) = st.stackptr - 4 * n := by
    unfold glui32; omega
  have hunder : ¬ st.stackptr < glui32 ((st.valstackbase : Int) + (n : Int) * 4) := by
    have : glui32 ((st.valstackbase : Int) + (n : Int) * 4) = st.valstackbase + 4 * n := by
      unfold glui32; omega
    rw [this]; omega
  have hrun : op_stkroll c inst st
      = if (d : Int) = 0 then Except.ok st
        else Except.ok (stkroll_shift (st.stackptr - 4 * n) (n : Int) (d : Int)
          (stkroll_save st.stackptr (st.stackptr - 4 * n) (d : Int) st)) := by
    unfold op_stkroll
    simp only [hnv, hrv, hs0, hdist, haddr]
    rw [if_neg (by omega), if_neg hunder, if_neg (by omega)]
  by_cases hd0 : d = 0
  · subst hd0
    refine ⟨st, ?_, rfl, fun _ _ => rfl, fun k hk => ?_⟩
    · rw [hrun]
      simp
    · obtain ⟨h0, h1, h2⟩ := stkroll_position n 0 k (glsi32 r) hk hdvd
      have hlt : (((k : Int) + glsi32 r) % (n : Int)).toNat < n := by omega
      rw [Nat.zero_add, Nat.mod_eq_of_lt hlt] at h2
      rw [h2]
  · have e : st.stackptr = (st.stackptr - 4 * n) + 4 * n := by omega
    obtain ⟨hf, hl, hc⟩ := stkroll_loops_spec st (st.stackptr - 4 * n) n d hdn (by omega)
    rw [← e] at hf hl hc
    refine ⟨_, ?_, hf, hl, fun k hk => ?_⟩
    · rw [hrun, if_neg (by omega)]
    · obtain ⟨h0, h1, h2⟩ := stkroll_position n d k (glsi32 r) hk hdvd
      have hlt : (((k : Int) + glsi32 r) % (n : Int)).toNat < n := by omega
      rw [hc _ hlt, h2]


/-- A roll followed by the roll of the negated distance, for a count `n` with
`1 ≤ n ≤ stkcount`, a distance other than `INT_MIN` and a stack pointer with
`stackptr + 4n` within 32 bits: both runs complete, and the group, every stack
byte below it and all the rest of the state but stack bytes above the group
are as before the first roll. -/
theorem op_stkroll_inverse (c : Collab) (inst inst2 : Nat → oparg_t) (st : VM)
    (hn : 1 ≤ (inst 0).value)
    (hcount : (inst 0).value ≤ (st.stackptr - st.valstackbase) / 4)
    (hr : (inst 1).value < 4294967296) (hmin : (inst 1).value ≠ 2147483648)
    (hroom : st.stackptr + 4 * (inst 0).value ≤ 4294967296)
    (hn2 : (inst2 0).value = (inst 0).value)
    (hr2 : (inst2 1).value = glui32 (-glsi32 (inst 1).value)) :
    ∃ st3 : VM, (op_stkroll c inst st).bind (op_stkroll c inst2) = Except.ok st3 ∧
      st3 = { st with stack := st3.stack } ∧
      (∀ a, a < st.stackptr - 4 * (inst 0).value → st3.stack a = st.stack a) ∧
      (∀ k, k < (inst 0).value →
        Stk4 st3 (st.stackptr - 4 * (inst 0).value + 4 * k)
          = Stk4 st (st.stackptr - 4 * (inst 0).value + 4 * k)) := by
  obtain ⟨st2, hrun, hf, hl, hc⟩ := op_stkroll_rotates c inst st hn hcount hr hmin hroom
  have hsp : st2.stackptr = st.stackptr := by rw [hf]
  have hvb : st2.valstackbase = st.valstackbase := by rw [hf]
  have hneg : glsi32 (glui32 (-glsi32 (inst 1).value)) = -glsi32 (inst 1).value := by
    unfold glui32 glsi32
    split <;> split <;> omega
  have hr2lt : (inst2 1).value < 4294967296 := by rw [hr2]; exact glui32_lt _
  have hr2min : (inst2 1).value ≠ 2147483648 := by
    rw [hr2]
    unfold glui32 glsi32
    split <;> omega
  obtain ⟨st3, hrun3, hf3, hl3, hc3⟩ := op_stkroll_rotates c inst2 st2 (by rw [hn2]; exact hn)
    (by rw [hn2, hsp, hvb]; exact hcount) hr2lt hr2min (by rw [hn2, hsp]; exact hroom)
  rw [hn2, hsp] at hl3 hc3
  rw [hr2, hneg] at hc3
  refine ⟨st3, ?_, ?_, ?_, ?_⟩
  · rw [hrun]
    exact hrun3
  · rw [hf3]
    rw [hf]
  · intro a ha
    rw [hl3 a ha]
    exact hl a ha
  · intro k hk
    have hnpos : (0 : Int) < ((inst 0).value : Int) := by omega
    have h1 := Int.emod_nonneg ((k : Int) + glsi32 (inst 1).value)
      (show ((inst 0).value : Int) ≠ 0 by omega)
    have h2 := Int.emod_lt_of_pos ((k : Int) + glsi32 (inst 1).value) hnpos
    have hj : (((k : Int) + glsi32 (inst 1).value) % ((inst 0).value : Int)).toNat
        < (inst 0).value := by omega
    have hback := hc3 _ hj
    rw [Int.toNat_of_nonneg h1] at hback
    have hpos : (((k : Int) + glsi32 (inst 1).value) % ((inst 0).value : Int)
        + -glsi32 (inst 1).value) % ((inst 0).value : Int) = (k : Int) := by
      rw [Int.add_emod, Int.emod_emod, ← Int.add_emod]
      have e : (k : Int) + glsi32 (inst 1).value + -glsi32 (inst 1).value = k := by ring
      rw [e, Int.emod_eq_of_lt (by omega) (by omega)]
    rw [hpos, Int.toNat_ofNat] at hback
    rw [hback]
    exact hc k hk

/-! ## `stkpeek` in general -/

/-- An index within the value stack whose product by 4 is a non-negative
`glsi32` is served by `op_stkpeek`: the entry that many positions below the top
goes to the store gateway. -/
theorem op_stkpeek_in_range (c : Collab) (inst : Nat → oparg_t) (st : VM)
    (hsp : st.stackptr < 4294967296)
    (hi : (inst 0).value < (st.stackptr - st.valstackbase) / 4)
    (hsmall : (inst 0).value < 536870912) :
    op_stkpeek c inst st
      = c.store_operand (inst 1).desttype (inst 1).value
          (Stk4 st (st.stackptr - 4 * (inst 0).value - 4)) st := by
  have h4 : ((inst 0).value * 4) % 4294967296 = (inst 0).value * 4 :=
    Nat.mod_eq_of_lt (by omega)
  have hs : glsi32 ((inst 0).value * 4) = (((inst 0).value * 4 : Nat) : Int) :=
    glsi32_of_lt (by omega)
  have hcond : ¬ ((((inst 0).value * 4 : Nat) : Int) < 0 ∨
      glui32 (((inst 0).value * 4 : Nat) : Int)
        ≥ glui32 ((st.stackptr : Int) - (st.valstackbase : Int))) := by
    unfold glui32
    omega
  have haddr : glui32 ((st.stackptr : Int) - ((((inst 0).value * 4 : Nat) : Int) + 4))
      = st.stackptr - 4 * (inst 0).value - 4 := by
    unfold glui32
    omega
  unfold op_stkpeek
  simp only [h4, hs, if_neg hcond, haddr]

/-- An index at or beyond the number of entries of the value stack, small enough
for its product by 4 not to wrap, makes `op_stkpeek` end in its fatal error
(the value stack holding whole entries). -/
theorem op_stkpeek_out_of_range (c : Collab) (inst : Nat → oparg_t) (st : VM)
    (hsp : st.stackptr < 4294967296) (hbase : st.valstackbase ≤ st.stackptr)
    (halign : (st.stackptr - st.valstackbase) % 4 = 0)
    (hi : ¬ (inst 0).value < (st.stackptr - st.valstackbase) / 4)
    (hsmall : (inst 0).value < 1073741824) :
    op_stkpeek c inst st = Except.error "Stkpeek outside current stack range." := by
  have h4 : ((inst 0).value * 4) % 4294967296 = (inst 0).value * 4 :=
    Nat.mod_eq_of_lt (by omega)
  have hcond : glsi32 ((inst 0).value * 4) < 0 ∨
      glui32 (glsi32 ((inst 0).value * 4))
        ≥ glui32 ((st.stackptr : Int) - (st.valstackbase : Int)) := by
    rw [glui32_glsi32 (by omega)]
    right
    unfold glui32
    omega
  unfold op_stkpeek
  simp only [h4, if_pos hcond]
  rfl


/-- Instance of `op_stkroll_rotates`: `stkroll 3, 1` on five entries. -/
theorem op_stkroll_rotates_witness :
    ∃ st2 : VM,
      op_stkroll sample_collab (operands [load 3, load 1]) sample_vm = Except.ok st2 ∧
      st2 = { sample_vm with stack := st2.stack } ∧
      (∀ a, a < sample_vm.stackptr - 4 * (operands [load 3, load 1] 0).value →
        st2.stack a = sample_vm.stack a) ∧
      (∀ k, k < (operands [load 3, load 1] 0).value →
        Stk4 st2 (sample_vm.stackptr - 4 * (operands [load 3, load 1] 0).value
            + 4 * (((k : Int) + glsi32 (operands [load 3, load 1] 1).value)
                % ((operands [load 3, load 1] 0).value : Int)).toNat)
          = Stk4 sample_vm
              (sample_vm.stackptr - 4 * (operands [load 3, load 1] 0).value + 4 * k)) :=
  op_stkroll_rotates sample_collab (operands [load 3, load 1]) sample_vm
    (by decide) (by decide) (by decide) (by decide) (by decide)

/-- Instance of `op_stkroll_inverse`: `stkroll 3, 1` then `stkroll 3, -1`. -/
theorem op_stkroll_inverse_witness :
    ∃ st3 : VM,
      (op_stkroll sample_collab (operands [load 3, load 1]) sample_vm).bind
          (op_stkroll sample_collab (operands [load 3, load 4294967295])) = Except.ok st3 ∧
      st3 = { sample_vm with stack := st3.stack } ∧
      (∀ a, a < sample_vm.stackptr - 4 * (operands [load 3, load 1] 0).value →
        st3.stack a = sample_vm.stack a) ∧
      (∀ k, k < (operands [load 3, load 1] 0).value →
        Stk4 st3 (sample_vm.stackptr - 4 * (operands [load 3, load 1] 0).value + 4 * k)
          = Stk4 sample_vm
              (sample_vm.stackptr - 4 * (operands [load 3, load 1] 0).value + 4 * k)) :=
  op_stkroll_inverse sample_collab (operands [load 3, load 1])
    (operands [load 3, load 4294967295]) sample_vm
    (by decide) (by decide) (by decide) (by decide) (by decide) rfl (by decide)

/-- Instances of `op_stkpeek_in_range` and `op_stkpeek_out_of_range`: indices
4 and 5 on five entries. -/
theorem op_stkpeek_range_witness :
    op_stkpeek sample_collab (operands [load 4, load 0]) sample_vm
      = sample_collab.store_operand 0 0 (Stk4 sample_vm 4) sample_vm ∧
    op_stkpeek sample_collab (operands [load 5, load 0]) sample_vm
      = Except.error "Stkpeek outside current stack range." :=
  ⟨op_stkpeek_in_range sample_collab (operands [load 4, load 0]) sample_vm
      (by decide) (by decide) (by decide),
   op_stkpeek_out_of_range sample_collab (operands [load 5, load 0]) sample_vm
      (by decide) (by decide) (by decide) (by decide) (by decide)⟩

/-! ## Stack manipulation: concrete runs -/

/-- C9: `stkroll 3, 0x80000000` on a value stack of five entries. The roll
distance `-2^31` is congruent to 1 modulo 3, so the group `(e2, e3, e4)` at
offsets 12, 16, 20 should become `(e4, e2, e3)`; the run completes and leaves
`(e0, e1, e0)` there, the entries found below the group. -/
theorem stkroll_int_min_run :
    fatal_message (op_stkroll sample_collab (operands [load 3, load 2147483648]) sample_vm)
      = none ∧
    (List.map (Stk4 sample_vm) [4, 8, 12, 16, 20]
      = [67438087, 134810123, 202182159, 269554195, 336926231]) ∧
    (List.map (stack_entry
        (op_stkroll sample_collab (operands [load 3, load 2147483648]) sample_vm)) [12, 16, 20]
      = [some 67438087, some 134810123, some 67438087]) ∧
    (((0 : Int) + glsi32 2147483648) % 3 = 1) := by
  decide

/-- C8: `stkroll 3, 0x80000000` followed by `stkroll 3, -0x80000000` (which is
again `0x80000000` modulo `2^32`) on a value stack of five entries: both runs
complete, and the group at offsets 12, 16, 20, which held `(e2, e3, e4)`, holds
`(e0, e1, e0)`. -/
theorem stkroll_int_min_twice_run :
    glui32 (-(2147483648 : Int)) = 2147483648 ∧
    (List.map (Stk4 sample_vm) [12, 16, 20] = [202182159, 269554195, 336926231]) ∧
    (List.map (stack_entry
        ((op_stkroll sample_collab (operands [load 3, load 2147483648]) sample_vm).bind
          (op_stkroll sample_collab (operands [load 3, load (glui32 (-(2147483648 : Int)))])))
        ) [12, 16, 20]
      = [some 67438087, some 134810123, some 67438087]) := by
  decide

/-- C10: `stkpeek 0x40000000` on a value stack of five entries: the index is
far out of range, its product by 4 wraps to 0, and the run stores the top
entry instead of ending in a fatal error. -/
theorem stkpeek_wrapped_index_run :
    ¬ (1073741824 < (sample_vm.stackptr - sample_vm.valstackbase) / 4) ∧
    (1073741824 * 4) % 4294967296 = 0 ∧
    op_stkpeek sample_collab (operands [load 1073741824, load 0]) sample_vm
      = sample_collab.store_operand 0 0 (Stk4 sample_vm 20) sample_vm ∧
    fatal_message (op_stkpeek sample_collab (operands [load 1073741824, load 0]) sample_vm)
      = none := by
  refine ⟨by decide, by decide, rfl, by decide⟩



/-! ## Sign extension -/

theorem testBit_high_mask (w k : Nat) :
    (((2 : Nat) ^ w - 1) <<< (32 - w)).testBit k
      = decide (32 - w ≤ k ∧ k - (32 - w) < w) := by
  rw [Nat.testBit_shiftLeft, Nat.testBit_two_pow_sub_one]
  by_cases h1 : 32 - w ≤ k <;> by_cases h2 : k - (32 - w) < w <;> simp [h1, h2]

theorem and_two_pow_ne_zero (x i : Nat) : x &&& 2 ^ i ≠ 0 ↔ x.testBit i = true := by
  rw [Nat.and_two_pow]
  cases x.testBit i <;> simp

theorem or_high_mask (x w : Nat) (hw : w ≤ 32) (hx : x < 4294967296) :
    x ||| (((2 : Nat) ^ w - 1) <<< (32 - w))
      = x % 2 ^ (32 - w) + ((2 : Nat) ^ w - 1) <<< (32 - w) := by
  have hl : x % 2 ^ (32 - w) < 2 ^ (32 - w) := Nat.mod_lt _ (Nat.two_pow_pos _)
  have e : x % 2 ^ (32 - w) + ((2 : Nat) ^ w - 1) <<< (32 - w)
      = (((2 : Nat) ^ w - 1) <<< (32 - w)) ||| (x % 2 ^ (32 - w)) := by
    rw [Nat.shiftLeft_eq, Nat.mul_comm, ← Nat.mul_add_lt_is_or hl, Nat.add_comm]
  rw [e]
  apply Nat.eq_of_testBit_eq
  intro i
  rw [Nat.testBit_or, Nat.testBit_or, testBit_high_mask, Nat.testBit_mod_two_pow]
  by_cases h1 : i < 32 - w
  · have h2 : ¬ (32 - w ≤ i ∧ i - (32 - w) < w) := by omega
    rw [decide_eq_false h2, decide_eq_true h1]
    simp
  · by_cases h3 : i < 32
    · have h2 : 32 - w ≤ i ∧ i - (32 - w) < w := by omega
      rw [decide_eq_true h2]
      simp
    · have h2 : ¬ (32 - w ≤ i ∧ i - (32 - w) < w) := by omega
      rw [decide_eq_false h2, decide_eq_false h1]
      have hxi : x.testBit i = false :=
        Nat.testBit_lt_two_pow (lt_of_lt_of_le hx
          (by
            have : (2 : Nat) ^ 32 ≤ 2 ^ i := Nat.pow_le_pow_right (by norm_num) (by omega)
            omega))
      simp [hxi]

/-- The value `op_sexs` stores, in arithmetic form. -/
theorem sexs_value_eq (x : Nat) (hx : x < 4294967296) :
    (if x &&& 0x8000 ≠ 0 then x ||| 0xFFFF0000 else x &&& 0x0000FFFF)
      = if x % 65536 < 32768 then x % 65536 else x % 65536 + 4294901760 := by
  have hbit : x &&& 0x8000 ≠ 0 ↔ x.testBit 15 = true := and_two_pow_ne_zero x 15
  have hdm : x.testBit 15 = decide (x / 2 ^ 15 % 2 = 1) := Nat.testBit_to_div_mod
  have hor := or_high_mask x 16 (by norm_num) hx
  have hand := Nat.and_pow_two_sub_one_eq_mod x 16
  simp only [Nat.shiftLeft_eq] at hor
  norm_num at hor hand hdm
  by_cases hb : x.testBit 15 = true
  · rw [if_pos (hbit.2 hb), hor]
    rw [hb] at hdm
    have : x / 32768 % 2 = 1 := by simpa using hdm.symm
    rw [if_neg (by omega)]
  · rw [if_neg (fun h => hb (hbit.1 h)), hand]
    have hb2 : x.testBit 15 = false := by simpa using hb
    rw [hb2] at hdm
    have : ¬ x / 32768 % 2 = 1 := by simpa using hdm.symm
    rw [if_pos (by omega)]

/-- The value `op_sexb` stores, in arithmetic form. -/
theorem sexb_value_eq (x : Nat) (hx : x < 4294967296) :
    (if x &&& 0x80 ≠ 0 then x ||| 0xFFFFFF00 else x &&& 0x000000FF)
      = if x % 256 < 128 then x % 256 else x % 256 + 4294967040 := by
  have hbit : x &&& 0x80 ≠ 0 ↔ x.testBit 7 = true := and_two_pow_ne_zero x 7
  have hdm : x.testBit 7 = decide (x / 2 ^ 7 % 2 = 1) := Nat.testBit_to_div_mod
  have hor := or_high_mask x 24 (by norm_num) hx
  have hand := Nat.and_pow_two_sub_one_eq_mod x 8
  simp only [Nat.shiftLeft_eq] at hor
  norm_num at hor hand hdm
  by_cases hb : x.testBit 7 = true
  · rw [if_pos (hbit.2 hb), hor]
    rw [hb] at hdm
    have : x / 128 % 2 = 1 := by simpa using hdm.symm
    rw [if_neg (by omega)]
  · rw [if_neg (fun h => hb (hbit.1 h)), hand]
    have hb2 : x.testBit 7 = false := by simpa using hb
    rw [hb2] at hdm
    have : ¬ x / 128 % 2 = 1 := by simpa using hdm.symm
    rw [if_pos (by omega)]


/-- The bits of the value `op_sexs` stores (`w = 16`, sign bit 15) and of the one
`op_sexb` stores (`w = 24`, sign bit 7): the low `32 - w` bits are those of `x`,
the bits above, up to bit 31, are copies of the sign bit. -/
theorem sign_extend_bits (x w : Nat) (hw : w ≤ 31) :
    (∀ k, k < 32 - w →
      (if x &&& 2 ^ (31 - w) ≠ 0 then x ||| (((2 : Nat) ^ w - 1) <<< (32 - w))
        else x &&& (2 ^ (32 - w) - 1)).testBit k = x.testBit k) ∧
    (∀ k, 32 - w ≤ k → k < 32 →
      (if x &&& 2 ^ (31 - w) ≠ 0 then x ||| (((2 : Nat) ^ w - 1) <<< (32 - w))
        else x &&& (2 ^ (32 - w) - 1)).testBit k = x.testBit (31 - w)) := by
  by_cases hb : x.testBit (31 - w) = true
  · rw [if_pos ((and_two_pow_ne_zero x _).2 hb)]
    refine ⟨fun k hk => ?_, fun k h1 h2 => ?_⟩
    · rw [Nat.testBit_or, testBit_high_mask, decide_eq_false (by omega)]
      simp
    · rw [Nat.testBit_or, testBit_high_mask, decide_eq_true (by omega), hb]
      simp
  · rw [if_neg (fun h => hb ((and_two_pow_ne_zero x _).1 h))]
    have hb2 : x.testBit (31 - w) = false := by simpa using hb
    refine ⟨fun k hk => ?_, fun k h1 h2 => ?_⟩
    · rw [Nat.testBit_and, Nat.testBit_two_pow_sub_one, decide_eq_true hk]
      simp
    · rw [Nat.testBit_and, Nat.testBit_two_pow_sub_one, decide_eq_false (by omega), hb2]
      simp

/-- C20: for a 32-bit `x`, `sexs` stores the word with the low 16 bits of `x`
and bits 16..31 equal to bit 15 of `x`, and `sexb` the word with the low 8 bits
of `x` and bits 8..31 equal to bit 7 of `x`; read as signed, the result is the
low halfword (byte) of `x` read as a signed 16-bit (8-bit) integer; applying the
operation to its result gives the result again. -/
theorem sign_extension (c : Collab) (inst : Nat → oparg_t) (st : VM)
    (hx : (inst 0).value < 4294967296) :
    ∃ rs rb : Nat,
      rs = (if (inst 0).value % 65536 < 32768 then (inst 0).value % 65536
            else (inst 0).value % 65536 + 4294901760) ∧
      rb = (if (inst 0).value % 256 < 128 then (inst 0).value % 256
            else (inst 0).value % 256 + 4294967040) ∧
      op_sexs c inst st = c.store_operand (inst 1).desttype (inst 1).value rs st ∧
      op_sexb c inst st = c.store_operand (inst 1).desttype (inst 1).value rb st ∧
      (∀ k, k < 16 → rs.testBit k = (inst 0).value.testBit k) ∧
      (∀ k, 16 ≤ k → k < 32 → rs.testBit k = (inst 0).value.testBit 15) ∧
      (∀ k, k < 8 → rb.testBit k = (inst 0).value.testBit k) ∧
      (∀ k, 8 ≤ k → k < 32 → rb.testBit k = (inst 0).value.testBit 7) ∧
      glsi32 rs = (if (inst 0).value % 65536 < 32768 then (((inst 0).value % 65536 : Nat) : Int)
                    else (((inst 0).value % 65536 : Nat) : Int) - 65536) ∧
      glsi32 rb = (if (inst 0).value % 256 < 128 then (((inst 0).value % 256 : Nat) : Int)
                    else (((inst 0).value % 256 : Nat) : Int) - 256) ∧
      (∀ inst2 : Nat → oparg_t, (inst2 0).value = rs → inst2 1 = inst 1 →
        op_sexs c inst2 st = op_sexs c inst st) ∧
      (∀ inst2 : Nat → oparg_t, (inst2 0).value = rb → inst2 1 = inst 1 →
        op_sexb c inst2 st = op_sexb c inst st) := by
  generalize hxv : (inst 0).value = x at hx ⊢
  have hs := sexs_value_eq x hx
  have hb := sexb_value_eq x hx
  have bs : (∀ k, k < 16 →
        (if x &&& 0x8000 ≠ 0 then x ||| 0xFFFF0000 else x &&& 0x0000FFFF).testBit k
          = x.testBit k) ∧
      (∀ k, 16 ≤ k → k < 32 →
        (if x &&& 0x8000 ≠ 0 then x ||| 0xFFFF0000 else x &&& 0x0000FFFF).testBit k
          = x.testBit 15) := sign_extend_bits x 16 (by norm_num)
  have bb : (∀ k, k < 8 →
        (if x &&& 0x80 ≠ 0 then x ||| 0xFFFFFF00 else x &&& 0x000000FF).testBit k
          = x.testBit k) ∧
      (∀ k, 8 ≤ k → k < 32 →
        (if x &&& 0x80 ≠ 0 then x ||| 0xFFFFFF00 else x &&& 0x000000FF).testBit k
          = x.testBit 7) := sign_extend_bits x 24 (by norm_num)
  rw [hs] at bs
  rw [hb] at bb
  have hrs : (if x % 65536 < 32768 then x % 65536 else x % 65536 + 4294901760)
      < 4294967296 := by split <;> omega
  have hrb : (if x % 256 < 128 then x % 256 else x % 256 + 4294967040)
      < 4294967296 := by split <;> omega
  have is : (if (if x % 65536 < 32768 then x % 65536 else x % 65536 + 4294901760) % 65536
        < 32768
      then (if x % 65536 < 32768 then x % 65536 else x % 65536 + 4294901760) % 65536
      else (if x % 65536 < 32768 then x % 65536 else x % 65536 + 4294901760) % 65536
        + 4294901760)
      = (if x % 65536 < 32768 then x % 65536 else x % 65536 + 4294901760) := by
    split <;> split <;> omega
  have ib : (if (if x % 256 < 128 then x % 256 else x % 256 + 4294967040) % 256 < 128
      then (if x % 256 < 128 then x % 256 else x % 256 + 4294967040) % 256
      else (if x % 256 < 128 then x % 256 else x % 256 + 4294967040) % 256 + 4294967040)
      = (if x % 256 < 128 then x % 256 else x % 256 + 4294967040) := by
    split <;> split <;> omega
  have es : ∀ i2 : Nat → oparg_t, ∀ y, (i2 0).value = y → y < 4294967296 →
      op_sexs c i2 st = c.store_operand (i2 1).desttype (i2 1).value
        (if y % 65536 < 32768 then y % 65536 else y % 65536 + 4294901760) st := by
    intro i2 y hy hlt
    unfold op_sexs
    simp only [hy, sexs_value_eq y hlt]
  have eb : ∀ i2 : Nat → oparg_t, ∀ y, (i2 0).value = y → y < 4294967296 →
      op_sexb c i2 st = c.store_operand (i2 1).desttype (i2 1).value
        (if y % 256 < 128 then y % 256 else y % 256 + 4294967040) st := by
    intro i2 y hy hlt
    unfold op_sexb
    simp only [hy, sexb_value_eq y hlt]
  refine ⟨_, _, rfl, rfl, es inst x hxv hx, eb inst x hxv hx, bs.1, bs.2, bb.1, bb.2, ?_, ?_,
    ?_, ?_⟩
  · unfold glsi32; split <;> split <;> omega
  · unfold glsi32; split <;> split <;> omega
  · intro inst2 h0 h1
    rw [es inst2 _ h0 hrs, es inst x hxv hx, is, h1]
  · intro inst2 h0 h1
    rw [eb inst2 _ h0 hrb, eb inst x hxv hx, ib, h1]

/-- Instance of `sign_extension`: `x = 0x1234ABCD`. -/
theorem sign_extension_witness :
    op_sexs sample_collab (operands [load 305441741, load 0]) sample_vm
      = sample_collab.store_operand 0 0 4294945741 sample_vm ∧
    op_sexb sample_collab (operands [load 305441741, load 0]) sample_vm
      = sample_collab.store_operand 0 0 4294967245 sample_vm := by
  obtain ⟨rs, rb, h1, h2, h3, h4, -⟩ :=
    sign_extension sample_collab (operands [load 305441741, load 0]) sample_vm (by decide)
  rw [h3, h4, h1, h2]
  exact ⟨rfl, rfl⟩


/-! ## `stkswap` -/

/-- The stack bytes after the two writes of `op_stkswap` at offsets `p + 4` and
`p`: the two words have changed places, byte for byte. -/
theorem stkswap_stack (st : VM) (p a : Nat) :
    (StkW4 (StkW4 st (p + 4) (Stk4 st p)) p (Stk4 st (p + 4))).stack a
      = if p ≤ a ∧ a < p + 4 then st.stack (a + 4) % 256
        else if p + 4 ≤ a ∧ a < p + 8 then st.stack (a - 4) % 256
        else st.stack a := by
  by_cases h1 : p ≤ a ∧ a < p + 4
  · rw [if_pos h1]
    obtain ⟨j, rfl⟩ : ∃ j, a = p + j := ⟨a - p, by omega⟩
    have hj : j < 4 := by omega
    interval_cases j <;> simp [StkW4, Stk4, Nat.add_assoc] <;> omega
  · rw [if_neg h1]
    by_cases h2 : p + 4 ≤ a ∧ a < p + 8
    · rw [if_pos h2]
      obtain ⟨j, rfl⟩ : ∃ j, a = p + 4 + j := ⟨a - (p + 4), by omega⟩
      have hj : j < 4 := by omega
      interval_cases j <;> simp [StkW4, Stk4, Nat.add_assoc] <;> omega
    · rw [if_neg h2]
      have ha : a < p ∨ p + 8 ≤ a := by omega
      rcases ha with ha | ha
      · rw [StkW4_stack_of_lt _ _ _ _ ha, StkW4_stack_of_lt _ _ _ _ (by omega)]
      · rw [StkW4_stack_of_ge _ _ _ _ (by omega), StkW4_stack_of_ge _ _ _ _ (by omega)]


theorem StkW4_stackptr (st : VM) (p v : Nat) : (StkW4 st p v).stackptr = st.stackptr := rfl

/-- With at least two entries on the value stack `op_stkswap` completes with the
state in which the two words below `stackptr` have been written crosswise. -/
theorem op_stkswap_ok (c : Collab) (inst : Nat → oparg_t) (st : VM)
    (hsp : st.stackptr < 4294967296) (hvb : st.valstackbase + 8 < 4294967296)
    (h : st.valstackbase + 8 ≤ st.stackptr) :
    op_stkswap c inst st
      = Except.ok (StkW4 (StkW4 st (st.stackptr - 8 + 4) (Stk4 st (st.stackptr - 8)))
          (st.stackptr - 8) (Stk4 st (st.stackptr - 8 + 4))) := by
  have e4 : glui32 ((st.stackptr : Int) - 4) = st.stackptr - 8 + 4 := by
    unfold glui32; omega
  have e8 : glui32 ((st.stackptr : Int) - 8) = st.stackptr - 8 := by
    unfold glui32; omega
  have hm : (st.valstackbase + 8) % 4294967296 = st.valstackbase + 8 := Nat.mod_eq_of_lt hvb
  unfold op_stkswap
  rw [hm, if_neg (by omega)]
  simp only [e4, e8, StkW4_stackptr]

/-- C13: `stkswap` ends in a fatal error exactly when the value stack holds
fewer than two entries (`stackptr < valstackbase + 8`); otherwise it exchanges
the two top entries and changes nothing else, and a second `stkswap` restores
every stack byte. -/
theorem op_stkswap_exchanges (c : Collab) (inst : Nat → oparg_t) (st : VM)
    (hsp : st.stackptr < 4294967296) (hvb : st.valstackbase + 8 < 4294967296) :
    (fatal_message (op_stkswap c inst st) ≠ none ↔ st.stackptr < st.valstackbase + 8) ∧
    (st.valstackbase + 8 ≤ st.stackptr →
      ∃ st1 st2 : VM,
        op_stkswap c inst st = Except.ok st1 ∧ op_stkswap c inst st1 = Except.ok st2 ∧
        st1 = { st with stack := st1.stack } ∧
        Stk4 st1 (st.stackptr - 4) = Stk4 st (st.stackptr - 8) ∧
        Stk4 st1 (st.stackptr - 8) = Stk4 st (st.stackptr - 4) ∧
        (∀ a, a < st.stackptr - 8 ∨ st.stackptr ≤ a → st1.stack a = st.stack a) ∧
        st2 = { st with stack := st2.stack } ∧
        (∀ a, st2.stack a % 256 = st.stack a % 256) ∧
        (∀ a, a < st.stackptr - 8 ∨ st.stackptr ≤ a → st2.stack a = st.stack a) ∧
        Stk4 st2 (st.stackptr - 4) = Stk4 st (st.stackptr - 4) ∧
        Stk4 st2 (st.stackptr - 8) = Stk4 st (st.stackptr - 8)) := by
  have hm : (st.valstackbase + 8) % 4294967296 = st.valstackbase + 8 := Nat.mod_eq_of_lt hvb
  have hbytes1 := stkswap_stack st (st.stackptr - 8)
  refine ⟨⟨fun hf => ?_, fun hlt => ?_⟩, fun hge => ?_⟩
  · by_contra hge
    rw [op_stkswap_ok c inst st hsp hvb (by omega)] at hf
    exact hf rfl
  · unfold op_stkswap
    rw [hm, if_pos hlt]
    simp [fatal_message, fatal_error]
  · have h1 := op_stkswap_ok c inst st hsp hvb hge
    generalize hst1 : StkW4 (StkW4 st (st.stackptr - 8 + 4) (Stk4 st (st.stackptr - 8)))
      (st.stackptr - 8) (Stk4 st (st.stackptr - 8 + 4)) = st1 at h1 hbytes1
    have hf1 : st1 = { st with stack := st1.stack } := by rw [← hst1]; rfl
    have hsp1 : st1.stackptr = st.stackptr := by rw [hf1]
    have hvb1 : st1.valstackbase = st.valstackbase := by rw [hf1]
    have h2 := op_stkswap_ok c inst st1 (by omega) (by omega) (by omega)
    have hbytes2 := stkswap_stack st1 (st1.stackptr - 8)
    generalize hst2 : StkW4 (StkW4 st1 (st1.stackptr - 8 + 4) (Stk4 st1 (st1.stackptr - 8)))
      (st1.stackptr - 8) (Stk4 st1 (st1.stackptr - 8 + 4)) = st2 at h2 hbytes2
    have hf2 : st2 = { st with stack := st2.stack } := by
      have : st2 = { st1 with stack := st2.stack } := by rw [← hst2]; rfl
      rw [this, hf1]
    rw [hsp1] at hbytes2
    have e4 : st.stackptr - 4 = st.stackptr - 8 + 4 := by omega
    have hall : ∀ a, st2.stack a % 256 = st.stack a % 256 := by
      intro a
      rw [hbytes2 a]
      by_cases c1 : st.stackptr - 8 ≤ a ∧ a < st.stackptr - 8 + 4
      · rw [if_pos c1, hbytes1 (a + 4), if_neg (by omega), if_pos (by omega)]
        simp
      · rw [if_neg c1]
        by_cases c2 : st.stackptr - 8 + 4 ≤ a ∧ a < st.stackptr - 8 + 8
        · rw [if_pos c2, hbytes1 (a - 4), if_pos (by omega)]
          have : a - 4 + 4 = a := by omega
          rw [this]
          simp
        · rw [if_neg c2, hbytes1 a, if_neg c1, if_neg c2]
    have hout : ∀ s : VM, (∀ a, s.stack a % 256 = st.stack a % 256) → ∀ q, Stk4 s q = Stk4 st q := by
      intro s hs q
      unfold Stk4
      rw [hs q, hs (q + 1), hs (q + 2), hs (q + 3)]
    refine ⟨st1, st2, h1, h2, hf1, ?_, ?_, ?_, hf2, hall, ?_, hout st2 hall _, hout st2 hall _⟩
    · rw [e4, ← hst1, Stk4_StkW4_of_disjoint _ _ _ _ (Or.inr (by omega)),
        Stk4_StkW4_same _ _ _ (Stk4_lt _ _)]
    · rw [← hst1, Stk4_StkW4_same _ _ _ (Stk4_lt _ _)]
      rw [e4]
    · intro a ha
      rw [hbytes1 a, if_neg (by omega), if_neg (by omega)]
    · intro a ha
      rw [hbytes2 a, if_neg (by omega), if_neg (by omega), hbytes1 a, if_neg (by omega),
        if_neg (by omega)]

/-- Instance of `op_stkswap_exchanges`: five entries on the value stack. -/
theorem op_stkswap_exchanges_witness :
    fatal_message (op_stkswap sample_collab (operands []) sample_vm) = none ∧
    fatal_message (op_stkswap sample_collab (operands []) { sample_vm with stackptr := 8 })
      ≠ none := by
  have h := op_stkswap_exchanges sample_collab (operands []) sample_vm (by decide) (by decide)
  have h2 := op_stkswap_exchanges sample_collab (operands [])
    { sample_vm with stackptr := 8 } (by decide) (by decide)
  refine ⟨?_, h2.1.2 (by decide)⟩
  obtain ⟨st1, st2, e1, -⟩ := h.2 (by decide)
  rw [e1]
  rfl


/-! ## `stkcopy` -/

/-- C11: for a count `n` with `0 ≤ n ≤ stkcount` and `stackptr + 4n ≤ stacksize`,
`stkcopy n` completes, raises `stackptr` by `4n`, leaves every stack byte below
the old `stackptr` as it was, and makes the new entry at `stackptr + 4j` equal
to the old entry at `stackptr - 4n + 4j`, for each `j < n`. -/
theorem op_stkcopy_duplicates (c : Collab) (inst : Nat → oparg_t) (st : VM)
    (hss : st.stacksize < 4294967296)
    (hcount : (inst 0).value ≤ (st.stackptr - st.valstackbase) / 4)
    (hroom : st.stackptr + 4 * (inst 0).value ≤ st.stacksize) :
    ∃ st1 : VM, op_stkcopy c inst st = Except.ok st1 ∧
      st1.stackptr = st.stackptr + 4 * (inst 0).value ∧
      st1 = { st with stack := st1.stack, stackptr := st1.stackptr } ∧
      (∀ a, a < st.stackptr → st1.stack a = st.stack a) ∧
      (∀ j, j < (inst 0).value →
        Stk4 st1 (st.stackptr + 4 * j)
          = Stk4 st (st.stackptr - 4 * (inst 0).value + 4 * j)) := by
  generalize hnv : (inst 0).value = n at *
  have hs0 : glsi32 n = (n : Int) := glsi32_of_lt (by omega)
  by_cases hn0 : n = 0
  · subst hn0
    refine ⟨st, ?_, by omega, rfl, fun _ _ => rfl, fun j hj => absurd hj (Nat.not_lt_zero j)⟩
    unfold op_stkcopy
    simp only [hnv, hs0]
    simp
  · have haddr : glui32 ((st.stackptr : Int) - (n : Int) * 4) = st.stackptr - 4 * n := by
      unfold glui32; omega
    have hunder : ¬ st.stackptr < glui32 ((st.valstackbase : Int) + (n : Int) * 4) := by
      have : glui32 ((st.valstackbase : Int) + (n : Int) * 4) = st.valstackbase + 4 * n := by
        unfold glui32; omega
      rw [this]; omega
    have htop : glui32 ((st.stackptr : Int) + (n : Int) * 4) = st.stackptr + 4 * n := by
      unfold glui32; omega
    obtain ⟨hf, hl, hc⟩ := stkroll_save_spec st st.stackptr (st.stackptr - 4 * n) n
      (by omega) (by omega)
    have hsp1 : (stkroll_save st.stackptr (st.stackptr - 4 * n) (n : Int) st).stackptr
        = st.stackptr := by rw [hf]
    have hrun : op_stkcopy c inst st
        = Except.ok { stkroll_save st.stackptr (st.stackptr - 4 * n) (n : Int) st with
            stackptr := st.stackptr + 4 * n } := by
      unfold op_stkcopy
      simp only [hnv, hs0, haddr]
      rw [if_neg (by omega), if_neg (by omega), if_neg hunder, htop, if_neg (by omega)]
      have e : stkcopy_loop st.stackptr (st.stackptr - 4 * n) (n : Int) st
          = stkroll_save st.stackptr (st.stackptr - 4 * n) (n : Int) st := rfl
      rw [e, hsp1, htop]
    refine ⟨_, hrun, rfl, ?_, hl, ?_⟩
    · conv_lhs => rw [hf]
    · intro j hj
      rw [← hc j hj]
      exact Stk4_congr _ _ _ (fun _ _ _ => rfl)

/-- Instance of `op_stkcopy_duplicates`: `stkcopy 2` on five entries. -/
theorem op_stkcopy_duplicates_witness :
    ∃ st1 : VM, op_stkcopy sample_collab (operands [load 2]) sample_vm = Except.ok st1 ∧
      st1.stackptr = sample_vm.stackptr + 4 * (operands [load 2] 0).value ∧
      st1 = { sample_vm with stack := st1.stack, stackptr := st1.stackptr } ∧
      (∀ a, a < sample_vm.stackptr → st1.stack a = sample_vm.stack a) ∧
      (∀ j, j < (operands [load 2] 0).value →
        Stk4 st1 (sample_vm.stackptr + 4 * j)
          = Stk4 sample_vm (sample_vm.stackptr - 4 * (operands [load 2] 0).value + 4 * j)) :=
  op_stkcopy_duplicates sample_collab (operands [load 2]) sample_vm
    (by decide) (by decide) (by decide)

/-- The fatal errors of `op_stkcopy` for a count `n` with `stackptr + 4n` within
32 bits: a negative count (whatever its size), a count above the number of
entries of the value stack, and a count for which `stackptr + 4n` exceeds
`stacksize`. -/
theorem op_stkcopy_fatal (c : Collab) (inst : Nat → oparg_t) (st : VM)
    (hsp : st.stackptr < 4294967296) (hbase : st.valstackbase ≤ st.stackptr)
    (hstk : st.stackptr ≤ st.stacksize) :
    (2147483648 ≤ (inst 0).value → (inst 0).value < 4294967296 →
      op_stkcopy c inst st = Except.error "Negative operand in stkcopy.") ∧
    (st.stackptr + 4 * (inst 0).value < 4294967296 →
      (st.stackptr - st.valstackbase) / 4 < (inst 0).value →
      op_stkcopy c inst st = Except.error "Stack underflow in stkcopy.") ∧
    (st.stackptr + 4 * (inst 0).value < 4294967296 →
      (inst 0).value ≤ (st.stackptr - st.valstackbase) / 4 →
      st.stacksize < st.stackptr + 4 * (inst 0).value →
      op_stkcopy c inst st = Except.error "Stack overflow in stkcopy.") := by
  generalize hnv : (inst 0).value = n at *
  refine ⟨fun h1 h2 => ?_, fun h1 h2 => ?_, fun h1 h2 h3 => ?_⟩
  · have hs : glsi32 n < 0 := by rw [glsi32_of_ge h1 h2]; omega
    unfold op_stkcopy
    simp only [hnv, if_pos hs]
    rfl
  · have hs0 : glsi32 n = (n : Int) := glsi32_of_lt (by omega)
    have hu : st.stackptr < glui32 ((st.valstackbase : Int) + (n : Int) * 4) := by
      have : glui32 ((st.valstackbase : Int) + (n : Int) * 4) = st.valstackbase + 4 * n := by
        unfold glui32; omega
      rw [this]; omega
    unfold op_stkcopy
    simp only [hnv, hs0]
    rw [if_neg (by omega), if_neg (by omega), if_pos hu]
    rfl
  · have hs0 : glsi32 n = (n : Int) := glsi32_of_lt (by omega)
    have hn0 : n ≠ 0 := by omega
    have hu : ¬ st.stackptr < glui32 ((st.valstackbase : Int) + (n : Int) * 4) := by
      have : glui32 ((st.valstackbase : Int) + (n : Int) * 4) = st.valstackbase + 4 * n := by
        unfold glui32; omega
      rw [this]; omega
    have ho : glui32 ((st.stackptr : Int) + (n : Int) * 4) > st.stacksize := by
      have : glui32 ((st.stackptr : Int) + (n : Int) * 4) = st.stackptr + 4 * n := by
        unfold glui32; omega
      rw [this]; omega
    unfold op_stkcopy
    simp only [hnv, hs0]
    rw [if_neg (by omega), if_neg (by omega), if_neg hu, if_pos ho]
    rfl

/-- Instance of `op_stkcopy_fatal`: counts `-1`, 6 and 251 on five entries. -/
theorem op_stkcopy_fatal_witness :
    op_stkcopy sample_collab (operands [load 4294967295]) sample_vm
      = Except.error "Negative operand in stkcopy." ∧
    op_stkcopy sample_collab (operands [load 6]) sample_vm
      = Except.error "Stack underflow in stkcopy." ∧
    op_stkcopy sample_collab (operands [load 251])
        { sample_vm with stackptr := 1020, valstackbase := 4 }
      = Except.error "Stack overflow in stkcopy." :=
  ⟨(op_stkcopy_fatal sample_collab (operands [load 4294967295]) sample_vm
      (by decide) (by decide) (by decide)).1 (by decide) (by decide),
   (op_stkcopy_fatal sample_collab (operands [load 6]) sample_vm
      (by decide) (by decide) (by decide)).2.1 (by decide) (by decide),
   (op_stkcopy_fatal sample_collab (operands [load 251])
      { sample_vm with stackptr := 1020, valstackbase := 4 }
      (by decide) (by decide) (by decide)).2.2 (by decide) (by decide) (by decide)⟩

/-- C12: `stkcopy 0x40000000` on a value stack of five entries (stack size
1024): the count exceeds the number of entries and `stackptr + 4n` exceeds
`stacksize`, but the product `n*4` wraps to 0, both range tests pass, and the run
does not end in a fatal error. -/
theorem stkcopy_wrapped_count_run :
    (sample_vm.stackptr - sample_vm.valstackbase) / 4 < 1073741824 ∧
    sample_vm.stacksize < sample_vm.stackptr + 4 * 1073741824 ∧
    glui32 (glsi32 1073741824 * 4) = 0 ∧
    fatal_message (op_stkcopy sample_collab (operands [load 1073741824]) sample_vm) = none := by
  refine ⟨by decide, by decide, by decide, ?_⟩
  unfold op_stkcopy
  have h0 : glsi32 (operands [load 1073741824] 0).value = 1073741824 := by decide
  simp only [h0]
  rw [if_neg (by decide), if_neg (by decide), if_neg (by decide), if_neg (by decide)]
  rfl


/-! ## Bit access in memory -/

/-- The byte address `aloadbit` and `astorebit` compute is the base plus the
bit index divided by 8, rounded toward negative infinity, modulo `2^32`. -/
theorem bit_address_eq (b v : Nat) :
    (if glsi32 v ≥ 0 then glui32 ((b : Int) + (glsi32 v >>> (3 : Nat)))
      else glui32 ((b : Int) - (1 + ((-1 - glsi32 v) >>> (3 : Nat)))))
      = glui32 ((b : Int) + glsi32 v / 8) := by
  rw [Int.shiftRight_eq_div_pow, Int.shiftRight_eq_div_pow]
  have e : (((2 : Nat) ^ 3 : Nat) : Int) = 8 := by norm_num
  rw [e]
  split
  · rfl
  · congr 1
    omega

/-- The bit number `aloadbit` and `astorebit` compute is the bit index modulo 8. -/
theorem bit_number_eq (v : Nat) (hv : v < 4294967296) :
    glui32 (glsi32 v) &&& 7 = (glsi32 v % 8).toNat ∧ (glsi32 v % 8).toNat < 8 := by
  have h := Nat.and_pow_two_sub_one_eq_mod v 3
  norm_num at h
  rw [glui32_glsi32 hv, h]
  unfold glsi32
  split <;> omega

theorem testBit_set_bit (x n k : Nat) (hk : k < 8) :
    ((x ||| 1 <<< n) % 256).testBit k = (decide (n = k) || x.testBit k) := by
  have e : (256 : Nat) = 2 ^ 8 := by norm_num
  rw [e, Nat.testBit_mod_two_pow, Nat.testBit_or, Nat.one_shiftLeft, Nat.testBit_two_pow,
    decide_eq_true hk]
  cases x.testBit k <;> cases decide (n = k) <;> rfl

theorem testBit_clear_bit (x n k : Nat) (hk : k < 8) :
    ((x &&& (4294967295 ^^^ 1 <<< n)) % 256).testBit k = (!decide (n = k) && x.testBit k) := by
  have e : (256 : Nat) = 2 ^ 8 := by norm_num
  have e2 : (4294967295 : Nat) = 2 ^ 32 - 1 := by norm_num
  rw [e, Nat.testBit_mod_two_pow, Nat.testBit_and, Nat.testBit_xor, e2,
    Nat.testBit_two_pow_sub_one, Nat.one_shiftLeft, Nat.testBit_two_pow, decide_eq_true hk,
    decide_eq_true (show k < 32 by omega)]
  cases x.testBit k <;> cases decide (n = k) <;> rfl

/-- C14: for a base `B` and a signed bit index `i`, `aloadbit` and `astorebit`
access the byte at `(B + floor(i / 8)) mod 2^32` and bit `i mod 8` of it:
`aloadbit` stores 1 if the bit is set and 0 otherwise; `astorebit` sets the bit
when its third operand is non-zero and clears it otherwise, leaving the other
seven bits of the byte and every other byte of memory as they were. -/
theorem bit_access (c : Collab) (inst : Nat → oparg_t) (st : VM)
    (hi : (inst 1).value < 4294967296)
    (hmem : glui32 (((inst 0).value : Int) + glsi32 (inst 1).value / 8) + 1 ≤ st.endmem) :
    (glsi32 (inst 1).value % 8).toNat < 8 ∧
    op_aloadbit c inst st
      = c.store_operand (inst 2).desttype (inst 2).value
          (if (st.memmap (glui32 (((inst 0).value : Int) + glsi32 (inst 1).value / 8))
                % 256).testBit (glsi32 (inst 1).value % 8).toNat then 1 else 0) st ∧
    (st.ramstart ≤ glui32 (((inst 0).value : Int) + glsi32 (inst 1).value / 8) →
      ∃ st1 : VM, op_astorebit c inst st = Except.ok st1 ∧
        st1 = { st with memmap := st1.memmap } ∧
        (∀ a, a ≠ glui32 (((inst 0).value : Int) + glsi32 (inst 1).value / 8) →
          st1.memmap a = st.memmap a) ∧
        st1.memmap (glui32 (((inst 0).value : Int) + glsi32 (inst 1).value / 8)) < 256 ∧
        (st1.memmap (glui32 (((inst 0).value : Int) + glsi32 (inst 1).value / 8))).testBit
            (glsi32 (inst 1).value % 8).toNat = decide ((inst 2).value ≠ 0) ∧
        (∀ k, k < 8 → k ≠ (glsi32 (inst 1).value % 8).toNat →
          (st1.memmap (glui32 (((inst 0).value : Int) + glsi32 (inst 1).value / 8))).testBit k
            = (st.memmap (glui32 (((inst 0).value : Int) + glsi32 (inst 1).value / 8))
                % 256).testBit k)) := by
  obtain ⟨hbit, hlt⟩ := bit_number_eq (inst 1).value hi
  have haddr := bit_address_eq (inst 0).value (inst 1).value
  generalize glui32 (((inst 0).value : Int) + glsi32 (inst 1).value / 8) = addr at *
  generalize (glsi32 (inst 1).value % 8).toNat = bit at *
  refine ⟨hlt, ?_, fun hram => ?_⟩
  · unfold op_aloadbit
    simp only [haddr, hbit, Mem1, if_pos hmem, bind, Except.bind]
    congr 1
    have h := and_two_pow_ne_zero (st.memmap addr % 256) bit
    rw [← Nat.one_shiftLeft] at h
    by_cases hb : (st.memmap addr % 256).testBit bit = true
    · rw [if_pos (h.2 hb), if_pos hb]
    · rw [if_neg (fun hh => hb (h.1 hh)), if_neg hb]
  · have hrun : op_astorebit c inst st
        = Except.ok { st with memmap := (fun a =>
            if a = addr then
              (if (inst 2).value ≠ 0 then st.memmap addr % 256 ||| 1 <<< bit
                else st.memmap addr % 256 &&& (4294967295 ^^^ 1 <<< bit)) % 256
            else st.memmap a) } := by
      unfold op_astorebit
      simp only [haddr, hbit, Mem1, MemW1, if_pos hmem, bind, Except.bind]
      rw [if_neg (by omega)]
    refine ⟨_, hrun, rfl, fun a ha => ?_, ?_, ?_, fun k hk hne => ?_⟩
    · simp only [if_neg ha]
    · simp only [if_true]
      exact Nat.mod_lt _ (by norm_num)
    · simp only [if_true]
      by_cases h2 : (inst 2).value ≠ 0
      · rw [if_pos h2, testBit_set_bit _ _ _ hlt, decide_eq_true h2]
        simp
      · rw [if_neg h2, testBit_clear_bit _ _ _ hlt, decide_eq_false h2]
        simp
    · simp only [if_true]
      have hne2 : ¬ bit = k := fun h => hne h.symm
      by_cases h2 : (inst 2).value ≠ 0
      · rw [if_pos h2, testBit_set_bit _ _ _ hk, decide_eq_false hne2]
        simp
      · rw [if_neg h2, testBit_clear_bit _ _ _ hk, decide_eq_false hne2]
        simp

/-- Instance of `bit_access`: base 600, bit index `-1` (byte 599, bit 7). -/
theorem bit_access_witness :
    op_aloadbit sample_collab (operands [load 600, load 4294967295, load 0]) sample_vm
      = sample_collab.store_operand 0 0 0 sample_vm ∧
    (∃ st1 : VM,
      op_astorebit sample_collab (operands [load 600, load 4294967295, load 1]) sample_vm
        = Except.ok st1 ∧ (st1.memmap 599).testBit 7 = true) := by
  have h := bit_access sample_collab (operands [load 600, load 4294967295, load 0]) sample_vm
    (by decide) (by decide)
  have h2 := bit_access sample_collab (operands [load 600, load 4294967295, load 1]) sample_vm
    (by decide) (by decide)
  refine ⟨h.2.1, ?_⟩
  obtain ⟨st1, e1, -, -, -, e2, -⟩ := h2.2.2 (by decide)
  exact ⟨st1, e1, e2⟩


/-! ## `mcopy` -/

/-- One copied byte: `Mem1` at `s` followed by `MemW1` at `d`, both inside the
image and `d` in RAM. -/
theorem mcopy_byte (st : VM) (s d : Nat) (hs : s + 1 ≤ st.endmem) (hd : d + 1 ≤ st.endmem)
    (hram : st.ramstart ≤ d) :
    (Mem1 st s >>= fun value => MemW1 st d value)
      = Except.ok { st with memmap := (fun a => if a = d then st.memmap s % 256
                                                else st.memmap a) } := by
  simp only [Mem1, MemW1, if_pos hs, if_pos hd, bind, Except.bind]
  rw [if_neg (by omega)]
  simp

/-- The ascending loop of `op_mcopy`, for a destination below the source. -/
theorem mcopy_up_spec : ∀ (n s d : Nat) (st : VM), d < s → s + n ≤ st.endmem →
    st.endmem < 4294967296 → st.ramstart ≤ d →
    ∃ st1 : VM, mcopy_up n s d st = Except.ok st1 ∧
      st1 = { st with memmap := st1.memmap } ∧
      (∀ k, k < n → st1.memmap (d + k) = st.memmap (s + k) % 256) ∧
      (∀ a, a < d ∨ d + n ≤ a → st1.memmap a = st.memmap a) := by
  intro n
  induction n with
  | zero =>
    intro s d st _ _ _ _
    exact ⟨st, rfl, rfl, fun k hk => absurd hk (Nat.not_lt_zero k), fun _ _ => rfl⟩
  | succ m ih =>
    intro s d st hds hs hend hram
    have hb := mcopy_byte st s d (by omega) (by omega) hram
    obtain ⟨st1, hrun, hf, hc, ho⟩ := ih (s + 1) (d + 1)
      { st with memmap := (fun a => if a = d then st.memmap s % 256 else st.memmap a) }
      (by omega) (by simp only; omega) hend (by simp only; omega)
    refine ⟨st1, ?_, ?_, ?_, ?_⟩
    · have e : mcopy_up (m + 1) s d st
          = (Mem1 st s >>= fun value => MemW1 st d value) >>= fun st2 =>
              mcopy_up m ((s + 1) % 4294967296) ((d + 1) % 4294967296) st2 := by
        simp only [mcopy_up, bind_assoc]
      rw [e, hb, Nat.mod_eq_of_lt (show s + 1 < 4294967296 by omega),
        Nat.mod_eq_of_lt (show d + 1 < 4294967296 by omega)]
      exact hrun
    · conv_lhs => rw [hf]
    · intro k hk
      rcases Nat.eq_zero_or_pos k with h0 | h0
      · subst h0
        rw [Nat.add_zero, Nat.add_zero, ho d (Or.inl (by omega))]
        simp
      · have e1 : d + k = d + 1 + (k - 1) := by omega
        have e2 : s + k = s + 1 + (k - 1) := by omega
        rw [e1, hc (k - 1) (by omega), ← e2]
        simp only
        rw [if_neg (by omega)]
    · intro a ha
      rw [ho a (by omega)]
      simp only
      rw [if_neg (by omega)]

/-- The descending loop of `op_mcopy`, entered with the addresses of the last
bytes, for a destination at or above the source. -/
theorem mcopy_down_spec : ∀ (n s d : Nat) (st : VM), s ≤ d → n ≤ s + 1 → d + 1 ≤ st.endmem →
    st.endmem < 4294967296 → st.ramstart + n ≤ d + 1 →
    ∃ st1 : VM, mcopy_down n s d st = Except.ok st1 ∧
      st1 = { st with memmap := st1.memmap } ∧
      (∀ k, k < n → st1.memmap (d - k) = st.memmap (s - k) % 256) ∧
      (∀ a, a + n ≤ d ∨ d < a → st1.memmap a = st.memmap a) := by
  intro n
  induction n with
  | zero =>
    intro s d st _ _ _ _ _
    exact ⟨st, rfl, rfl, fun k hk => absurd hk (Nat.not_lt_zero k), fun _ _ => rfl⟩
  | succ m ih =>
    intro s d st hsd hn hd hend hram
    have hb := mcopy_byte st s d (by omega) (by omega) (by omega)
    have e : mcopy_down (m + 1) s d st
        = (Mem1 st s >>= fun value => MemW1 st d value) >>= fun st2 =>
            mcopy_down m ((s + 4294967295) % 4294967296) ((d + 4294967295) % 4294967296)
              st2 := by
      simp only [mcopy_down, bind_assoc]
    rcases Nat.eq_zero_or_pos m with hm | hm
    · subst hm
      refine ⟨{ st with memmap := (fun a => if a = d then st.memmap s % 256
                                            else st.memmap a) }, ?_, rfl, ?_, ?_⟩
      · rw [e, hb]
        rfl
      · intro k hk
        have : k = 0 := by omega
        subst this
        simp
      · intro a ha
        simp only
        rw [if_neg (by omega)]
    · obtain ⟨st1, hrun, hf, hc, ho⟩ := ih (s - 1) (d - 1)
        { st with memmap := (fun a => if a = d then st.memmap s % 256 else st.memmap a) }
        (by omega) (by omega) (by simp only; omega) hend (by simp only; omega)
      refine ⟨st1, ?_, ?_, ?_, ?_⟩
      · rw [e, hb]
        have e1 : (s + 4294967295) % 4294967296 = s - 1 := by omega
        have e2 : (d + 4294967295) % 4294967296 = d - 1 := by omega
        rw [e1, e2]
        exact hrun
      · conv_lhs => rw [hf]
      · intro k hk
        rcases Nat.eq_zero_or_pos k with h0 | h0
        · subst h0
          rw [Nat.sub_zero, Nat.sub_zero, ho d (Or.inr (by omega))]
          simp
        · have e1 : d - k = d - 1 - (k - 1) := by omega
          have e2 : s - k = s - 1 - (k - 1) := by omega
          rw [e1, hc (k - 1) (by omega), ← e2]
          simp only
          rw [if_neg (by omega)]
      · intro a ha
        rw [ho a (by omega)]
        simp only
        rw [if_neg (by omega)]


/-- C15: for `count`, `src`, `dst` with both ranges inside the memory image
(no 32-bit wrap-around) and the destination in RAM, after `mcopy` each byte
`dst + k` holds the byte `src + k` held before, and every byte outside
`[dst, dst + count)` and all the rest of the state are unchanged, whether the
ranges overlap with `dst < src`, with `dst > src` or `dst = src`; with
`count = 0` nothing changes at all. -/
theorem op_mcopy_copies (c : Collab) (inst : Nat → oparg_t) (st : VM) :
    ((inst 0).value = 0 → op_mcopy c inst st = Except.ok st) ∧
    (st.endmem < 4294967296 →
      (inst 1).value + (inst 0).value ≤ st.endmem →
      (inst 2).value + (inst 0).value ≤ st.endmem →
      st.ramstart ≤ (inst 2).value →
      ∃ st1 : VM, op_mcopy c inst st = Except.ok st1 ∧
        st1 = { st with memmap := st1.memmap } ∧
        (∀ k, k < (inst 0).value →
          st1.memmap ((inst 2).value + k) = st.memmap ((inst 1).value + k) % 256) ∧
        (∀ a, a < (inst 2).value ∨ (inst 2).value + (inst 0).value ≤ a →
          st1.memmap a = st.memmap a)) := by
  have hrun : op_mcopy c inst st
      = if (inst 2).value < (inst 1).value then
          mcopy_up (inst 0).value (inst 1).value (inst 2).value st
        else
          mcopy_down (inst 0).value
            (glui32 (((inst 1).value : Int) + (((inst 0).value : Int) - 1)))
            (glui32 (((inst 2).value : Int) + (((inst 0).value : Int) - 1))) st := rfl
  rw [hrun]
  generalize (inst 0).value = count
  generalize (inst 1).value = src
  generalize (inst 2).value = dst
  refine ⟨fun h0 => ?_, fun hend hsrc hdst hram => ?_⟩
  · subst h0
    split <;> rfl
  · by_cases hlt : dst < src
    · rw [if_pos hlt]
      exact mcopy_up_spec count src dst st hlt hsrc hend hram
    · rw [if_neg hlt]
      rcases Nat.eq_zero_or_pos count with h0 | h0
      · subst h0
        exact ⟨st, rfl, rfl, fun k hk => absurd hk (Nat.not_lt_zero k), fun _ _ => rfl⟩
      · have e1 : glui32 ((src : Int) + ((count : Int) - 1)) = src + count - 1 := by
          unfold glui32; omega
        have e2 : glui32 ((dst : Int) + ((count : Int) - 1)) = dst + count - 1 := by
          unfold glui32; omega
        rw [e1, e2]
        obtain ⟨st1, h1, hf, hc, ho⟩ := mcopy_down_spec count (src + count - 1)
          (dst + count - 1) st (by omega) (by omega) (by omega) hend (by omega)
        refine ⟨st1, h1, hf, fun k hk => ?_, fun a ha => ho a (by omega)⟩
        have hk2 := hc (count - 1 - k) (by omega)
        have e3 : dst + count - 1 - (count - 1 - k) = dst + k := by omega
        have e4 : src + count - 1 - (count - 1 - k) = src + k := by omega
        rw [e3, e4] at hk2
        exact hk2

/-- Instance of `op_mcopy_copies`: 8 bytes moved up by 3 (overlapping, copied
from the high end) and 8 bytes moved down by 3. -/
theorem op_mcopy_copies_witness :
    (∃ st1 : VM, op_mcopy sample_collab (operands [load 8, load 600, load 603]) sample_vm
        = Except.ok st1 ∧
      (∀ k, k < 8 → st1.memmap (603 + k) = sample_vm.memmap (600 + k) % 256)) ∧
    (∃ st1 : VM, op_mcopy sample_collab (operands [load 8, load 603, load 600]) sample_vm
        = Except.ok st1 ∧
      (∀ k, k < 8 → st1.memmap (600 + k) = sample_vm.memmap (603 + k) % 256)) := by
  obtain ⟨st1, h1, -, h2, -⟩ :=
    (op_mcopy_copies sample_collab (operands [load 8, load 600, load 603]) sample_vm).2
      (by decide) (by decide) (by decide) (by decide)
  obtain ⟨st2, h3, -, h4, -⟩ :=
    (op_mcopy_copies sample_collab (operands [load 8, load 603, load 600]) sample_vm).2
      (by decide) (by decide) (by decide) (by decide)
  exact ⟨⟨st1, h1, h2⟩, ⟨st2, h3, h4⟩⟩


/-! ## Call stubs, catch and throw -/

/-- The stub `push_callstub` writes: with room for 16 bytes it completes,
raises `stackptr` by 16, and the four words at the old `stackptr` are the
destination type, the destination address, `pc` and `frameptr`. -/
theorem push_callstub_spec (desttype destaddr : Nat) (st : VM)
    (hroom : st.stackptr + 16 ≤ st.stacksize)
    (hdt : desttype < 4294967296) (hda : destaddr < 4294967296)
    (hpc : st.pc < 4294967296) (hfp : st.frameptr < 4294967296) :
    ∃ st1 : VM, push_callstub desttype destaddr st = Except.ok st1 ∧
      st1 = { st with stack := st1.stack, stackptr := st.stackptr + 16 } ∧
      Stk4 st1 st.stackptr = desttype ∧ Stk4 st1 (st.stackptr + 4) = destaddr ∧
      Stk4 st1 (st.stackptr + 8) = st.pc ∧ Stk4 st1 (st.stackptr + 12) = st.frameptr ∧
      (∀ a, a < st.stackptr → st1.stack a = st.stack a) := by
  refine ⟨{ StkW4 (StkW4 (StkW4 (StkW4 st (st.stackptr + 0) desttype) (st.stackptr + 4)
      destaddr) (st.stackptr + 8) st.pc) (st.stackptr + 12) st.frameptr with
      stackptr := st.stackptr + 16 }, ?_, rfl, ?_, ?_, ?_, ?_, ?_⟩
  · unfold push_callstub
    rw [if_neg (by omega)]
  · show Stk4 (StkW4 (StkW4 (StkW4 (StkW4 st (st.stackptr + 0) desttype) (st.stackptr + 4)
      destaddr) (st.stackptr + 8) st.pc) (st.stackptr + 12) st.frameptr) st.stackptr = desttype
    rw [Stk4_StkW4_of_disjoint _ _ _ _ (Or.inl (by omega)),
      Stk4_StkW4_of_disjoint _ _ _ _ (Or.inl (by omega)),
      Stk4_StkW4_of_disjoint _ _ _ _ (Or.inl (by omega))]
    exact Stk4_StkW4_same _ _ _ hdt
  · show Stk4 (StkW4 (StkW4 (StkW4 (StkW4 st (st.stackptr + 0) desttype) (st.stackptr + 4)
      destaddr) (st.stackptr + 8) st.pc) (st.stackptr + 12) st.frameptr) (st.stackptr + 4)
      = destaddr
    rw [Stk4_StkW4_of_disjoint _ _ _ _ (Or.inl (by omega)),
      Stk4_StkW4_of_disjoint _ _ _ _ (Or.inl (by omega))]
    exact Stk4_StkW4_same _ _ _ hda
  · show Stk4 (StkW4 (StkW4 (StkW4 (StkW4 st (st.stackptr + 0) desttype) (st.stackptr + 4)
      destaddr) (st.stackptr + 8) st.pc) (st.stackptr + 12) st.frameptr) (st.stackptr + 8)
      = st.pc
    rw [Stk4_StkW4_of_disjoint _ _ _ _ (Or.inl (by omega))]
    exact Stk4_StkW4_same _ _ _ hpc
  · show Stk4 (StkW4 (StkW4 (StkW4 (StkW4 st (st.stackptr + 0) desttype) (st.stackptr + 4)
      destaddr) (st.stackptr + 8) st.pc) (st.stackptr + 12) st.frameptr) (st.stackptr + 12)
      = st.frameptr
    exact Stk4_StkW4_same _ _ _ hfp
  · intro a ha
    show (StkW4 (StkW4 (StkW4 (StkW4 st (st.stackptr + 0) desttype) (st.stackptr + 4)
      destaddr) (st.stackptr + 8) st.pc) (st.stackptr + 12) st.frameptr).stack a = st.stack a
    rw [StkW4_stack_of_lt _ _ _ _ (by omega), StkW4_stack_of_lt _ _ _ _ (by omega),
      StkW4_stack_of_lt _ _ _ _ (by omega), StkW4_stack_of_lt _ _ _ _ (by omega)]

/-- C16: with call stubs the 16-byte records of `push_callstub` and
`pop_callstub`: `op_catch` with destination `D` at stack pointer `S` pushes a stub
recording `D`, the `pc` after the instruction and `frameptr`, and the token it
stores through `D` is `S + 16`; an `op_throw` with that token, executed in any
later state whose stack bytes `[S, S + 16)` are unchanged, pops that stub:
`pc` and `frameptr` are those recorded, `stackptr` is `S`, and the thrown value
is stored through `D`. -/
theorem catch_throw_stub (c : Collab) (inst : Nat → oparg_t) (st : VM)
    (hpush : c.push_callstub = push_callstub)
    (hpop : c.pop_callstub = pop_callstub c.store_operand)
    (hroom : st.stackptr + 16 ≤ st.stacksize)
    (hdt : (inst 0).desttype < 4294967296) (hda : (inst 0).value < 4294967296)
    (hpc : st.pc < 4294967296) (hfp : st.frameptr < 4294967296) :
    ∃ st1 : VM,
      c.push_callstub (inst 0).desttype (inst 0).value st = Except.ok st1 ∧
      st1 = { st with stack := st1.stack, stackptr := st.stackptr + 16 } ∧
      Stk4 st1 st.stackptr = (inst 0).desttype ∧
      Stk4 st1 (st.stackptr + 4) = (inst 0).value ∧
      Stk4 st1 (st.stackptr + 8) = st.pc ∧
      Stk4 st1 (st.stackptr + 12) = st.frameptr ∧
      op_catch c inst st
        = (c.store_operand (inst 0).desttype (inst 0).value (st.stackptr + 16) st1).bind
            (PerformJump c (inst 1).value) ∧
      (∀ (st2 : VM) (inst2 : Nat → oparg_t),
        (∀ a, st.stackptr ≤ a → a < st.stackptr + 16 → st2.stack a = st1.stack a) →
        (inst2 1).value = st.stackptr + 16 →
        op_throw c inst2 st2
          = c.store_operand (inst 0).desttype (inst 0).value (inst2 0).value
              { st2 with stackptr := st.stackptr, pc := st.pc, frameptr := st.frameptr,
                         valstackbase := (st.frameptr + Stk4 st2 st.frameptr) % 4294967296 }) := by
  obtain ⟨st1, h1, hf, e0, e4, e8, e12, -⟩ :=
    push_callstub_spec (inst 0).desttype (inst 0).value st hroom hdt hda hpc hfp
  have hsp1 : st1.stackptr = st.stackptr + 16 := by rw [hf]
  refine ⟨st1, by rw [hpush]; exact h1, hf, e0, e4, e8, e12, ?_, ?_⟩
  · unfold op_catch
    rw [hpush, h1]
    simp only [bind, Except.bind, hsp1]
  · intro st2 inst2 hbytes htok
    have r0 : Stk4 st2 (st.stackptr + 0) = (inst 0).desttype := by
      rw [← e0]
      exact Stk4_congr _ _ _ (fun a h1 h2 => hbytes a (by omega) (by omega))
    have r4 : Stk4 st2 (st.stackptr + 4) = (inst 0).value := by
      rw [← e4]
      exact Stk4_congr _ _ _ (fun a h1 h2 => hbytes a (by omega) (by omega))
    have r8 : Stk4 st2 (st.stackptr + 8) = st.pc := by
      rw [← e8]
      exact Stk4_congr _ _ _ (fun a h1 h2 => hbytes a (by omega) (by omega))
    have r12 : Stk4 st2 (st.stackptr + 12) = st.frameptr := by
      rw [← e12]
      exact Stk4_congr _ _ _ (fun a h1 h2 => hbytes a (by omega) (by omega))
    unfold op_throw
    rw [hpop]
    unfold pop_callstub
    simp only [htok]
    rw [if_neg (by omega)]
    have es : st.stackptr + 16 - 16 = st.stackptr := by omega
    simp only [es]
    have q0 : Stk4 { st2 with stackptr := st.stackptr + 16 } (st.stackptr + 0)
        = (inst 0).desttype := r0
    have q4 : Stk4 { st2 with stackptr := st.stackptr + 16 } (st.stackptr + 4)
        = (inst 0).value := r4
    have q8 : Stk4 { st2 with stackptr := st.stackptr + 16 } (st.stackptr + 8) = st.pc := r8
    have q12 : Stk4 { st2 with stackptr := st.stackptr + 16 } (st.stackptr + 12)
        = st.frameptr := r12
    rw [q0, q4, q8, q12]
    rfl

/-- Instance of `catch_throw_stub`: a catch with destination `(0, 0)` at stack
pointer 24, and a throw of 99 with token 40 from a state with 64 more bytes on
the stack. -/
theorem catch_throw_stub_witness :
    ∃ st1 : VM,
      stub_collab.push_callstub 0 0 sample_vm = Except.ok st1 ∧
      Stk4 st1 (sample_vm.stackptr + 8) = sample_vm.pc ∧
      Stk4 st1 (sample_vm.stackptr + 12) = sample_vm.frameptr ∧
      op_catch stub_collab (operands [load 0, load 2]) sample_vm
        = (stub_collab.store_operand 0 0 (sample_vm.stackptr + 16) st1).bind
            (PerformJump stub_collab 2) ∧
      op_throw stub_collab (operands [load 99, load 40]) { st1 with stackptr := 104, pc := 700 }
        = stub_collab.store_operand 0 0 99
            { st1 with stackptr := 24, pc := 300, frameptr := 0,
                       valstackbase := (0 + Stk4 st1 0) % 4294967296 } := by
  obtain ⟨st1, h1, -, -, -, h8, h12, hc, ht⟩ :=
    catch_throw_stub stub_collab (operands [load 0, load 2]) sample_vm rfl rfl
      (by decide) (by decide) (by decide) (by decide) (by decide)
  exact ⟨st1, h1, h8, h12, hc,
    ht { st1 with stackptr := 104, pc := 700 } (operands [load 99, load 40])
      (fun _ _ _ => rfl) rfl⟩

/-! ## Restore -/

/-- C17: when the restore helper returns 0, `op_restore` (`op_restoreundo`) pops
the call stub of the restored stack with the value `0xFFFFFFFF`, whatever its
own destination operand and the store gateway are; when the helper returns a
non-zero value, that value is stored through the opcode's own destination
operand, whatever `pop_callstub` is. -/
theorem restore_result_routing (c : Collab) (inst : Nat → oparg_t) (st : VM) :
    (∀ st1 : VM,
      c.perform_restore (c.find_stream_by_id (inst 0).value st) st = Except.ok (0, st1) →
      op_restore c inst st = c.pop_callstub 4294967295 st1 ∧
      (∀ inst2 : Nat → oparg_t, (inst2 0).value = (inst 0).value →
        op_restore c inst2 st = op_restore c inst st) ∧
      (∀ g, op_restore { c with store_operand := g } inst st = op_restore c inst st)) ∧
    (∀ (v : Nat) (st1 : VM), v ≠ 0 →
      c.perform_restore (c.find_stream_by_id (inst 0).value st) st = Except.ok (v, st1) →
      op_restore c inst st = c.store_operand (inst 1).desttype (inst 1).value v st1 ∧
      (∀ f, op_restore { c with pop_callstub := f } inst st = op_restore c inst st)) ∧
    (∀ st1 : VM, c.perform_restoreundo st = Except.ok (0, st1) →
      op_restoreundo c inst st = c.pop_callstub 4294967295 st1 ∧
      (∀ inst2 : Nat → oparg_t, op_restoreundo c inst2 st = op_restoreundo c inst st) ∧
      (∀ g, op_restoreundo { c with store_operand := g } inst st = op_restoreundo c inst st)) ∧
    (∀ (v : Nat) (st1 : VM), v ≠ 0 → c.perform_restoreundo st = Except.ok (v, st1) →
      op_restoreundo c inst st = c.store_operand (inst 0).desttype (inst 0).value v st1 ∧
      (∀ f, op_restoreundo { c with pop_callstub := f } inst st = op_restoreundo c inst st)) := by
  refine ⟨fun st1 h => ⟨?_, fun inst2 h2 => ?_, fun g => ?_⟩,
    fun v st1 hv h => ⟨?_, fun f => ?_⟩,
    fun st1 h => ⟨?_, fun inst2 => ?_, fun g => ?_⟩,
    fun v st1 hv h => ⟨?_, fun f => ?_⟩⟩
  · simp [op_restore, h, bind, Except.bind]
  · simp [op_restore, h, h2, bind, Except.bind]
  · simp [op_restore, h, bind, Except.bind]
  · simp [op_restore, h, hv, bind, Except.bind]
  · simp [op_restore, h, hv, bind, Except.bind]
  · simp [op_restoreundo, h, bind, Except.bind]
  · simp [op_restoreundo, h, bind, Except.bind]
  · simp [op_restoreundo, h, bind, Except.bind]
  · simp [op_restoreundo, h, hv, bind, Except.bind]
  · simp [op_restoreundo, h, hv, bind, Except.bind]

/-- Instance of `restore_result_routing`: a restore that succeeds and one that
fails with status 1. -/
theorem restore_result_routing_witness :
    op_restore stub_collab (operands [load 7, load 5]) sample_vm
      = stub_collab.pop_callstub 4294967295 sample_vm ∧
    op_restore sample_collab (operands [load 7, load 5]) sample_vm
      = sample_collab.store_operand 0 5 1 sample_vm ∧
    op_restoreundo stub_collab (operands [load 5]) sample_vm
      = stub_collab.pop_callstub 4294967295 sample_vm ∧
    op_restoreundo sample_collab (operands [load 5]) sample_vm
      = sample_collab.store_operand 0 5 1 sample_vm :=
  ⟨((restore_result_routing stub_collab (operands [load 7, load 5]) sample_vm).1
      sample_vm rfl).1,
   ((restore_result_routing sample_collab (operands [load 7, load 5]) sample_vm).2.1
      1 sample_vm (by decide) rfl).1,
   ((restore_result_routing stub_collab (operands [load 5]) sample_vm).2.2.1
      sample_vm rfl).1,
   ((restore_result_routing sample_collab (operands [load 5]) sample_vm).2.2.2
      1 sample_vm (by decide) rfl).1⟩


/-! ## The program counter across an instruction -/

/-- C18: `jumpabs 0xFFFFFFFF`, executed from a state with `pc` inside the
image (`pc = 300`, `endmem = 1024`), completes with `pc = 0xFFFFFFFF`, outside
`[0, endmem)`; and `jumpabs 0` completes with `pc = 0`, which is not greater
than any `pc` the instruction can have started at. -/
theorem jumpabs_pc_unchecked :
    sample_vm.pc < sample_vm.endmem ∧
    op_jumpabs sample_collab (operands [load 4294967295]) sample_vm
      = Except.ok { sample_vm with pc := 4294967295 } ∧
    ¬ (4294967295 < sample_vm.endmem) ∧
    op_jumpabs sample_collab (operands [load 0]) sample_vm
      = Except.ok { sample_vm with pc := 0 } ∧
    (∀ before : Nat, ¬ (before + 1 ≤ 0)) :=
  ⟨by decide, rfl, by decide, rfl, fun _ h => absurd h (by omega)⟩

/-- A completed opcode fetch has moved `pc`, and only `pc`, forward by 1, 2 or
4 bytes, all of them inside the image. -/
theorem fetch_opcode_advances (st : VM) (hend : st.endmem < 4294967296)
    (opcode : Nat) (st1 : VM) (h : fetch_opcode st = Except.ok (opcode, st1)) :
    st1 = { st with pc := st1.pc } ∧ st1.pc ≤ st.endmem ∧
    (st1.pc = st.pc + 1 ∨ st1.pc = st.pc + 2 ∨ st1.pc = st.pc + 4) := by
  have hp : st.pc + 1 ≤ st.endmem := by
    by_contra hn
    simp [fetch_opcode, Mem1, hn, bind, Except.bind, fatal_error] at h
  have e1 : (st.pc + 1) % 4294967296 = st.pc + 1 := Nat.mod_eq_of_lt (by omega)
  simp only [fetch_opcode, Mem1, if_pos hp, e1, bind, Except.bind, pure, Except.pure] at h
  split at h
  · split at h
    · by_cases hp2 : st.pc + 1 + 1 ≤ st.endmem
      · have e2 : (st.pc + 1 + 1) % 4294967296 = st.pc + 2 := Nat.mod_eq_of_lt (by omega)
        simp only [if_pos hp2, e2] at h
        by_cases hp3 : st.pc + 2 + 1 ≤ st.endmem
        · have e3 : (st.pc + 2 + 1) % 4294967296 = st.pc + 3 := Nat.mod_eq_of_lt (by omega)
          simp only [if_pos hp3, e3] at h
          by_cases hp4 : st.pc + 3 + 1 ≤ st.endmem
          · have e4 : (st.pc + 3 + 1) % 4294967296 = st.pc + 4 := Nat.mod_eq_of_lt (by omega)
            simp only [if_pos hp4, e4, Except.ok.injEq, Prod.mk.injEq] at h
            obtain ⟨-, rfl⟩ := h
            exact ⟨rfl, by simp only; omega, Or.inr (Or.inr rfl)⟩
          · simp [if_neg hp4, fatal_error] at h
        · simp [if_neg hp3, fatal_error] at h
      · simp [if_neg hp2, fatal_error] at h
    · by_cases hp2 : st.pc + 1 + 1 ≤ st.endmem
      · have e2 : (st.pc + 1 + 1) % 4294967296 = st.pc + 2 := Nat.mod_eq_of_lt (by omega)
        simp only [if_pos hp2, e2, Except.ok.injEq, Prod.mk.injEq] at h
        obtain ⟨-, rfl⟩ := h
        exact ⟨rfl, by simp only; omega, Or.inr (Or.inl rfl)⟩
      · simp [if_neg hp2, fatal_error] at h
  · simp only [Except.ok.injEq, Prod.mk.injEq] at h
    obtain ⟨-, rfl⟩ := h
    exact ⟨rfl, hp, Or.inl rfl⟩

/-- C18 as amended: from a state with `endmem` a 32-bit quantity, a completed
opcode fetch moves `pc`, and nothing else, forward by 1, 2 or 4 bytes within the
image; `jump` with an operand `v` other than 0 and 1 then sets `pc` to
`(p + v - 2) mod 2^32` and `jumpabs v` sets it to `v`, whatever `v`, `endmem` and
the earlier `pc` are; and a fetch at a `pc` not inside `[0, endmem)` is a fatal
error. -/
theorem pc_after_instruction (c : Collab) (inst : Nat → oparg_t) (st : VM)
    (hend : st.endmem < 4294967296) :
    (∀ (opcode : Nat) (st1 : VM), fetch_opcode st = Except.ok (opcode, st1) →
      st1 = { st with pc := st1.pc } ∧ st.pc < st1.pc ∧ st1.pc ≤ st.pc + 4 ∧
      st1.pc ≤ st.endmem) ∧
    ((inst 0).value ≠ 0 → (inst 0).value ≠ 1 →
      op_jump c inst st
        = Except.ok { st with pc := glui32 ((st.pc : Int) + ((inst 0).value : Int) - 2) }) ∧
    op_jumpabs c inst st = Except.ok { st with pc := (inst 0).value } ∧
    (st.endmem ≤ st.pc → fetch_opcode st = Except.error "Memory access out of range") := by
  refine ⟨fun opcode st1 h => ?_, fun h0 h1 => ?_, rfl, fun hout => ?_⟩
  · obtain ⟨hf, hle, hstep⟩ := fetch_opcode_advances st hend opcode st1 h
    exact ⟨hf, by omega, by omega, hle⟩
  · have hv : ¬ ((inst 0).value = 0 ∨ (inst 0).value = 1) := fun h => h.elim h0 h1
    unfold op_jump PerformJump
    simp only [if_neg hv]
    rfl
  · have hn : ¬ st.pc + 1 ≤ st.endmem := by omega
    simp [fetch_opcode, Mem1, hn, bind, Except.bind, fatal_error]

/-- Instance of `pc_after_instruction`: a one-byte opcode fetched at `pc = 70`,
`jump -16` and `jumpabs 2000` at `pc = 300`, and a fetch at `pc = 2000`, in an
image of 1024 bytes. -/
theorem pc_after_instruction_witness :
    fetch_opcode { sample_vm with pc := 70 } = Except.ok (70, { sample_vm with pc := 71 }) ∧
    op_jump sample_collab (operands [load 4294967280]) sample_vm
      = Except.ok { sample_vm with pc := 282 } ∧
    op_jumpabs sample_collab (operands [load 2000]) sample_vm
      = Except.ok { sample_vm with pc := 2000 } ∧
    fetch_opcode { sample_vm with pc := 2000 } = Except.error "Memory access out of range" := by
  have h := pc_after_instruction sample_collab (operands [load 4294967280]) sample_vm
    (by decide)
  have h2 := pc_after_instruction sample_collab (operands [load 2000])
    { sample_vm with pc := 2000 } (by decide)
  refine ⟨rfl, ?_, rfl, h2.2.2.2 (by decide)⟩
  rw [h.2.1 (by decide) (by decide)]
  rfl


/-! ## The stack pointer across an instruction -/

/-- C19: `throw 0, 21` executed from a state satisfying the stack-pointer
invariant (`stackptr = 24`, `valstackbase = 4`, `stacksize = 1024`), with the
modelled `pop_callstub`: the token is not checked, the run completes, and it
leaves `stackptr = 9`, which is not a multiple of 4. -/
theorem throw_breaks_stack_invariant :
    stack_invariant sample_vm ∧
    ∃ st1 : VM, op_throw stub_collab (operands [load 0, load 21]) sample_vm = Except.ok st1 ∧
      st1.stackptr = 9 ∧ ¬ stack_invariant st1 :=
  ⟨by decide, _, rfl, rfl, by decide⟩

theorem frame_of_frame (s st : VM) (x : Nat → Nat) (hs : s = { st with stack := s.stack }) :
    ({ s with stack := x } : VM) = { st with stack := x } := by
  cases s
  cases st
  simp_all

/-- A loop of stack writes changes nothing but stack bytes. -/
theorem stack_loop_frame (f : Nat → VM → Nat) (g : Nat → VM → Nat) (n : Nat) (st : VM) :
    (List.range n).foldl (fun (s : VM) (ix : Nat) => StkW4 s (f ix s) (g ix s)) st
      = { st with stack :=
          ((List.range n).foldl (fun (s : VM) (ix : Nat) => StkW4 s (f ix s) (g ix s)) st).stack } :=
  foldl_range_invariant (fun (s : VM) (ix : Nat) => StkW4 s (f ix s) (g ix s))
    (fun _ s => s = { st with stack := s.stack }) st n rfl
    (fun i s _ hs => by
      simp only
      rw [StkW4_frame]
      exact frame_of_frame _ _ _ hs)

theorem stkroll_save_frame (sp a : Nat) (d : Int) (st : VM) :
    stkroll_save sp a d st = { st with stack := (stkroll_save sp a d st).stack } :=
  stack_loop_frame (fun ix _ => glui32 ((sp : Int) + (ix : Int) * 4))
    (fun ix s => Stk4 s (glui32 ((a : Int) + (ix : Int) * 4))) d.toNat st

theorem stkroll_shift_frame (a : Nat) (v0 d : Int) (st : VM) :
    stkroll_shift a v0 d st = { st with stack := (stkroll_shift a v0 d st).stack } :=
  stack_loop_frame (fun ix _ => glui32 ((a : Int) + (ix : Int) * 4))
    (fun ix s => Stk4 s (glui32 ((a : Int) + (d + (ix : Int)) * 4))) v0.toNat st

/-- Whatever its operands, a completed `op_stkroll` has changed nothing but
stack bytes. -/
theorem op_stkroll_frame (c : Collab) (inst : Nat → oparg_t) (st st1 : VM)
    (h : op_stkroll c inst st = Except.ok st1) : st1 = { st with stack := st1.stack } := by
  have key : ∀ (d v0 : Int) (sp a : Nat),
      (if d = 0 then Except.ok st
        else (Except.ok (stkroll_shift a v0 d (stkroll_save sp a d st)) : Except String VM))
        = Except.ok st1 → st1 = { st with stack := st1.stack } := by
    intro d v0 sp a hd
    split at hd
    · simp only [Except.ok.injEq] at hd
      rw [← hd]
    · simp only [Except.ok.injEq] at hd
      rw [← hd]
      have h1 := stkroll_shift_frame a v0 d (stkroll_save sp a d st)
      have h2 := frame_of_frame _ _ (stkroll_shift a v0 d (stkroll_save sp a d st)).stack
        (stkroll_save_frame sp a d st)
      exact h1.trans h2
  unfold op_stkroll at h
  simp only at h
  split at h
  · simp [fatal_error] at h
  · split at h
    · simp [fatal_error] at h
    · split at h
      · simp only [Except.ok.injEq] at h
        rw [← h]
      · exact key _ _ _ _ h


/-- C19 as amended: from a state with `stackptr` a multiple of 4 in
`[valstackbase, stacksize]` (`stacksize` a 32-bit quantity), a completed
`stkswap`, a completed `stkroll`, and a completed `stkcopy n` with
`stacksize + 4n` within 32 bits leave `stackptr` a multiple of 4 in
`[valstackbase, stacksize]`; `op_throw`, with the modelled `pop_callstub`, makes
its token operand `t` the stack pointer without any check but `t ≥ 16` and pops
the 16 bytes below it, so that the thrown value is stored with
`stackptr = t - 16`. -/
theorem stackptr_invariant_stack_ops (c : Collab) (inst : Nat → oparg_t) (st : VM)
    (hinv : stack_invariant st) (hss : st.stacksize < 4294967296) :
    (∀ st1 : VM, op_stkswap c inst st = Except.ok st1 → stack_invariant st1) ∧
    (∀ st1 : VM, op_stkroll c inst st = Except.ok st1 → stack_invariant st1) ∧
    (st.stacksize + 4 * (inst 0).value < 4294967296 →
      ∀ st1 : VM, op_stkcopy c inst st = Except.ok st1 →
        stack_invariant st1 ∧ st1.stackptr = st.stackptr + 4 * (inst 0).value) ∧
    (c.pop_callstub = pop_callstub c.store_operand →
      ((inst 1).value < 16 →
        op_throw c inst st = Except.error "Stack underflow in callstub.") ∧
      (16 ≤ (inst 1).value →
        op_throw c inst st
          = c.store_operand (Stk4 st ((inst 1).value - 16 + 0))
              (Stk4 st ((inst 1).value - 16 + 4)) (inst 0).value
              { st with stackptr := (inst 1).value - 16,
                        pc := Stk4 st ((inst 1).value - 16 + 8),
                        frameptr := Stk4 st ((inst 1).value - 16 + 12),
                        valstackbase := (Stk4 st ((inst 1).value - 16 + 12)
                          + Stk4 st (Stk4 st ((inst 1).value - 16 + 12))) % 4294967296 })) := by
  obtain ⟨hal, hlo, hhi⟩ := hinv
  refine ⟨fun st1 h => ?_, fun st1 h => ?_, fun hn st1 h => ?_, fun hpop => ⟨fun ht => ?_, fun ht => ?_⟩⟩
  · unfold op_stkswap at h
    simp only at h
    split at h
    · simp [fatal_error] at h
    · simp only [Except.ok.injEq] at h
      rw [← h]
      exact ⟨hal, hlo, hhi⟩
  · have hf := op_stkroll_frame c inst st st1 h
    rw [hf]
    exact ⟨hal, hlo, hhi⟩
  · generalize hnv : (inst 0).value = n at *
    have hs0 : glsi32 n = (n : Int) := glsi32_of_lt (by omega)
    have e1 : glui32 ((st.valstackbase : Int) + (n : Int) * 4) = st.valstackbase + 4 * n := by
      unfold glui32; omega
    have e2 : glui32 ((st.stackptr : Int) + (n : Int) * 4) = st.stackptr + 4 * n := by
      unfold glui32; omega
    unfold op_stkcopy at h
    simp only [hnv, hs0, e1, e2] at h
    rw [if_neg (by omega)] at h
    split at h
    · simp only [Except.ok.injEq] at h
      rw [← h]
      have : n = 0 := by omega
      subst this
      exact ⟨⟨hal, hlo, hhi⟩, rfl⟩
    · split at h
      · simp [fatal_error] at h
      · split at h
        · simp [fatal_error] at h
        · simp only [Except.ok.injEq] at h
          have hsp : (stkcopy_loop st.stackptr (glui32 ((st.stackptr : Int) - (n : Int) * 4))
              (n : Int) st).stackptr = st.stackptr := by
            have := stkroll_save_frame st.stackptr
              (glui32 ((st.stackptr : Int) - (n : Int) * 4)) (n : Int) st
            have e : stkcopy_loop st.stackptr (glui32 ((st.stackptr : Int) - (n : Int) * 4))
                (n : Int) st = stkroll_save st.stackptr
                  (glui32 ((st.stackptr : Int) - (n : Int) * 4)) (n : Int) st := rfl
            rw [e, this]
          have hvb : (stkcopy_loop st.stackptr (glui32 ((st.stackptr : Int) - (n : Int) * 4))
              (n : Int) st).valstackbase = st.valstackbase := by
            have := stkroll_save_frame st.stackptr
              (glui32 ((st.stackptr : Int) - (n : Int) * 4)) (n : Int) st
            have e : stkcopy_loop st.stackptr (glui32 ((st.stackptr : Int) - (n : Int) * 4))
                (n : Int) st = stkroll_save st.stackptr
                  (glui32 ((st.stackptr : Int) - (n : Int) * 4)) (n : Int) st := rfl
            rw [e, this]
          have hsz : (stkcopy_loop st.stackptr (glui32 ((st.stackptr : Int) - (n : Int) * 4))
              (n : Int) st).stacksize = st.stacksize := by
            have := stkroll_save_frame st.stackptr
              (glui32 ((st.stackptr : Int) - (n : Int) * 4)) (n : Int) st
            have e : stkcopy_loop st.stackptr (glui32 ((st.stackptr : Int) - (n : Int) * 4))
                (n : Int) st = stkroll_save st.stackptr
                  (glui32 ((st.stackptr : Int) - (n : Int) * 4)) (n : Int) st := rfl
            rw [e, this]
          rw [hsp, e2] at h
          rw [← h]
          refine ⟨⟨?_, ?_, ?_⟩, rfl⟩
          · show (st.stackptr + 4 * n) % 4 = 0
            omega
          · show (stkcopy_loop st.stackptr (glui32 ((st.stackptr : Int) - (n : Int) * 4))
              (n : Int) st).valstackbase ≤ st.stackptr + 4 * n
            rw [hvb]; omega
          · show st.stackptr + 4 * n ≤ (stkcopy_loop st.stackptr
              (glui32 ((st.stackptr : Int) - (n : Int) * 4)) (n : Int) st).stacksize
            rw [hsz]; omega
  · unfold op_throw
    rw [hpop]
    unfold pop_callstub
    simp only
    rw [if_pos ht]
    rfl
  · unfold op_throw
    rw [hpop]
    unfold pop_callstub
    simp only
    rw [if_neg (by omega)]
    rfl

/-- Instance of `stackptr_invariant_stack_ops`: five entries on the value
stack; `stkswap`, `stkroll 3, 1` and `stkcopy 2` complete. -/
theorem stackptr_invariant_stack_ops_witness :
    stack_invariant sample_vm ∧
    (∃ st1 : VM, op_stkswap stub_collab (operands [load 2, load 40]) sample_vm = Except.ok st1 ∧
      stack_invariant st1) ∧
    (∃ st1 : VM, op_stkcopy stub_collab (operands [load 2, load 40]) sample_vm = Except.ok st1 ∧
      stack_invariant st1 ∧ st1.stackptr = 32) := by
  have h := stackptr_invariant_stack_ops stub_collab (operands [load 2, load 40]) sample_vm
    (by decide) (by decide)
  refine ⟨by decide, ⟨_, rfl, h.1 _ rfl⟩, ⟨_, rfl, h.2.2.1 (by decide) _ rfl⟩⟩


/-! ## Conditional branches -/

/-- The two outcomes of `if (pred) { ...; goto PerformJump; } break;`. -/
theorem branch_cases (p : Prop) [Decidable p] (x y : Except String VM) :
    (p → (if p then x else y) = x) ∧ (¬ p → (if p then x else y) = y) :=
  ⟨fun h => if_pos h, fun h => if_neg h⟩

/-- C21: each conditional branch yields the state of the jump operation on its
final operand `t` when its predicate holds, and the post-decode state unchanged
(that of `op_nop`) when it does not; the predicates are `a = 0` (`jz`), `a ≠ 0`
(`jnz`), `a = b` (`jeq`), `a ≠ b` (`jne`), the signed comparisons `<`, `≤`, `>`,
`≥` (`jlt`, `jle`, `jgt`, `jge`) and the unsigned ones (`jltu`, `jleu`, `jgtu`,
`jgeu`); so `jlt 0xFFFFFFFF, 0` is taken and `jltu 0xFFFFFFFF, 0` is not. -/
theorem conditional_branches (c : Collab) (inst : Nat → oparg_t) (st : VM) :
    (((inst 0).value = 0 → op_jz c inst st = op_jump c (operands [load (inst 1).value]) st) ∧
     (¬ (inst 0).value = 0 → op_jz c inst st = op_nop c inst st)) ∧
    (((inst 0).value ≠ 0 → op_jnz c inst st = op_jump c (operands [load (inst 1).value]) st) ∧
     (¬ (inst 0).value ≠ 0 → op_jnz c inst st = op_nop c inst st)) ∧
    (((inst 0).value = (inst 1).value →
        op_jeq c inst st = op_jump c (operands [load (inst 2).value]) st) ∧
     (¬ (inst 0).value = (inst 1).value → op_jeq c inst st = op_nop c inst st)) ∧
    (((inst 0).value ≠ (inst 1).value →
        op_jne c inst st = op_jump c (operands [load (inst 2).value]) st) ∧
     (¬ (inst 0).value ≠ (inst 1).value → op_jne c inst st = op_nop c inst st)) ∧
    ((glsi32 (inst 0).value < glsi32 (inst 1).value →
        op_jlt c inst st = op_jump c (operands [load (inst 2).value]) st) ∧
     (¬ glsi32 (inst 0).value < glsi32 (inst 1).value → op_jlt c inst st = op_nop c inst st)) ∧
    ((glsi32 (inst 0).value ≤ glsi32 (inst 1).value →
        op_jle c inst st = op_jump c (operands [load (inst 2).value]) st) ∧
     (¬ glsi32 (inst 0).value ≤ glsi32 (inst 1).value → op_jle c inst st = op_nop c inst st)) ∧
    ((glsi32 (inst 0).value > glsi32 (inst 1).value →
        op_jgt c inst st = op_jump c (operands [load (inst 2).value]) st) ∧
     (¬ glsi32 (inst 0).value > glsi32 (inst 1).value → op_jgt c inst st = op_nop c inst st)) ∧
    ((glsi32 (inst 0).value ≥ glsi32 (inst 1).value →
        op_jge c inst st = op_jump c (operands [load (inst 2).value]) st) ∧
     (¬ glsi32 (inst 0).value ≥ glsi32 (inst 1).value → op_jge c inst st = op_nop c inst st)) ∧
    (((inst 0).value < (inst 1).value →
        op_jltu c inst st = op_jump c (operands [load (inst 2).value]) st) ∧
     (¬ (inst 0).value < (inst 1).value → op_jltu c inst st = op_nop c inst st)) ∧
    (((inst 0).value ≤ (inst 1).value →
        op_jleu c inst st = op_jump c (operands [load (inst 2).value]) st) ∧
     (¬ (inst 0).value ≤ (inst 1).value → op_jleu c inst st = op_nop c inst st)) ∧
    (((inst 0).value > (inst 1).value →
        op_jgtu c inst st = op_jump c (operands [load (inst 2).value]) st) ∧
     (¬ (inst 0).value > (inst 1).value → op_jgtu c inst st = op_nop c inst st)) ∧
    (((inst 0).value ≥ (inst 1).value →
        op_jgeu c inst st = op_jump c (operands [load (inst 2).value]) st) ∧
     (¬ (inst 0).value ≥ (inst 1).value → op_jgeu c inst st = op_nop c inst st)) ∧
    (glsi32 4294967295 < glsi32 0 ∧ ¬ (4294967295 < 0)) := by
  exact ⟨branch_cases _ _ _, branch_cases _ _ _, branch_cases _ _ _, branch_cases _ _ _,
    branch_cases _ _ _, branch_cases _ _ _, branch_cases _ _ _, branch_cases _ _ _,
    branch_cases _ _ _, branch_cases _ _ _, branch_cases _ _ _, branch_cases _ _ _,
    by decide⟩

/-- Instance of `conditional_branches`: `jlt 0xFFFFFFFF, 0, 8` is the jump by 8
and `jltu 0xFFFFFFFF, 0, 8` leaves the state as it is. -/
theorem conditional_branches_witness :
    op_jlt sample_collab (operands [load 4294967295, load 0, load 8]) sample_vm
      = Except.ok { sample_vm with pc := 306 } ∧
    op_jltu sample_collab (operands [load 4294967295, load 0, load 8]) sample_vm
      = Except.ok sample_vm := by
  have h := conditional_branches sample_collab (operands [load 4294967295, load 0, load 8])
    sample_vm
  refine ⟨?_, ?_⟩
  · rw [h.2.2.2.2.1.1 (by decide)]
    rfl
  · rw [h.2.2.2.2.2.2.2.2.1.2 (by decide)]
    rfl

/-! ## `random` -/

/-- C23: with `g` the number `glulx_random` returns, `op_random` stores `g`
itself for `L = 0`; `g mod L`, a value in `[0, L-1]`, for `L ≥ 1`; and for
`L < 0` the negation modulo `2^32` of `g mod |L|`, which read as signed lies in
`[L+1, 0]` (for `L = 0x80000000`, in `[-(2^31 - 1), 0]`). -/
theorem op_random_range (c : Collab) (inst : Nat → oparg_t) (st : VM)
    (hL : (inst 0).value < 4294967296) :
    ((inst 0).value = 0 →
      op_random c inst st
        = c.store_operand (inst 1).desttype (inst 1).value (c.glulx_random st).1
            (c.glulx_random st).2) ∧
    (1 ≤ glsi32 (inst 0).value →
      op_random c inst st
        = c.store_operand (inst 1).desttype (inst 1).value
            ((c.glulx_random st).1 % (inst 0).value) (c.glulx_random st).2 ∧
      (((c.glulx_random st).1 % (inst 0).value : Nat) : Int) ≤ glsi32 (inst 0).value - 1) ∧
    (glsi32 (inst 0).value < 0 →
      op_random c inst st
        = c.store_operand (inst 1).desttype (inst 1).value
            (glui32 (-(((c.glulx_random st).1 % (-glsi32 (inst 0).value).toNat : Nat) : Int)))
            (c.glulx_random st).2 ∧
      glsi32 (inst 0).value + 1
        ≤ glsi32 (glui32 (-(((c.glulx_random st).1
              % (-glsi32 (inst 0).value).toNat : Nat) : Int))) ∧
      glsi32 (glui32 (-(((c.glulx_random st).1
              % (-glsi32 (inst 0).value).toNat : Nat) : Int))) ≤ 0 ∧
      ((inst 0).value = 2147483648 →
        -2147483647 ≤ glsi32 (glui32 (-(((c.glulx_random st).1
              % (-glsi32 (inst 0).value).toNat : Nat) : Int))))) := by
  generalize hLv : (inst 0).value = L at *
  generalize hg : c.glulx_random st = gs
  obtain ⟨g, st1⟩ := gs
  dsimp only
  have hrun : op_random c inst st
      = if glsi32 L = 0 then c.store_operand (inst 1).desttype (inst 1).value g st1
        else if glsi32 L ≥ 1 then
          c.store_operand (inst 1).desttype (inst 1).value (g % glui32 (glsi32 L)) st1
        else c.store_operand (inst 1).desttype (inst 1).value
          (glui32 (-((g % glui32 (-glsi32 L) : Nat) : Int))) st1 := by
    unfold op_random
    simp only [hLv, hg]
  rw [hrun]
  refine ⟨fun h0 => ?_, fun h1 => ?_, fun hneg => ?_⟩
  · rw [if_pos ((glsi32_eq_zero hL).2 h0)]
  · have hlt : L < 2147483648 := by
      by_contra hge
      rw [glsi32_of_ge (by omega) hL] at h1
      omega
    have hs := glsi32_of_lt hlt
    rw [hs] at h1 ⊢
    have hpos : 0 < L := by omega
    have hm := Nat.mod_lt g hpos
    rw [if_neg (by omega), if_pos h1, glui32_of_lt hL]
    exact ⟨rfl, by omega⟩
  · have hge : 2147483648 ≤ L := by
      by_contra hlt
      rw [glsi32_of_lt (by omega)] at hneg
      omega
    have hs := glsi32_of_ge hge hL
    rw [hs] at hneg ⊢
    have e1 : glui32 (-(-((4294967296 - L : Nat) : Int))) = 4294967296 - L := by
      rw [neg_neg]; exact glui32_of_lt (by omega)
    have e2 : (-(-((4294967296 - L : Nat) : Int))).toNat = 4294967296 - L := by
      rw [neg_neg]; exact Int.toNat_ofNat _
    rw [if_neg (by omega), if_neg (by omega), e1, e2]
    have hm := Nat.mod_lt g (show 0 < 4294967296 - L by omega)
    generalize g % (4294967296 - L) = m at hm
    refine ⟨rfl, ?_, ?_, fun _ => ?_⟩
    · unfold glui32 glsi32; split <;> omega
    · unfold glui32 glsi32; split <;> omega
    · unfold glui32 glsi32; split <;> omega

/-- Instance of `op_random_range`: `g = 0xAAAAAAAA` and `L = 0`, `10`,
`0x80000000`. -/
theorem op_random_range_witness :
    op_random sample_collab (operands [load 0, load 0]) sample_vm
      = sample_collab.store_operand 0 0 2863311530 sample_vm ∧
    op_random sample_collab (operands [load 10, load 0]) sample_vm
      = sample_collab.store_operand 0 0 0 sample_vm ∧
    op_random sample_collab (operands [load 2147483648, load 0]) sample_vm
      = sample_collab.store_operand 0 0 3579139414 sample_vm := by
  have h0 := (op_random_range sample_collab (operands [load 0, load 0]) sample_vm
    (by decide)).1 rfl
  have h1 := ((op_random_range sample_collab (operands [load 10, load 0]) sample_vm
    (by decide)).2.1 (by decide)).1
  have h2 := ((op_random_range sample_collab (operands [load 2147483648, load 0]) sample_vm
    (by decide)).2.2 (by decide)).1
  rw [h0, h1, h2]
  exact ⟨rfl, rfl, rfl⟩


/-! ## `stkroll`: the cells used as scratch -/

theorem mem_foldl_pairs (f g : Nat → Nat) (n : Nat) :
    ∀ p, p ∈ (List.range n).foldl (fun (acc : List Nat) (ix : Nat) => acc ++ [f ix, g ix]) []
      → ∃ ix, ix < n ∧ (p = f ix ∨ p = g ix) := by
  refine foldl_range_invariant (fun (acc : List Nat) (ix : Nat) => acc ++ [f ix, g ix])
    (fun m acc => ∀ p, p ∈ acc → ∃ ix, ix < m ∧ (p = f ix ∨ p = g ix)) [] n ?_ ?_
  · intro p hp
    simp at hp
  · intro i acc _ ih p hp
    rw [List.mem_append] at hp
    rcases hp with hp | hp
    · obtain ⟨ix, hix, h⟩ := ih p hp
      exact ⟨ix, by omega, h⟩
    · simp only [List.mem_cons, List.mem_singleton, List.not_mem_nil, or_false] at hp
      exact ⟨i, by omega, hp⟩

/-- With `4n` bytes of room above the stack pointer (`n` the count, `1 ≤ n ≤
stkcount`, and a distance other than `INT_MIN`), every cell `op_stkroll` reads
or writes lies below `stacksize`. -/
theorem stkroll_cells_in_stack (inst : Nat → oparg_t) (st : VM)
    (hn : 1 ≤ (inst 0).value)
    (hcount : (inst 0).value ≤ (st.stackptr - st.valstackbase) / 4)
    (hr : (inst 1).value < 4294967296) (hmin : (inst 1).value ≠ 2147483648)
    (hroom : st.stackptr + 4 * (inst 0).value ≤ st.stacksize)
    (hsize : st.stacksize ≤ 4294967296) :
    ∀ p, p ∈ stkroll_cells inst st → p + 4 ≤ st.stacksize := by
  generalize hnv : (inst 0).value = n at *
  generalize hrv : (inst 1).value = r at *
  have hsp : st.stackptr < 4294967296 := by omega
  have hn31 : n < 2147483648 := by omega
  have hs0 : glsi32 n = (n : Int) := glsi32_of_lt hn31
  have hslo : -2147483648 < glsi32 r := by
    unfold glsi32; split <;> omega
  have hshi : glsi32 r < 2147483648 := by
    unfold glsi32; split <;> omega
  obtain ⟨d, hdn, _, hdist⟩ := stkroll_distance n (glsi32 r) (by omega) hslo hshi
  have haddr : glui32 ((st.stackptr : Int) - (n : Int) * 4) = st.stackptr - 4 * n := by
    unfold glui32; omega
  intro p hp
  unfold stkroll_cells at hp
  simp only [hnv, hrv, hs0, hdist, haddr, Int.toNat_ofNat] at hp
  split at hp
  · simp at hp
  · split at hp
    · simp at hp
    · split at hp
      · simp at hp
      · split at hp
        · simp at hp
        · rw [List.mem_append] at hp
          rcases hp with hp | hp
          · obtain ⟨ix, hix, h⟩ := mem_foldl_pairs _ _ d p hp
            rcases h with h | h
            · rw [h]; unfold glui32; omega
            · rw [h]; unfold glui32; omega
          · obtain ⟨ix, hix, h⟩ := mem_foldl_pairs _ _ n p hp
            rcases h with h | h
            · rw [h]; unfold glui32; omega
            · rw [h]; unfold glui32; omega

/-- Instance of `stkroll_cells_in_stack`: `stkroll 3, 1` on `sample_vm`, whose
stack has 1000 bytes of room. -/
theorem stkroll_cells_in_stack_witness :
    ∀ p, p ∈ stkroll_cells (operands [load 3, load 1]) sample_vm →
      p + 4 ≤ sample_vm.stacksize :=
  stkroll_cells_in_stack (operands [load 3, load 1]) sample_vm
    (by decide) (by decide) (by decide) (by decide) (by decide) (by decide)

/-- C22: `stkroll 3, 1` on a full stack (`stackptr = stacksize = 24`, five
values, the invariant holds). The normalized distance is 2; the run completes
without a fatal error, and its first loop writes the cells at offsets 24 and
28, at and above `stacksize`: the cell at offset 24 holds afterwards the value
read from offset 12. -/
theorem stkroll_full_stack_run :
    stack_invariant full_stack_vm ∧
    full_stack_vm.stackptr = full_stack_vm.stacksize ∧
    fatal_message (op_stkroll sample_collab (operands [load 3, load 1]) full_stack_vm)
      = none ∧
    stkroll_cells (operands [load 3, load 1]) full_stack_vm
      = [12, 24, 16, 28, 20, 12, 24, 16, 28, 20] ∧
    ¬ (24 + 4 ≤ full_stack_vm.stacksize) ∧
    Stk4 full_stack_vm 12 = 202182159 ∧
    Stk4 full_stack_vm 24 = 404298267 ∧
    stack_entry (op_stkroll sample_collab (operands [load 3, load 1]) full_stack_vm) 24
      = some 202182159 := by
  decide


/-! ## The random-number generator of `osdepend.c` -/

theorem seed_slot_lt (i : Nat) : (Int.tmod (21 * (i : Int)) 55).toNat < 55 := by
  have h := Int.tmod_eq_emod (show 0 ≤ 21 * (i : Int) by omega) (show (0 : Int) ≤ 55 by omega)
  rw [h]
  omega

theorem seed_slot_covers (j : Nat) (hj : j < 55) :
    ∃ i : Nat, i < 55 ∧ (Int.tmod (21 * (i : Int)) 55).toNat = j := by
  refine ⟨(21 * j) % 55, by omega, ?_⟩
  rw [Int.tmod_eq_emod (by omega) (by omega)]
  omega

theorem seed_slot_injective (i1 : Nat) (h1 : i1 < 55) (i2 : Nat) (h2 : i2 < 55)
    (h : (Int.tmod (21 * (i1 : Int)) 55).toNat = (Int.tmod (21 * (i2 : Int)) 55).toNat) :
    i1 = i2 := by
  rw [Int.tmod_eq_emod (by omega) (by omega), Int.tmod_eq_emod (by omega) (by omega)] at h
  omega

/-- Two runs of the first loop of `lo_seed_random` that start with the same `k`
and `seed`, and with tables that agree on the slots in `W`, end with the same
`k` and `seed` and with tables that agree on `W` and on every slot written. -/
theorem seed_loop_agree (l : List Nat) :
    ∀ (a b : SeedLoop) (W : Nat → Prop), a.k = b.k → a.seed = b.seed →
      (∀ j, W j → a.state.rand_table j = b.state.rand_table j) →
      (l.foldl seed_step a).k = (l.foldl seed_step b).k ∧
      (l.foldl seed_step a).seed = (l.foldl seed_step b).seed ∧
      (∀ j, (W j ∨ ∃ i : Nat, i ∈ l ∧ (Int.tmod (21 * (i : Int)) 55).toNat = j) →
        (l.foldl seed_step a).state.rand_table j = (l.foldl seed_step b).state.rand_table j) := by
  induction l with
  | nil =>
    intro a b W hk hs hW
    refine ⟨hk, hs, fun j hj => ?_⟩
    rcases hj with hj | ⟨i, hi, _⟩
    · exact hW j hj
    · simp at hi
  | cons i l ih =>
    intro a b W hk hs hW
    simp only [List.foldl_cons]
    have h := ih (seed_step a i) (seed_step b i)
      (fun j => W j ∨ j = (Int.tmod (21 * (i : Int)) 55).toNat)
      (by unfold seed_step; simp only [hk, hs])
      (by unfold seed_step; simp only [if_pos, hk])
      (by
        intro j hj
        unfold seed_step
        simp only
        by_cases e : j = (Int.tmod (21 * (i : Int)) 55).toNat
        · rw [if_pos e, if_pos e, hk]
        · rw [if_neg e, if_neg e]
          rcases hj with hj | hj
          · exact hW j hj
          · exact absurd hj e)
    refine ⟨h.1, h.2.1, fun j hj => h.2.2 j ?_⟩
    rcases hj with hj | ⟨i2, hi2, hj⟩
    · exact Or.inl (Or.inl hj)
    · rw [List.mem_cons] at hi2
      rcases hi2 with hi2 | hi2
      · subst hi2
        exact Or.inl (Or.inr hj.symm)
      · exact Or.inr ⟨i2, hi2, hj⟩

theorem seed_loop_indices (l : List Nat) : ∀ a : SeedLoop,
    (l.foldl seed_step a).state.rand_index1 = a.state.rand_index1 ∧
    (l.foldl seed_step a).state.rand_index2 = a.state.rand_index2 := by
  induction l with
  | nil => intro a; exact ⟨rfl, rfl⟩
  | cons i l ih =>
    intro a
    simp only [List.foldl_cons]
    exact ⟨(ih (seed_step a i)).1.trans rfl, (ih (seed_step a i)).2.trans rfl⟩

theorem mix_loop_indices (l : List Nat) : ∀ s : RandState,
    (l.foldl mix_step s).rand_index1 = s.rand_index1 ∧
    (l.foldl mix_step s).rand_index2 = s.rand_index2 := by
  induction l with
  | nil => intro s; exact ⟨rfl, rfl⟩
  | cons i l ih =>
    intro s
    simp only [List.foldl_cons]
    exact ⟨(ih (mix_step s i)).1.trans rfl, (ih (mix_step s i)).2.trans rfl⟩

theorem mix_slot_lt (i : Nat) : (Int.tmod (1 + (i : Int) + 30) 55).toNat < 55 := by
  have h := Int.tmod_eq_emod (show 0 ≤ 1 + (i : Int) + 30 by omega)
    (show (0 : Int) ≤ 55 by omega)
  rw [h]
  omega

theorem mix_step_agree (a b : RandState) (i : Nat) (hi : i < 55)
    (h : ∀ j, j < 55 → a.rand_table j = b.rand_table j) :
    ∀ j, j < 55 → (mix_step a i).rand_table j = (mix_step b i).rand_table j := by
  intro j hj
  unfold mix_step
  simp only
  rw [h i hi, h _ (mix_slot_lt i), h j hj]

theorem mix_loop_agree (l : List Nat) (hl : ∀ i, i ∈ l → i < 55) :
    ∀ a b : RandState, (∀ j, j < 55 → a.rand_table j = b.rand_table j) →
      ∀ j, j < 55 → (l.foldl mix_step a).rand_table j = (l.foldl mix_step b).rand_table j := by
  induction l with
  | nil => intro a b h; exact h
  | cons i l ih =>
    intro a b h
    simp only [List.foldl_cons]
    exact ih (fun i2 hi2 => hl i2 (List.mem_cons_of_mem _ hi2)) _ _
      (mix_step_agree a b i (hl i (List.mem_cons_self _ _)) h)

theorem mix_rounds_agree (m : List Nat) :
    ∀ a b : RandState, (∀ j, j < 55 → a.rand_table j = b.rand_table j) →
      ∀ j, j < 55 →
        (m.foldl (fun (s : RandState) (_loop : Nat) => (List.range 55).foldl mix_step s) a).rand_table j
          = (m.foldl (fun (s : RandState) (_loop : Nat) => (List.range 55).foldl mix_step s) b).rand_table j := by
  induction m with
  | nil => intro a b h; exact h
  | cons x m ih =>
    intro a b h
    simp only [List.foldl_cons]
    exact ih _ _ (mix_loop_agree (List.range 55) (fun i hi => List.mem_range.1 hi) a b h)

theorem mix_rounds_indices (m : List Nat) : ∀ s : RandState,
    (m.foldl (fun (s : RandState) (_loop : Nat) => (List.range 55).foldl mix_step s) s).rand_index1
      = s.rand_index1 ∧
    (m.foldl (fun (s : RandState) (_loop : Nat) => (List.range 55).foldl mix_step s) s).rand_index2
      = s.rand_index2 := by
  induction m with
  | nil => intro s; exact ⟨rfl, rfl⟩
  | cons x m ih =>
    intro s
    simp only [List.foldl_cons]
    exact ⟨(ih _).1.trans (mix_loop_indices _ s).1, (ih _).2.trans (mix_loop_indices _ s).2⟩

/-- After `lo_seed_random` the indices are 0 and 31. -/
theorem lo_seed_random_indices (seed : Nat) (s : RandState) :
    (lo_seed_random seed s).rand_index1 = 0 ∧ (lo_seed_random seed s).rand_index2 = 31 := by
  unfold lo_seed_random
  simp only
  exact ⟨((mix_rounds_indices _ _).1.trans (seed_loop_indices _ _).1),
    ((mix_rounds_indices _ _).2.trans (seed_loop_indices _ _).2)⟩

/-- After `lo_seed_random` the 55 entries of the table do not depend on the
state before the call. -/
theorem lo_seed_random_table (seed : Nat) (s1 s2 : RandState) :
    ∀ j, j < 55 →
      (lo_seed_random seed s1).rand_table j = (lo_seed_random seed s2).rand_table j := by
  unfold lo_seed_random
  simp only
  refine mix_rounds_agree _ _ _ (fun j hj => ?_)
  refine (seed_loop_agree (List.range 55) _ _ (fun _ => False) ?_ ?_ ?_).2.2 j (Or.inr ?_)
  · rfl
  · rfl
  · exact fun _ hf => hf.elim
  obtain ⟨i, hi, e⟩ := seed_slot_covers j hj
  exact ⟨i, List.mem_range.2 hi, e⟩

/-- One call of `lo_random` from two states with the same indices, in `0..54`
and 31 apart modulo 55, and the same 55 entries: the outputs are equal, and
the states after the call are again so related. -/
theorem lo_random_agree (a b : RandState)
    (h1 : a.rand_index1 = b.rand_index1) (h2 : a.rand_index2 = b.rand_index2)
    (hlo : 0 ≤ a.rand_index1) (hhi : a.rand_index1 < 55)
    (hoff : a.rand_index2 = (a.rand_index1 + 31) % 55)
    (ht : ∀ j, j < 55 → a.rand_table j = b.rand_table j) :
    (lo_random a).1 = (lo_random b).1 ∧
    (lo_random a).2.rand_index1 = (lo_random b).2.rand_index1 ∧
    (lo_random a).2.rand_index2 = (lo_random b).2.rand_index2 ∧
    0 ≤ (lo_random a).2.rand_index1 ∧ (lo_random a).2.rand_index1 < 55 ∧
    (lo_random a).2.rand_index2 = ((lo_random a).2.rand_index1 + 31) % 55 ∧
    (∀ j, j < 55 → (lo_random a).2.rand_table j = (lo_random b).2.rand_table j) := by
  have e1 : Int.tmod (a.rand_index1 + 1) 55 = (a.rand_index1 + 1) % 55 :=
    Int.tmod_eq_emod (by omega) (by omega)
  have e2 : Int.tmod (a.rand_index2 + 1) 55 = (a.rand_index2 + 1) % 55 :=
    Int.tmod_eq_emod (by omega) (by omega)
  have r1 : ((a.rand_index1 + 1) % 55).toNat < 55 := by omega
  have r2 : ((a.rand_index2 + 1) % 55).toNat < 55 := by omega
  refine ⟨?_, ?_, ?_, ?_, ?_, ?_, fun j hj => ?_⟩
  · unfold lo_random
    simp only [↓reduceIte, ← h1, ← h2, e1, e2]
    rw [ht _ r1, ht _ r2]
  · unfold lo_random
    simp only [h1]
  · unfold lo_random
    simp only [h2]
  · unfold lo_random
    simp only [e1]
    omega
  · unfold lo_random
    simp only [e1]
    omega
  · unfold lo_random
    simp only [e1, e2]
    omega
  · unfold lo_random
    simp only [← h1, ← h2, e1, e2]
    rw [ht _ r1, ht _ r2, ht j hj]

theorem lo_random_outputs_agree (n : Nat) : ∀ a b : RandState,
    a.rand_index1 = b.rand_index1 → a.rand_index2 = b.rand_index2 →
    0 ≤ a.rand_index1 → a.rand_index1 < 55 →
    a.rand_index2 = (a.rand_index1 + 31) % 55 →
    (∀ j, j < 55 → a.rand_table j = b.rand_table j) →
    lo_random_outputs n a = lo_random_outputs n b := by
  induction n with
  | zero => intro a b _ _ _ _ _ _; rfl
  | succ n ih =>
    intro a b h1 h2 hlo hhi hoff ht
    obtain ⟨g, i1, i2, glo, ghi, goff, gt⟩ := lo_random_agree a b h1 h2 hlo hhi hoff ht
    unfold lo_random_outputs
    rw [g, ih _ _ i1 i2 glo ghi goff gt]

theorem lo_random_indices (n : Nat) : ∀ a : RandState,
    0 ≤ a.rand_index1 → a.rand_index1 < 55 →
    a.rand_index2 = (a.rand_index1 + 31) % 55 →
    0 ≤ (Nat.iterate (fun s => (lo_random s).2) n a).rand_index1 ∧
    (Nat.iterate (fun s => (lo_random s).2) n a).rand_index1 < 55 ∧
    0 ≤ (Nat.iterate (fun s => (lo_random s).2) n a).rand_index2 ∧
    (Nat.iterate (fun s => (lo_random s).2) n a).rand_index2 < 55 ∧
    (Nat.iterate (fun s => (lo_random s).2) n a).rand_index2
      = ((Nat.iterate (fun s => (lo_random s).2) n a).rand_index1 + 31) % 55 := by
  induction n with
  | zero =>
    intro a hlo hhi hoff
    simp only [Function.iterate_zero, id_eq]
    omega
  | succ n ih =>
    intro a hlo hhi hoff
    obtain ⟨_, _, _, glo, ghi, goff, _⟩ :=
      lo_random_agree a a rfl rfl hlo hhi hoff (fun _ _ => rfl)
    simp only [Function.iterate_succ, Function.comp_apply]
    exact ih _ glo ghi goff

/-- C24: the slots `(21*i) mod 55`, `i = 0..54`, are each of `0..54` exactly
once; after `lo_seed_random seed` the indices are 0 and 31 and the 55 entries
of `rand_table` are the same whatever the state before the call; after any
number `n` of `lo_random` calls both indices are in `0..54` with
`rand_index2 = (rand_index1 + 31) mod 55`; and the first `n` outputs of
`lo_random` after seeding are the same whatever the state before seeding. -/
theorem lo_seed_random_determined (seed : Nat) (s1 s2 : RandState) (n : Nat) :
    (∀ j, j < 55 → ∃ i : Nat, i < 55 ∧ (Int.tmod (21 * (i : Int)) 55).toNat = j) ∧
    (∀ i1 : Nat, i1 < 55 → ∀ i2 : Nat, i2 < 55 →
      (Int.tmod (21 * (i1 : Int)) 55).toNat = (Int.tmod (21 * (i2 : Int)) 55).toNat →
      i1 = i2) ∧
    (lo_seed_random seed s1).rand_index1 = 0 ∧
    (lo_seed_random seed s1).rand_index2 = 31 ∧
    (∀ j, j < 55 →
      (lo_seed_random seed s1).rand_table j = (lo_seed_random seed s2).rand_table j) ∧
    (0 ≤ (Nat.iterate (fun s => (lo_random s).2) n (lo_seed_random seed s1)).rand_index1 ∧
     (Nat.iterate (fun s => (lo_random s).2) n (lo_seed_random seed s1)).rand_index1 < 55 ∧
     0 ≤ (Nat.iterate (fun s => (lo_random s).2) n (lo_seed_random seed s1)).rand_index2 ∧
     (Nat.iterate (fun s => (lo_random s).2) n (lo_seed_random seed s1)).rand_index2 < 55 ∧
     (Nat.iterate (fun s => (lo_random s).2) n (lo_seed_random seed s1)).rand_index2
       = ((Nat.iterate (fun s => (lo_random s).2) n (lo_seed_random seed s1)).rand_index1
           + 31) % 55) ∧
    lo_random_outputs n (lo_seed_random seed s1)
      = lo_random_outputs n (lo_seed_random seed s2) := by
  have i1 := lo_seed_random_indices seed s1
  have i2 := lo_seed_random_indices seed s2
  have hoff : (lo_seed_random seed s1).rand_index2
      = ((lo_seed_random seed s1).rand_index1 + 31) % 55 := by
    rw [i1.1, i1.2]; rfl
  exact ⟨seed_slot_covers, seed_slot_injective, i1.1, i1.2, lo_seed_random_table seed s1 s2,
    lo_random_indices n _ (by rw [i1.1]) (by rw [i1.1]; decide) hoff,
    lo_random_outputs_agree n _ _ (i1.1.trans i2.1.symm) (i1.2.trans i2.2.symm)
      (by rw [i1.1]) (by rw [i1.1]; decide) hoff (lo_seed_random_table seed s1 s2)⟩

end Glulxe
